import Mathlib

/-!
# sh61: the job-control shell of pset5 (`src/pset5/sh61.c`)

A shallow embedding of `command_alloc`, `command_append_arg`, `start_command`,
`run_list` and `eval_line`, run against an explicit model of the operating
system as the shell process sees it (fork, waitpid, pipe, chdir).

* The linked list of `struct command` nodes is a `List command`: the `next`
  pointer of a node is the following element, and the last node has
  `next == NULL`.
* The operating system's choices (what fork returns, how and when a child
  ends, whether pipe and chdir succeed) are read from scripts held in `World`.
* Only the shell process is followed.  The branch of `start_command` that runs
  in the forked child ends in `execvp` or `_exit` and never returns to the
  caller; it is the outcome `Outcome.inChild`.
* `debug` is taken to be 0 (`debug_print_command` only prints).
-/

namespace Sh61

/-! ## Constants of the absent header -/

/-- The integer constants that sh61.c takes from sh61.h.  The header is not
among the sources, so the codes are kept abstract: every definition below takes
them as the parameter `k`. -/
structure Sh61h where
  TOKEN_NORMAL : Int
  TOKEN_SEQUENCE : Int
  TOKEN_BACKGROUND : Int
  TOKEN_PIPE : Int
  TOKEN_AND : Int
  TOKEN_OR : Int
  PIPE_NONE : Int
  PIPE_IN : Int
  PIPE_OUT : Int
deriving DecidableEq, Repr

/-- What the code relies on about the header: the six token codes are pairwise
distinct, the two conditional codes differ from 0 (the value `command_alloc`
gives to `conditional`), and the three pipe roles are pairwise distinct. -/
def Sh61h.distinct (k : Sh61h) : Prop :=
  [k.TOKEN_NORMAL, k.TOKEN_SEQUENCE, k.TOKEN_BACKGROUND, k.TOKEN_PIPE,
    k.TOKEN_AND, k.TOKEN_OR].Nodup
  ∧ k.TOKEN_AND ≠ 0 ∧ k.TOKEN_OR ≠ 0
  ∧ [k.PIPE_NONE, k.PIPE_IN, k.PIPE_OUT].Nodup

instance (k : Sh61h) : Decidable k.distinct := by
  unfold Sh61h.distinct
  infer_instance

/-- One admissible header, used for concrete runs. -/
def sh61h : Sh61h :=
  { TOKEN_NORMAL := 0, TOKEN_SEQUENCE := 2, TOKEN_BACKGROUND := 3, TOKEN_PIPE := 4,
    TOKEN_AND := 5, TOKEN_OR := 6, PIPE_NONE := 0, PIPE_IN := 1, PIPE_OUT := 2 }

/-! ## struct command -/

/-- The record `struct command`, without its `next` pointer (the list order
stands for it).  `argv` is the array behind the `char**`: the empty list is the
NULL pointer, `none` is a NULL entry. -/
structure command where
  argc : Nat
  argv : List (Option String)
  pid : Int
  background : Int
  conditional : Int
  exit_status : Int
  pipe_type : Int
  pipe_fds : Int × Int
  stdin_fd : Int
  stdout_fd : Int
  stderr_fd : Int
deriving DecidableEq, Repr

/-- The built-in command name `BUILTIN_CD`. -/
def BUILTIN_CD : String := "cd"

/-- The built-in command name `BUILTIN_EXIT`. -/
def BUILTIN_EXIT : String := "exit"

/-- Translation of `command_alloc`: a fresh node (its `next` is NULL). -/
def command_alloc (k : Sh61h) : command :=
  { argc := 0, argv := [], pid := -1, background := 0, conditional := 0,
    exit_status := 42, pipe_type := k.PIPE_NONE, pipe_fds := (-1, -1),
    stdin_fd := 0, stdout_fd := 1, stderr_fd := 2 }

/-- Translation of `command_append_arg`: the array is grown to `argc + 2`
entries, `word` is stored at index `argc`, NULL at index `argc + 1`, and
`argc` is incremented. -/
def command_append_arg (c : command) (word : String) : command :=
  { c with argv := c.argv.take c.argc ++ [some word, none], argc := c.argc + 1 }

/-! ## The operating system as seen by the shell -/

/-- A child of the shell that has not been reaped, with the raw wait status it
ends with. -/
structure Child where
  pid : Int
  status : Int
deriving DecidableEq, Repr

/-- What one call of fork does: the value returned in the shell, the raw wait
status the new child will end with, and how many of the shell's unreaped
children a wait for any child reports before it. -/
structure ForkResult where
  ret : Int
  status : Int
  rank : Nat
deriving DecidableEq, Repr

/-- The system calls and library calls the shell makes, in order.
`set_foreground` is the helper declared in sh61.h that hands the terminal to a
process group; sh61.c calls it in `main` only. -/
inductive Event where
  | fork (c : command) (ret : Int)
  | chdir (path : Option String) (ret : Int)
  | wait (pid : Int) (ret : Int) (status : Int)
  | poll (ret : Int)
  | pipe (fds : Option (Int × Int))
  | perror (msg : String)
  | printf (msg : String)
  | command_free (c : command)
  | set_foreground (pgid : Int)
deriving DecidableEq, Repr

/-- The state of the world around the shell process.  `forks`, `chdirs`,
`pipes` and `polls` script the results of the coming calls (an exhausted script
means failure, or no child ready).  `children` lists the unreaped children in
the order in which a wait for any child reports them; every child is assumed to
end eventually.  `pgrp` is the shell's process group, `fds` the descriptors
open in the shell, `trace` the calls made so far. -/
structure World where
  forks : List ForkResult
  chdirs : List Int
  pipes : List (Option (Int × Int))
  polls : List Bool
  children : List Child
  pgrp : Int
  fds : List Int
  trace : List Event
deriving DecidableEq, Repr

/-- Append one call to the trace. -/
def World.log (w : World) (e : Event) : World :=
  { w with trace := w.trace ++ [e] }

/-- The system call fork, in the shell: a positive result creates a child. -/
def World.fork (w : World) (c : command) : Int × World :=
  match w.forks with
  | [] => (-1, w.log (.fork c (-1)))
  | f :: fs =>
    if f.ret > 0 then
      (f.ret,
        { w with
          forks := fs,
          children := w.children.take f.rank ++ ⟨f.ret, f.status⟩ :: w.children.drop f.rank,
          trace := w.trace ++ [.fork c f.ret] })
    else
      (f.ret, { w with forks := fs, trace := w.trace ++ [.fork c f.ret] })

/-- The system call chdir: 0 on success, -1 on failure. -/
def World.chdir (w : World) (path : Option String) : Int × World :=
  match w.chdirs with
  | [] => (-1, w.log (.chdir path (-1)))
  | r :: rs => (r, { w with chdirs := rs, trace := w.trace ++ [.chdir path r] })

/-- The system call pipe: on success two descriptors (read end, write end) are
opened in the shell. -/
def World.pipe (w : World) : Option (Int × Int) × World :=
  match w.pipes with
  | [] => (none, w.log (.pipe none))
  | none :: ps => (none, { w with pipes := ps, trace := w.trace ++ [.pipe none] })
  | some (r, wr) :: ps =>
    (some (r, wr),
      { w with pipes := ps, fds := r :: wr :: w.fds, trace := w.trace ++ [.pipe (some (r, wr))] })

/-- Which children a `waitpid(pid, ...)` call may report: the child `pid` when
`pid > 0`, any child when `pid == -1`, the children in the caller's process
group when `pid == 0`, those in group `-pid` when `pid < -1`.  The shell never
calls setpgid, so its children are in its own group. -/
def World.eligible (w : World) (pid : Int) (ch : Child) : Bool :=
  if pid > 0 then decide (ch.pid = pid)
  else if pid = -1 ∨ pid = 0 then true
  else decide (-pid = w.pgrp)

/-- The call `waitpid(pid, &status, 0)`: blocks until an eligible child has
ended, reaps it and stores its raw status; with no eligible child it returns -1
and leaves `status` as it was.  Result: return value, `status` afterwards. -/
def World.waitpid (w : World) (pid : Int) (status : Int) : Int × Int × World :=
  match w.children.find? (w.eligible pid) with
  | none => (-1, status, w.log (.wait pid (-1) status))
  | some ch =>
    (ch.pid, ch.status,
      { w with
        children := w.children.eraseP (w.eligible pid),
        trace := w.trace ++ [.wait pid ch.pid ch.status] })

/-- The call `waitpid(-1, 0, WNOHANG)`: reaps the first child in report order
if the script says it has already ended; never blocks. -/
def World.waitpid_nohang (w : World) : World :=
  match w.polls, w.children with
  | true :: ps, ch :: chs =>
    { w with polls := ps, children := chs, trace := w.trace ++ [.poll ch.pid] }
  | _ :: ps, [] => { w with polls := ps, trace := w.trace ++ [.poll (-1)] }
  | _ :: ps, _ :: _ => { w with polls := ps, trace := w.trace ++ [.poll 0] }
  | [], [] => w.log (.poll (-1))
  | [], _ :: _ => w.log (.poll 0)

/-- The macro `WIFEXITED(status)` of sys/wait.h: `(status & 0x7f) == 0`. -/
def WIFEXITED (status : Int) : Bool := status % 128 == 0

/-- The macro `WEXITSTATUS(status)` of sys/wait.h: `(status & 0xff00) >> 8`. -/
def WEXITSTATUS (status : Int) : Int := (status / 256) % 256

/-! ## Command evaluation -/

/-- How a function of the shell ends. -/
inductive Outcome (α : Type) where
  | ret (a : α) (w : World)
  | exited (status : Int) (w : World)
  | inChild (w : World)
  | fault (w : World)
  | fuel (w : World)
deriving DecidableEq, Repr

/-- The world in which a function ended. -/
def Outcome.world {α : Type} : Outcome α → World
  | .ret _ w => w
  | .exited _ w => w
  | .inChild w => w
  | .fault w => w
  | .fuel w => w

/-- Translation of `start_command(c, pgid)`.  It returns the command as the
shell holds it afterwards and the returned `pid_t`.  Reading `argv[0]` through
a NULL `argv`, or comparing a NULL `argv[0]`, is `fault`; `_exit` is `exited`;
fork returning 0 is the child's side. -/
def start_command (c : command) (_pgid : Int) (w : World) : Outcome (command × Int) :=
  match c.argv with
  | [] => .fault w
  | none :: _ => .fault w
  | some argv0 :: _ =>
    if argv0 = BUILTIN_CD then
      match w.chdir (c.argv.getD 1 none) with
      | (r, w1) =>
        if r = -1 then .ret (c, -1) (w1.log (.perror "failed to change cwd: "))
        else .ret (c, 0) w1
    else if argv0 = BUILTIN_EXIT then .exited 0 w
    else
      match w.fork c with
      | (child_pid, w1) =>
        if child_pid = 0 then .inChild w1
        else if child_pid > 0 then .ret (c, c.pid) w1
        else .ret (c, -1) (w1.log (.perror "Failed to fork, oh dear: "))

/-- Translation of `run_list(c)`.  `current :: next` is the list from the
cursor on; `status` is the local variable of that name, whose value at entry is
whatever the stack holds.  Each loop iteration uses one unit of the first
argument; `Outcome.fuel` means the loop was still running when it ran out. -/
def run_list (k : Sh61h) : Nat → List command → Int → World → Outcome Unit
  | 0, _, _, w => .fuel w
  | _ + 1, [], _, w => .fault w
  | n + 1, current :: next, status, w =>
    if current.argc = 0 then .ret () w
    else
      match start_command current 42 w with
      | .ret (cur, child) w1 =>
        match (if cur.background = 0 then
                 ((w1.waitpid child status).2.1, (w1.waitpid child status).2.2)
               else (status, w1)) with
        | (status1, w2) =>
          if next = [] then .ret () w2
          else if cur.conditional = k.TOKEN_AND ∧ WIFEXITED status1 = true
              ∧ WEXITSTATUS status1 = 0 then
            run_list k n next status1 w2
          else if cur.conditional = k.TOKEN_AND then .ret () w2
          else if cur.conditional = k.TOKEN_OR ∧ WIFEXITED status1 = true
              ∧ WEXITSTATUS status1 ≠ 0 then
            run_list k n next status1 w2
          else if cur.conditional = k.TOKEN_OR then .ret () w2
          else if cur.conditional = 0 then run_list k n next status1 w2
          else
            run_list k n (cur :: next) status1
              (w2.log (.printf "Uncaught conditions Considered Harmful... \n"))
      | .exited s w1 => .exited s w1
      | .inChild w1 => .inChild w1
      | .fault w1 => .fault w1
      | .fuel w1 => .fuel w1

/-! ## Building and evaluating a line -/

/-- The list under construction in `eval_line`: the nodes before `current`, the
node `current` points to, the nodes linked after it, and the counter
`allocs`. -/
structure LineState where
  before : List command
  current : command
  after : List command
  allocs : Nat
deriving DecidableEq, Repr

/-- The whole list, from `c1` on. -/
def LineState.list (st : LineState) : List command :=
  st.before ++ st.current :: st.after

/-- The body of the while loop of `eval_line` for one token of kind `type` and
text `token`, up to the final `waitpid`.  The third component tells whether the
loop was left through `break`.  `memcpy` returns its destination, so the two
tests on its result never fire; the copies are made. -/
def eval_token (k : Sh61h) (type : Int) (token : String) (st0 : LineState) (w : World) :
    LineState × World × Bool :=
  let st1 : LineState :=
    if type = k.TOKEN_NORMAL then
      { st0 with current := command_append_arg st0.current token }
    else st0
  let st2 : LineState :=
    if type = k.TOKEN_BACKGROUND then
      { st1 with current := { st1.current with background := 1 } }
    else st1
  let st3 : LineState :=
    if type = k.TOKEN_AND ∨ type = k.TOKEN_OR then
      { st2 with current := { st2.current with conditional := type } }
    else st2
  let st4 : LineState :=
    if type = k.TOKEN_SEQUENCE ∨ type = k.TOKEN_BACKGROUND ∨ type = k.TOKEN_AND
        ∨ type = k.TOKEN_OR then
      { before := st3.before ++ [st3.current], current := command_alloc k, after := [],
        allocs := st3.allocs + 1 }
    else st3
  if type = k.TOKEN_PIPE then
    let src : command := { st4.current with pipe_type := k.PIPE_IN, background := 1 }
    let next_command : command := { command_alloc k with pipe_type := k.PIPE_OUT }
    match w.pipe with
    | (none, w1) =>
      ({ before := st4.before, current := src, after := [next_command],
         allocs := st4.allocs + 1 },
        w1.log (.perror "Failed to create pipe: "), true)
    | (some (r, wr), w1) =>
      ({ before := st4.before ++ [{ src with pipe_fds := (r, wr), stdout_fd := wr }],
         current := { next_command with pipe_fds := (r, wr), stdin_fd := r },
         after := [], allocs := st4.allocs + 1 },
        w1, false)
  else (st4, w, false)

/-- The while loop of `eval_line` over the token stream that
`parse_shell_token` delivers (kind and text of each token).  The third
component is the part of the stream that was not consumed. -/
def eval_loop (k : Sh61h) :
    List (Int × String) → LineState → World → LineState × World × List (Int × String)
  | [], st, w => (st, w, [])
  | (type, token) :: rest, st, w =>
    match eval_token k type token st w with
    | (st1, w1, true) => (st1, w1, rest)
    | (st1, w1, false) => eval_loop k rest st1 w1.waitpid_nohang

/-- The state of `eval_line` before its loop: `c1` freshly allocated,
`allocs == 1`. -/
def line_init (k : Sh61h) : LineState :=
  { before := [], current := command_alloc k, after := [], allocs := 1 }

/-- The list that `eval_line` builds from a token stream. -/
def build (k : Sh61h) (s : List (Int × String)) (w : World) : List command :=
  (eval_loop k s (line_init k) w).1.list

/-- The first loop of the reclaiming code: `arr[0 .. allocs)` filled by
following `next`; `none` when a NULL pointer is followed. -/
def collect : Nat → List command → Option (List command)
  | 0, _ => some []
  | _ + 1, [] => none
  | n + 1, c :: next => (collect n next).map (c :: ·)

/-- Translation of `eval_line(s)`, the line given as its token stream. -/
def eval_line (k : Sh61h) (fuel : Nat) (s : List (Int × String)) (status : Int) (w : World) :
    Outcome Unit :=
  match eval_loop k s (line_init k) w with
  | (st, w1, _) =>
    match (if (st.list.headD st.current).argc ≠ 0 then run_list k fuel st.list status w1
           else .ret () w1) with
    | .ret () w2 =>
      match collect st.allocs st.list with
      | none => .fault w2
      | some arr =>
        .ret () { w2 with trace := w2.trace ++ arr.reverse.map Event.command_free }
    | other => other

/-- The commands on which fork was called, in order. -/
def launched : List Event → List command
  | [] => []
  | .fork c _ :: es => c :: launched es
  | _ :: es => launched es

/-- The words of a command: its `argv` entries before the terminating NULL. -/
def command.words (c : command) : List String :=
  c.argv.filterMap id

/-- A world in which nothing has happened yet and no child is unreaped. -/
def World.fresh (forks : List ForkResult) (chdirs : List Int)
    (pipes : List (Option (Int × Int))) : World :=
  { forks := forks, chdirs := chdirs, pipes := pipes, polls := [], children := [],
    pgrp := 100, fds := [0, 1, 2], trace := [] }

/-- Whether a function returned to its caller. -/
def Outcome.returned {α : Type} : Outcome α → Bool
  | .ret _ _ => true
  | _ => false

/-- The blocking waits of a trace, in order: the `pid` argument, the child
reaped (or -1) and the value of `status` afterwards. -/
def waits : List Event → List (Int × Int × Int)
  | [] => []
  | .wait pid ret status :: es => (pid, ret, status) :: waits es
  | _ :: es => waits es

/-- The number of PIPE tokens in a token stream. -/
def pipe_tokens (k : Sh61h) (s : List (Int × String)) : Nat :=
  (s.filter (fun t => decide (t.1 = k.TOKEN_PIPE))).length

/-- Whether a token of kind `type` makes `eval_line` start a new node. -/
def ends_command (k : Sh61h) (type : Int) : Bool :=
  decide (type = k.TOKEN_SEQUENCE ∨ type = k.TOKEN_BACKGROUND ∨ type = k.TOKEN_AND
    ∨ type = k.TOKEN_OR ∨ type = k.TOKEN_PIPE)

/-- The kind of the first token of a stream that starts a new node, if any. -/
def next_operator (k : Sh61h) (s : List (Int × String)) : Option Int :=
  (s.find? (fun t => ends_command k t.1)).map (fun t => t.1)

/-- The current node after the first three tests of the loop body of
`eval_line` (WORD appends, BACKGROUND sets the flag, AND/OR set the
conditional), before any new node is linked. -/
def touch (k : Sh61h) (type : Int) (token : String) (c : command) : command :=
  let a : command := if type = k.TOKEN_NORMAL then command_append_arg c token else c
  let b : command := if type = k.TOKEN_BACKGROUND then { a with background := 1 } else a
  if type = k.TOKEN_AND ∨ type = k.TOKEN_OR then { b with conditional := type } else b

/-- The WORD tokens of one command. -/
def word_tokens (k : Sh61h) (ws : List String) : List (Int × String) :=
  ws.map (fun s => (k.TOKEN_NORMAL, s))

/-- The token stream of the line `c1 | c2 | ... | cn`, each command given by
its words. -/
def pipeline_tokens (k : Sh61h) : List (List String) → List (Int × String)
  | [] => []
  | [ws] => word_tokens k ws
  | ws :: c :: cs => word_tokens k ws ++ (k.TOKEN_PIPE, "|") :: pipeline_tokens k (c :: cs)

/-- Whether every token that starts a new node directly follows a WORD token;
the flag tells whether the token before the stream was a WORD. -/
def operators_follow_words (k : Sh61h) : Bool → List (Int × String) → Bool
  | _, [] => true
  | prev, (type, _) :: s =>
    (if ends_command k type = true then prev else true)
      && operators_follow_words k (decide (type = k.TOKEN_NORMAL)) s

/-- The nodes handed to `command_free`, in order. -/
def freed : List Event → List command
  | [] => []
  | .command_free c :: es => c :: freed es
  | _ :: es => freed es

/-- The process groups handed to `set_foreground`, in order. -/
def foreground_calls : List Event → List Int
  | [] => []
  | .set_foreground pgid :: es => pgid :: foreground_calls es
  | _ :: es => foreground_calls es

/-- The messages handed to `printf`, in order. -/
def printed : List Event → List String
  | [] => []
  | .printf msg :: es => msg :: printed es
  | _ :: es => printed es

/-- The loop of `run_list` once more, returning beside the outcome the nodes
that were handed to `start_command`, in order. -/
def run_list_started (k : Sh61h) :
    Nat → List command → Int → World → List command × Outcome Unit
  | 0, _, _, w => ([], .fuel w)
  | _ + 1, [], _, w => ([], .fault w)
  | n + 1, current :: next, status, w =>
    if current.argc = 0 then ([], .ret () w)
    else
      match start_command current 42 w with
      | .ret (cur, child) w1 =>
        match (if cur.background = 0 then
                 ((w1.waitpid child status).2.1, (w1.waitpid child status).2.2)
               else (status, w1)) with
        | (status1, w2) =>
          if next = [] then ([current], .ret () w2)
          else if cur.conditional = k.TOKEN_AND ∧ WIFEXITED status1 = true
              ∧ WEXITSTATUS status1 = 0 then
            (current :: (run_list_started k n next status1 w2).1,
              (run_list_started k n next status1 w2).2)
          else if cur.conditional = k.TOKEN_AND then ([current], .ret () w2)
          else if cur.conditional = k.TOKEN_OR ∧ WIFEXITED status1 = true
              ∧ WEXITSTATUS status1 ≠ 0 then
            (current :: (run_list_started k n next status1 w2).1,
              (run_list_started k n next status1 w2).2)
          else if cur.conditional = k.TOKEN_OR then ([current], .ret () w2)
          else if cur.conditional = 0 then
            (current :: (run_list_started k n next status1 w2).1,
              (run_list_started k n next status1 w2).2)
          else
            (current :: (run_list_started k n (cur :: next) status1
                (w2.log (.printf "Uncaught conditions Considered Harmful... \n"))).1,
              (run_list_started k n (cur :: next) status1
                (w2.log (.printf "Uncaught conditions Considered Harmful... \n"))).2)
      | .exited s w1 => ([current], .exited s w1)
      | .inChild w1 => ([current], .inChild w1)
      | .fault w1 => ([current], .fault w1)
      | .fuel w1 => ([current], .fuel w1)

/-- The array behind `argv` starts with a string whenever `argc` is not 0. -/
def command.argv0_valid (c : command) : Prop :=
  c.argc ≠ 0 → ∃ (a : String) (rest : List (Option String)), c.argv = some a :: rest

end Sh61

/-!
# io61: the buffered I/O library of pset3 (`src/pset3/io61.c`)

A shallow embedding of `io61_read`, `io61_write` and `io61_flush`.  An
`io61_file` is followed together with the kernel's side of its descriptor
(`Fd`): the bytes of the file, the descriptor's offset, scripts for the results
of the coming `read` and `write` calls, and the buffers handed to `write`.
Offsets (`off_t`) are `Int`; byte counts are `Nat`, and the conversion of a
`size_t` difference to `ssize_t` is `to_ssize`.  The two loops take fuel, one
unit per iteration.
-/

namespace Io61

/-- The constant `BUF_SIZE`. -/
def BUF_SIZE : Int := 4096

/-- The record `struct io61_file`; `buff` is the array `char buff[BUF_SIZE]`. -/
structure io61_file where
  fd : Int
  buff : List Nat
  tag : Int
  end_tag : Int
  pos_tag : Int
deriving DecidableEq, Repr

/-- The kernel's side of a descriptor.  `data` are the bytes of the file,
`offset` the descriptor's file offset.  Each entry of `reads` scripts one call
of read: `none` makes it fail with -1, `some m` makes it transfer at most `m`
bytes; with the script exhausted a read transfers all it can.  Each entry of
`writes` scripts the result of one call of write: `none` means everything was
written, `some r` that `r` is returned; with the script exhausted everything is
written.  `written` lists the buffers handed to write, in order (the effect of
a write on the file itself is not followed). -/
structure Fd where
  data : List Nat
  offset : Nat
  reads : List (Option Nat)
  writes : List (Option Int)
  written : List (List Nat)
deriving DecidableEq, Repr

/-- The system call `read(fd, buf, count)`: the result and the bytes stored
at the start of `buf`. -/
def sys_read (d : Fd) (count : Nat) : Int × List Nat × Fd :=
  match d.reads with
  | none :: rs => (-1, [], { d with reads := rs })
  | some m :: rs =>
    ((((d.data.drop d.offset).take (min m count)).length : Nat),
      (d.data.drop d.offset).take (min m count),
      { d with reads := rs,
               offset := d.offset + ((d.data.drop d.offset).take (min m count)).length })
  | [] =>
    ((((d.data.drop d.offset).take count).length : Nat),
      (d.data.drop d.offset).take count,
      { d with offset := d.offset + ((d.data.drop d.offset).take count).length })

/-- The system call `write(fd, buf, count)`, `bytes` being the `count` bytes at
`buf`. -/
def sys_write (d : Fd) (bytes : List Nat) : Int × Fd :=
  match d.writes with
  | some r :: ws => (r, { d with writes := ws, written := d.written ++ [bytes] })
  | none :: ws => ((bytes.length : Nat), { d with writes := ws, written := d.written ++ [bytes] })
  | [] => ((bytes.length : Nat), { d with written := d.written ++ [bytes] })

/-- The value of a `size_t` converted to `ssize_t` (64-bit two's complement). -/
def to_ssize (x : Nat) : Int :=
  if x % 2 ^ 64 < 2 ^ 63 then ((x % 2 ^ 64 : Nat) : Int) else ((x % 2 ^ 64 : Nat) : Int) - 2 ^ 64

/-- How a function of the library ends: it returns, an `assert` fails, memory
outside an array is accessed, or the fuel of the model ran out. -/
inductive Result (α : Type) where
  | ok (a : α) (f : io61_file) (d : Fd)
  | abort (f : io61_file) (d : Fd)
  | fault
  | fuel
deriving DecidableEq, Repr

/-- Translation of `io61_flush(f)`. -/
def io61_flush (f : io61_file) (d : Fd) : Result Int :=
  if f.end_tag ≠ f.tag then
    if f.end_tag - f.tag < 0 ∨ f.end_tag - f.tag > BUF_SIZE then .fault
    else
      match sys_write d (f.buff.take (f.end_tag - f.tag).toNat) with
      | (n, d1) =>
        if n = f.end_tag - f.tag then
          .ok 0 { f with pos_tag := f.end_tag, tag := f.end_tag } d1
        else .abort f d1
  else .ok 0 { f with pos_tag := f.end_tag, tag := f.end_tag } d

/-- The loop of `io61_read(f, buf, sz)`, `bytes_read` bytes having been copied
so far.  It returns the result and the contents of `buf`. -/
def io61_read_loop :
    Nat → io61_file → Fd → List Nat → Nat → Nat → Result (Int × List Nat)
  | 0, _, _, _, _, _ => .fuel
  | fuel + 1, f, d, buf, sz, bytes_read =>
    if bytes_read = sz then .ok ((bytes_read : Nat), buf) f d
    else if f.pos_tag < f.end_tag then
      match (if to_ssize (sz - bytes_read) > f.end_tag - f.pos_tag then
               f.end_tag - f.pos_tag
             else to_ssize (sz - bytes_read)) with
      | to_read =>
        if to_read < 0 ∨ f.pos_tag - f.tag < 0 ∨ f.pos_tag - f.tag + to_read > BUF_SIZE
            ∨ bytes_read + to_read.toNat > buf.length then .fault
        else
          io61_read_loop fuel { f with pos_tag := f.pos_tag + to_read } d
            (buf.take bytes_read
              ++ (f.buff.drop (f.pos_tag - f.tag).toNat).take to_read.toNat
              ++ buf.drop (bytes_read + to_read.toNat))
            sz (bytes_read + to_read.toNat)
    else
      match sys_read d BUF_SIZE.toNat with
      | (read_res, bytes, d1) =>
        if read_res > 0 then
          io61_read_loop fuel
            { f with tag := f.end_tag, end_tag := f.end_tag + read_res,
                     buff := bytes ++ f.buff.drop bytes.length }
            d1 buf sz bytes_read
        else
          .ok ((if bytes_read ≠ 0 then ((bytes_read : Nat) : Int) else read_res), buf)
            { f with tag := f.end_tag, buff := bytes ++ f.buff.drop bytes.length } d1

/-- Translation of `io61_read(f, buf, sz)`. -/
def io61_read (fuel : Nat) (f : io61_file) (d : Fd) (buf : List Nat) (sz : Nat) :
    Result (Int × List Nat) :=
  io61_read_loop fuel f d buf sz 0

/-- The loop of `io61_write(f, buf, sz)`, `bytes_read` bytes having been taken
from `buf` so far. -/
def io61_write_loop : Nat → io61_file → Fd → List Nat → Nat → Nat → Result Int
  | 0, _, _, _, _, _ => .fuel
  | fuel + 1, f, d, buf, sz, bytes_read =>
    if bytes_read = sz then .ok ((bytes_read : Nat) : Int) f d
    else
      match (if f.pos_tag - f.tag < BUF_SIZE then
               match (if BUF_SIZE - (f.pos_tag - f.tag) < to_ssize (sz - bytes_read) then
                        BUF_SIZE - (f.pos_tag - f.tag)
                      else to_ssize (sz - bytes_read)) with
               | n =>
                 if n < 0 ∨ f.pos_tag - f.tag < 0
                     ∨ bytes_read + n.toNat > buf.length then none
                 else
                   some
                     ({ f with
                        buff := f.buff.take (f.pos_tag - f.tag).toNat
                          ++ (buf.drop bytes_read).take n.toNat
                          ++ f.buff.drop ((f.pos_tag - f.tag).toNat + n.toNat),
                        pos_tag := f.pos_tag + n,
                        end_tag := if f.pos_tag + n > f.end_tag then f.pos_tag + n
                                   else f.end_tag },
                      bytes_read + n.toNat)
             else some (f, bytes_read)) with
      | none => .fault
      | some (f1, bytes_read1) =>
        if f1.pos_tag ≤ f1.end_tag then
          if f1.pos_tag - f1.tag = BUF_SIZE then
            match io61_flush f1 d with
            | .ok _ f2 d2 => io61_write_loop fuel f2 d2 buf sz bytes_read1
            | .abort f2 d2 => .abort f2 d2
            | .fault => .fault
            | .fuel => .fuel
          else io61_write_loop fuel f1 d buf sz bytes_read1
        else .abort f1 d

/-- Translation of `io61_write(f, buf, sz)`. -/
def io61_write (fuel : Nat) (f : io61_file) (d : Fd) (buf : List Nat) (sz : Nat) : Result Int :=
  io61_write_loop fuel f d buf sz 0

/-- A sequence of `io61_write` calls, each writing a whole buffer, followed by
`io61_flush`.  It returns the results of the writes, in order. -/
def write_all (fuel : Nat) : List (List Nat) → io61_file → Fd → Result (List Int)
  | [], f, d =>
    match io61_flush f d with
    | .ok _ f1 d1 => .ok [] f1 d1
    | .abort f1 d1 => .abort f1 d1
    | .fault => .fault
    | .fuel => .fuel
  | buf :: bufs, f, d =>
    match io61_write fuel f d buf buf.length with
    | .ok r f1 d1 =>
      match write_all fuel bufs f1 d1 with
      | .ok rs f2 d2 => .ok (r :: rs) f2 d2
      | .abort f2 d2 => .abort f2 d2
      | .fault => .fault
      | .fuel => .fuel
    | .abort f1 d1 => .abort f1 d1
    | .fault => .fault
    | .fuel => .fuel

/-- The cache of `f` is consistent with the descriptor `d`: `buff` is the array
of `BUF_SIZE` bytes, `tag <= pos_tag <= end_tag <= tag + BUF_SIZE` with `tag`
an offset in the file, `buff` holds the bytes of the file at the offsets
`[tag, end_tag)`, and the descriptor's offset stands at `end_tag`. -/
def consistent (f : io61_file) (d : Fd) : Prop :=
  f.buff.length = BUF_SIZE.toNat ∧ 0 ≤ f.tag ∧ f.tag ≤ f.pos_tag ∧ f.pos_tag ≤ f.end_tag
    ∧ f.end_tag ≤ f.tag + BUF_SIZE
    ∧ f.buff.take (f.end_tag - f.tag).toNat
        = (d.data.drop f.tag.toNat).take (f.end_tag - f.tag).toNat
    ∧ (d.offset : Int) = f.end_tag

/-- A file of five bytes read through a descriptor whose next read is short. -/
def short_fd : Fd :=
  { data := [10, 20, 30, 40, 50], offset := 3, reads := [some 1], writes := [], written := [] }

/-- An `io61_file` on `short_fd` that caches the first three bytes and stands
at offset 1. -/
def cached_file : io61_file :=
  { fd := 3, buff := [10, 20, 30] ++ List.replicate 4093 0, tag := 0, end_tag := 3, pos_tag := 1 }

/-- A descriptor open for writing on which every write is complete. -/
def sink_fd : Fd :=
  { data := [], offset := 0, reads := [], writes := [], written := [] }

/-- An `io61_file` open for writing with the two bytes 7 and 8 pending. -/
def pending_file : io61_file :=
  { fd := 4, buff := [7, 8] ++ List.replicate 4094 0, tag := 0, end_tag := 2, pos_tag := 2 }

/-- Translation of `io61_fdopen(fd, mode)`.  `mem` is what the memory returned
by malloc holds: the function stores `fd` and nothing else (`mode` is
discarded, the three tags and the array stay as they are in `mem`).  `none`
when `assert(fd >= 0)` fails. -/
def io61_fdopen (fd : Int) (_mode : Int) (mem : io61_file) : Option io61_file :=
  if fd ≥ 0 then some { mem with fd := fd } else none

/-- Translation of `io61_close(f)`; `r` is what `close(f->fd)` returns. -/
def io61_close (f : io61_file) (d : Fd) (r : Int) : Result Int :=
  match io61_flush f d with
  | .ok _ f1 d1 => .ok r f1 d1
  | .abort f1 d1 => .abort f1 d1
  | .fault => .fault
  | .fuel => .fuel

/-- Memory in which every byte is 0, as malloc returns it from fresh pages. -/
def zero_memory : io61_file :=
  { fd := 0, buff := List.replicate 4096 0, tag := 0, end_tag := 0, pos_tag := 0 }

/-- A file of five bytes behind a descriptor opened with O_RDONLY: a write on
it fails with -1. -/
def rdonly_fd : Fd :=
  { data := [10, 20, 30, 40, 50], offset := 0, reads := [], writes := [some (-1)],
    written := [] }

end Io61

/-!
# m61: the debugging allocator of pset1 (`src/pset1/m61.c`)

A shallow embedding of `m61_malloc` and `m61_calloc`.  Pointers are addresses
(`Nat`, 0 for NULL); `size_t` and `unsigned long long` values are natural
numbers taken modulo `2 ^ 64`.  The underlying allocator `base_malloc` is the
environment: its results are read from a script and its requests are recorded.
The contents of the heap (the metadata fields and the tail marker that
`m61_malloc` stores in the block, the zeroes of `memset`) are not followed;
they do not influence the pointers returned, the requests or the counters.
-/

namespace M61

/-- Arithmetic on `size_t` and `unsigned long long`: modulo `2 ^ 64`. -/
def wrap (x : Nat) : Nat := x % 2 ^ 64

/-- The size of `struct m61_tail`, one `unsigned int`. -/
def sizeof_m61_tail : Nat := 4

/-- The record `struct m61_statistics`, with the fields that m61.c uses. -/
structure m61_statistics where
  nactive : Nat
  active_size : Nat
  ntotal : Nat
  total_size : Nat
  nfail : Nat
  fail_size : Nat
  heap_min : Nat
  heap_max : Nat
deriving DecidableEq, Repr

/-- The globals of m61.c and the allocator below it.  `mallocs` scripts the
results of the coming `base_malloc` calls (0 is NULL, and an exhausted script
means NULL); `requested` lists the sizes handed to `base_malloc`, in order. -/
structure Heap where
  stats_global : m61_statistics
  global_meta : Nat
  mallocs : List Nat
  requested : List Nat
deriving DecidableEq, Repr

/-- The call `base_malloc(sz)`. -/
def base_malloc (h : Heap) (sz : Nat) : Nat × Heap :=
  match h.mallocs with
  | [] => (0, { h with requested := h.requested ++ [sz] })
  | p :: ps => (p, { h with mallocs := ps, requested := h.requested ++ [sz] })

/-- Translation of `m61_malloc(sz, file, line)`; `sizeof_stats_meta` is the
size of the metadata record declared in m61.h. -/
def m61_malloc (sizeof_stats_meta : Nat) (sz : Nat) (h : Heap) : Nat × Heap :=
  match (if wrap (sizeof_stats_meta + sz) ≥ sz then
           base_malloc h (wrap (sz + sizeof_stats_meta + sizeof_m61_tail))
         else (0, h)) with
  | (meta_ptr, h1) =>
    if meta_ptr = 0 then
      (0,
        { h1 with
          stats_global :=
            { h1.stats_global with
              nfail := wrap (h1.stats_global.nfail + 1),
              fail_size := wrap (h1.stats_global.fail_size + sz) } })
    else
      (wrap (meta_ptr + sizeof_stats_meta),
        { h1 with
          global_meta := meta_ptr,
          stats_global :=
            { h1.stats_global with
              heap_min :=
                if meta_ptr ≤ h1.stats_global.heap_min ∨ h1.stats_global.heap_min = 0 then meta_ptr
                else h1.stats_global.heap_min,
              heap_max :=
                if wrap (meta_ptr + sz + sizeof_stats_meta) ≥ h1.stats_global.heap_max then
                  wrap (meta_ptr + sz + sizeof_stats_meta)
                else h1.stats_global.heap_max,
              nactive := wrap (h1.stats_global.nactive + 1),
              active_size := wrap (h1.stats_global.active_size + sz),
              ntotal := wrap (h1.stats_global.ntotal + 1),
              total_size := wrap (h1.stats_global.total_size + sz) } })

/-- Translation of `m61_calloc(nmemb, sz, file, line)`.  `none` when `memset`
writes a non-zero number of bytes through the NULL pointer. -/
def m61_calloc (sizeof_stats_meta : Nat) (nmemb sz : Nat) (h : Heap) : Option (Nat × Heap) :=
  if wrap (nmemb * sz) ≥ nmemb then
    match m61_malloc sizeof_stats_meta (wrap (nmemb * sz)) h with
    | (ptr, h1) => if ptr = 0 ∧ wrap (nmemb * sz) ≠ 0 then none else some (ptr, h1)
  else
    some (0,
      { h with
        stats_global :=
          { h.stats_global with
            nfail := wrap (h.stats_global.nfail + 1),
            fail_size := wrap (h.stats_global.fail_size + wrap (sz * nmemb)) } })

/-- A heap in which nothing has been allocated and `base_malloc` will return
the block at address 4096. -/
def fresh_heap : Heap :=
  { stats_global := ⟨0, 0, 0, 0, 0, 0, 0, 0⟩, global_meta := 0, mallocs := [4096],
    requested := [] }

end M61

namespace Sh61

/-! # Theorems -/

/-! ## The header's distinctness, unfolded -/

theorem distinct_facts {k : Sh61h} (hk : k.distinct) :
    (k.TOKEN_NORMAL ≠ k.TOKEN_SEQUENCE ∧ k.TOKEN_NORMAL ≠ k.TOKEN_BACKGROUND
      ∧ k.TOKEN_NORMAL ≠ k.TOKEN_PIPE ∧ k.TOKEN_NORMAL ≠ k.TOKEN_AND
      ∧ k.TOKEN_NORMAL ≠ k.TOKEN_OR)
    ∧ (k.TOKEN_SEQUENCE ≠ k.TOKEN_BACKGROUND ∧ k.TOKEN_SEQUENCE ≠ k.TOKEN_PIPE
      ∧ k.TOKEN_SEQUENCE ≠ k.TOKEN_AND ∧ k.TOKEN_SEQUENCE ≠ k.TOKEN_OR)
    ∧ (k.TOKEN_BACKGROUND ≠ k.TOKEN_PIPE ∧ k.TOKEN_BACKGROUND ≠ k.TOKEN_AND
      ∧ k.TOKEN_BACKGROUND ≠ k.TOKEN_OR)
    ∧ (k.TOKEN_PIPE ≠ k.TOKEN_AND ∧ k.TOKEN_PIPE ≠ k.TOKEN_OR)
    ∧ k.TOKEN_AND ≠ k.TOKEN_OR
    ∧ k.TOKEN_AND ≠ 0 ∧ k.TOKEN_OR ≠ 0
    ∧ k.PIPE_NONE ≠ k.PIPE_IN ∧ k.PIPE_NONE ≠ k.PIPE_OUT ∧ k.PIPE_IN ≠ k.PIPE_OUT := by
  unfold Sh61h.distinct at hk
  simp only [List.nodup_cons, List.mem_cons, List.mem_singleton, not_or, List.not_mem_nil,
    not_false_eq_true, List.nodup_nil, and_true] at hk
  tauto

theorem eval_token_normal {k : Sh61h} (hk : k.distinct) (token : String) (st : LineState)
    (w : World) :
    eval_token k k.TOKEN_NORMAL token st w
      = ({ st with current := command_append_arg st.current token }, w, false) := by
  obtain ⟨⟨h1, h2, h3, h4, h5⟩, -⟩ := distinct_facts hk
  simp [eval_token, h1, h2, h3, h4, h5]

theorem eval_token_sequence {k : Sh61h} (hk : k.distinct) (token : String) (st : LineState)
    (w : World) :
    eval_token k k.TOKEN_SEQUENCE token st w
      = ({ before := st.before ++ [st.current], current := command_alloc k, after := [],
           allocs := st.allocs + 1 }, w, false) := by
  obtain ⟨⟨h1, -⟩, ⟨h2, h3, h4, h5⟩, -⟩ := distinct_facts hk
  simp [eval_token, h1.symm, h2, h3, h4, h5]

theorem eval_token_background {k : Sh61h} (hk : k.distinct) (token : String) (st : LineState)
    (w : World) :
    eval_token k k.TOKEN_BACKGROUND token st w
      = ({ before := st.before ++ [{ st.current with background := 1 }],
           current := command_alloc k, after := [], allocs := st.allocs + 1 }, w, false) := by
  obtain ⟨⟨-, h1, -⟩, ⟨h2, -⟩, ⟨h3, h4, h5⟩, -⟩ := distinct_facts hk
  simp [eval_token, h1.symm, h2.symm, h3, h4, h5]

theorem eval_token_and {k : Sh61h} (hk : k.distinct) (token : String) (st : LineState)
    (w : World) :
    eval_token k k.TOKEN_AND token st w
      = ({ before := st.before ++ [{ st.current with conditional := k.TOKEN_AND }],
           current := command_alloc k, after := [], allocs := st.allocs + 1 }, w, false) := by
  obtain ⟨⟨-, -, -, h1, -⟩, ⟨-, -, h2, -⟩, ⟨-, h3, -⟩, ⟨h4, -⟩, h5, -⟩ := distinct_facts hk
  simp [eval_token, h1.symm, h2.symm, h3.symm, h4.symm, h5]

theorem eval_token_or {k : Sh61h} (hk : k.distinct) (token : String) (st : LineState)
    (w : World) :
    eval_token k k.TOKEN_OR token st w
      = ({ before := st.before ++ [{ st.current with conditional := k.TOKEN_OR }],
           current := command_alloc k, after := [], allocs := st.allocs + 1 }, w, false) := by
  obtain ⟨⟨-, -, -, -, h1⟩, ⟨-, -, -, h2⟩, ⟨-, -, h3⟩, ⟨-, h4⟩, h5, -⟩ := distinct_facts hk
  simp [eval_token, h1.symm, h2.symm, h3.symm, h4.symm, h5.symm]

theorem eval_token_pipe {k : Sh61h} (hk : k.distinct) (token : String) (st : LineState)
    (w : World) :
    eval_token k k.TOKEN_PIPE token st w
      = match w.pipe with
        | (none, w1) =>
          ({ before := st.before,
             current := { st.current with pipe_type := k.PIPE_IN, background := 1 },
             after := [{ command_alloc k with pipe_type := k.PIPE_OUT }],
             allocs := st.allocs + 1 },
            w1.log (.perror "Failed to create pipe: "), true)
        | (some (r, wr), w1) =>
          ({ before := st.before ++ [{ st.current with
                pipe_type := k.PIPE_IN, background := 1, pipe_fds := (r, wr), stdout_fd := wr }],
             current := { command_alloc k with
                pipe_type := k.PIPE_OUT, pipe_fds := (r, wr), stdin_fd := r },
             after := [], allocs := st.allocs + 1 },
            w1, false) := by
  obtain ⟨⟨-, -, h1, -⟩, ⟨-, h2, -⟩, ⟨h3, -⟩, ⟨h4, h5⟩, -⟩ := distinct_facts hk
  simp [eval_token, h1.symm, h2.symm, h3.symm, h4, h5]

/-! ## Launching and waiting -/

theorem launched_append (xs ys : List Event) :
    launched (xs ++ ys) = launched xs ++ launched ys := by
  induction xs with
  | nil => simp [launched]
  | cons e es ih => cases e <;> simp [launched, ih]

theorem start_command_same {c cur : command} {pgid child : Int} {w w1 : World}
    (h : start_command c pgid w = .ret (cur, child) w1) : cur = c := by
  unfold start_command at h
  split at h
  · simp at h
  · simp at h
  · split_ifs at h <;> simp at h <;> (try split_ifs at h) <;> simp_all

theorem start_command_forks {c : command} {argv0 : String} {rest : List (Option String)}
    (pgid : Int) {w : World} {f : ForkResult} {fs : List ForkResult}
    (hargv : c.argv = some argv0 :: rest) (hcd : argv0 ≠ BUILTIN_CD)
    (hexit : argv0 ≠ BUILTIN_EXIT) (hf : w.forks = f :: fs) (hret : 0 < f.ret) :
    start_command c pgid w
      = .ret (c, c.pid)
          { w with
            forks := fs,
            children := w.children.take f.rank ++ ⟨f.ret, f.status⟩ :: w.children.drop f.rank,
            trace := w.trace ++ [.fork c f.ret] } := by
  have h0 : f.ret ≠ 0 := by omega
  simp [start_command, hargv, hcd, hexit, World.fork, hf, hret, h0]

theorem wait_any_first (w : World) (ch : Child) (chs : List Child) (status : Int)
    (h : w.children = ch :: chs) :
    w.waitpid (-1) status
      = (ch.pid, ch.status,
          { w with children := chs, trace := w.trace ++ [.wait (-1) ch.pid ch.status] }) := by
  simp [World.waitpid, h, World.eligible, List.eraseP]

theorem children_after_fork (chs : List Child) (ch : Child) (rank : Nat)
    (hfirst : rank = 0 ∨ chs = []) :
    chs.take rank ++ ch :: chs.drop rank = ch :: chs := by
  rcases hfirst with h | h <;> simp [h]

theorem run_list_launch_wait (k : Sh61h) (n : Nat) {current : command} (next : List command)
    (status : Int) {w : World} (argv0 : String) (rest : List (Option String))
    {f : ForkResult} {fs : List ForkResult}
    (hargv : current.argv = some argv0 :: rest) (hcd : argv0 ≠ BUILTIN_CD)
    (hexit : argv0 ≠ BUILTIN_EXIT) (hargc : current.argc ≠ 0) (hpid : current.pid = -1)
    (hbg : current.background = 0) (hf : w.forks = f :: fs) (hret : 0 < f.ret)
    (hfirst : f.rank = 0 ∨ w.children = []) :
    run_list k (n + 1) (current :: next) status w
      = if next = [] then
          .ret () { w with
            forks := fs,
            trace := w.trace ++ [.fork current f.ret, .wait (-1) f.ret f.status] }
        else if current.conditional = k.TOKEN_AND ∧ WIFEXITED f.status = true
            ∧ WEXITSTATUS f.status = 0 then
          run_list k n next f.status { w with
            forks := fs,
            trace := w.trace ++ [.fork current f.ret, .wait (-1) f.ret f.status] }
        else if current.conditional = k.TOKEN_AND then
          .ret () { w with
            forks := fs,
            trace := w.trace ++ [.fork current f.ret, .wait (-1) f.ret f.status] }
        else if current.conditional = k.TOKEN_OR ∧ WIFEXITED f.status = true
            ∧ WEXITSTATUS f.status ≠ 0 then
          run_list k n next f.status { w with
            forks := fs,
            trace := w.trace ++ [.fork current f.ret, .wait (-1) f.ret f.status] }
        else if current.conditional = k.TOKEN_OR then
          .ret () { w with
            forks := fs,
            trace := w.trace ++ [.fork current f.ret, .wait (-1) f.ret f.status] }
        else if current.conditional = 0 then
          run_list k n next f.status { w with
            forks := fs,
            trace := w.trace ++ [.fork current f.ret, .wait (-1) f.ret f.status] }
        else
          run_list k n (current :: next) f.status { w with
            forks := fs,
            trace := w.trace ++ [.fork current f.ret, .wait (-1) f.ret f.status,
              .printf "Uncaught conditions Considered Harmful... \n"] } := by
  rw [run_list, if_neg hargc, start_command_forks 42 hargv hcd hexit hf hret]
  simp only [hbg, if_true, hpid]
  rw [wait_any_first _ ⟨f.ret, f.status⟩ w.children status
    (by simp [children_after_fork _ _ _ hfirst])]
  simp [World.log]

theorem launched_waitpid (w : World) (pid status : Int) :
    launched (w.waitpid pid status).2.2.trace = launched w.trace := by
  unfold World.waitpid
  split <;> simp [World.log, launched_append, launched]

theorem launched_start_command {c : command} {argv0 : String} {rest : List (Option String)}
    (pgid : Int) (w : World)
    (hargv : c.argv = some argv0 :: rest) (hcd : argv0 ≠ BUILTIN_CD)
    (hexit : argv0 ≠ BUILTIN_EXIT) :
    launched (start_command c pgid w).world.trace = launched w.trace ++ [c] := by
  simp only [start_command, hargv, hcd, hexit, if_false, World.fork]
  cases hfk : w.forks with
  | nil =>
    simp [World.log, Outcome.world, launched_append, launched]
  | cons f fs =>
    by_cases h1 : f.ret > 0
    · have h0 : f.ret ≠ 0 := by omega
      simp [h1, h0, Outcome.world, launched_append, launched]
    · by_cases h0 : f.ret = 0
      · simp [h0, Outcome.world, launched_append, launched]
      · simp [h1, h0, World.log, Outcome.world, launched_append, launched]

theorem run_list_single (k : Sh61h) (n : Nat) {c : command} (argv0 : String)
    (rest : List (Option String)) (status : Int) (w : World)
    (hargv : c.argv = some argv0 :: rest) (hcd : argv0 ≠ BUILTIN_CD)
    (hexit : argv0 ≠ BUILTIN_EXIT) (hargc : c.argc ≠ 0) :
    launched (run_list k (n + 1) [c] status w).world.trace = launched w.trace ++ [c] := by
  have hl := launched_start_command 42 w hargv hcd hexit
  rw [run_list, if_neg hargc]
  cases hs : start_command c 42 w with
  | ret a w1 =>
    obtain ⟨cur, child⟩ := a
    rw [hs] at hl
    simp only [Outcome.world] at hl
    by_cases hb : cur.background = 0
    · simp [hb, Outcome.world, launched_waitpid, hl]
    · simp [hb, Outcome.world, hl]
  | exited s w1 => rw [hs] at hl; simpa [Outcome.world] using hl
  | inChild w1 => rw [hs] at hl; simpa [Outcome.world] using hl
  | fault w1 => rw [hs] at hl; simpa [Outcome.world] using hl
  | fuel w1 => rw [hs] at hl; simpa [Outcome.world] using hl


/-! ## Conditionals: `&&` and `||` -/

theorem build_and {k : Sh61h} (hk : k.distinct) (a b t : String) (w0 : World) :
    build k [(k.TOKEN_NORMAL, a), (k.TOKEN_AND, t), (k.TOKEN_NORMAL, b)] w0
      = [{ command_append_arg (command_alloc k) a with conditional := k.TOKEN_AND },
         command_append_arg (command_alloc k) b] := by
  simp [build, eval_loop, eval_token_normal hk, eval_token_and hk, line_init, LineState.list]

theorem build_or {k : Sh61h} (hk : k.distinct) (a b t : String) (w0 : World) :
    build k [(k.TOKEN_NORMAL, a), (k.TOKEN_OR, t), (k.TOKEN_NORMAL, b)] w0
      = [{ command_append_arg (command_alloc k) a with conditional := k.TOKEN_OR },
         command_append_arg (command_alloc k) b] := by
  simp [build, eval_loop, eval_token_normal hk, eval_token_or hk, line_init, LineState.list]

/-- C1 (amended): when `run_list` has launched a command whose conditional
operator is AND, its wait has reaped that command's process (`hfirst`: the
process is the first unreaped child that a wait for any child reports), and
the process did not exit normally with status 0, it returns at once.  Nothing
after that command is launched, whether it belongs to the same AND/OR chain or
follows the chain: the only launch the call adds is that of the command
itself. -/
theorem run_list_and_failure_ends_list (k : Sh61h) (n : Nat) (current : command)
    (next : List command) (status : Int) (w : World) (argv0 : String)
    (rest : List (Option String)) (f : ForkResult) (fs : List ForkResult)
    (hargv : current.argv = some argv0 :: rest) (hcd : argv0 ≠ BUILTIN_CD)
    (hexit : argv0 ≠ BUILTIN_EXIT) (hargc : current.argc ≠ 0) (hpid : current.pid = -1)
    (hbg : current.background = 0) (hcond : current.conditional = k.TOKEN_AND)
    (hf : w.forks = f :: fs) (hret : 0 < f.ret) (hfirst : f.rank = 0 ∨ w.children = [])
    (hbad : ¬ (WIFEXITED f.status = true ∧ WEXITSTATUS f.status = 0)) :
    ∃ w2, run_list k (n + 1) (current :: next) status w = .ret () w2
      ∧ launched w2.trace = launched w.trace ++ [current]
      ∧ w2.children = w.children := by
  refine ⟨{ w with
      forks := fs,
      trace := w.trace ++ [.fork current f.ret, .wait (-1) f.ret f.status] }, ?_, ?_, rfl⟩
  · rw [run_list_launch_wait k n next status argv0 rest hargv hcd hexit hargc hpid hbg hf hret hfirst]
    by_cases hn : next = []
    · simp [hn]
    · simp only [hn, if_false, hcond, true_and, if_neg hbad, if_true]
  · simp [launched_append, launched]

/-- The list built from the tokens [WORD a, AND, WORD b] (a and b not
built-ins), run in a world where the wait of `run_list` reaps a's process
(`hfirst`: it is the first unreaped child that a wait for any child reports):
if a's status is a normal exit with status 0 then b is launched after a; if it
is anything else (in particular a normal exit with a non-zero status) then
`run_list` returns and a is the only command it launched. -/
theorem and_line_second_runs_iff_first_succeeds (k : Sh61h) (hk : k.distinct)
    (a b t : String) (ha1 : a ≠ BUILTIN_CD) (ha2 : a ≠ BUILTIN_EXIT)
    (hb1 : b ≠ BUILTIN_CD) (hb2 : b ≠ BUILTIN_EXIT) (w0 w : World)
    (f : ForkResult) (fs : List ForkResult) (hf : w.forks = f :: fs) (hret : 0 < f.ret)
    (hfirst : f.rank = 0 ∨ w.children = []) (n : Nat) (status : Int) :
    (WIFEXITED f.status = true ∧ WEXITSTATUS f.status = 0 →
      launched (run_list k (n + 2)
          (build k [(k.TOKEN_NORMAL, a), (k.TOKEN_AND, t), (k.TOKEN_NORMAL, b)] w0)
          status w).world.trace
        = launched w.trace
          ++ [{ command_append_arg (command_alloc k) a with conditional := k.TOKEN_AND },
              command_append_arg (command_alloc k) b])
    ∧ (¬ (WIFEXITED f.status = true ∧ WEXITSTATUS f.status = 0) →
      ∃ w2, run_list k (n + 2)
          (build k [(k.TOKEN_NORMAL, a), (k.TOKEN_AND, t), (k.TOKEN_NORMAL, b)] w0)
          status w = .ret () w2
        ∧ launched w2.trace = launched w.trace
          ++ [{ command_append_arg (command_alloc k) a with conditional := k.TOKEN_AND }]) := by
  rw [build_and hk,
    run_list_launch_wait k (n + 1) _ status a [none] (by rfl) ha1 ha2
      (by simp [command_append_arg, command_alloc]) (by rfl) (by rfl) hf hret hfirst]
  constructor
  · intro hok
    have hc : ({ command_append_arg (command_alloc k) a with
        conditional := k.TOKEN_AND } : command).conditional = k.TOKEN_AND := rfl
    rw [if_neg (by simp), if_pos ⟨hc, hok⟩,
      run_list_single k n b [none] _ _ (by rfl) hb1 hb2
        (by simp [command_append_arg, command_alloc])]
    simp [launched_append, launched]
  · intro hbad
    have hc : ({ command_append_arg (command_alloc k) a with
        conditional := k.TOKEN_AND } : command).conditional = k.TOKEN_AND := rfl
    refine ⟨{ w with
        forks := fs,
        trace := w.trace ++ [.fork { command_append_arg (command_alloc k) a with
          conditional := k.TOKEN_AND } f.ret, .wait (-1) f.ret f.status] }, ?_, ?_⟩
    · rw [if_neg (by simp), if_neg (by rw [hc]; tauto), if_pos hc]
    · simp [launched_append, launched]

/-- The list built from the tokens [WORD a, OR, WORD b] (a and b not
built-ins), run in a world where the wait of `run_list` reaps a's process
(`hfirst`: it is the first unreaped child that a wait for any child reports):
if a exits with a non-zero status then b is launched after a; if a exits with
status 0 then `run_list` returns and a is the only command it launched. -/
theorem or_line_second_runs_iff_first_fails (k : Sh61h) (hk : k.distinct)
    (a b t : String) (ha1 : a ≠ BUILTIN_CD) (ha2 : a ≠ BUILTIN_EXIT)
    (hb1 : b ≠ BUILTIN_CD) (hb2 : b ≠ BUILTIN_EXIT) (w0 w : World)
    (f : ForkResult) (fs : List ForkResult) (hf : w.forks = f :: fs) (hret : 0 < f.ret)
    (hfirst : f.rank = 0 ∨ w.children = []) (n : Nat) (status : Int) :
    (WIFEXITED f.status = true ∧ WEXITSTATUS f.status ≠ 0 →
      launched (run_list k (n + 2)
          (build k [(k.TOKEN_NORMAL, a), (k.TOKEN_OR, t), (k.TOKEN_NORMAL, b)] w0)
          status w).world.trace
        = launched w.trace
          ++ [{ command_append_arg (command_alloc k) a with conditional := k.TOKEN_OR },
              command_append_arg (command_alloc k) b])
    ∧ (WIFEXITED f.status = true ∧ WEXITSTATUS f.status = 0 →
      ∃ w2, run_list k (n + 2)
          (build k [(k.TOKEN_NORMAL, a), (k.TOKEN_OR, t), (k.TOKEN_NORMAL, b)] w0)
          status w = .ret () w2
        ∧ launched w2.trace = launched w.trace
          ++ [{ command_append_arg (command_alloc k) a with conditional := k.TOKEN_OR }]) := by
  have hne : k.TOKEN_OR ≠ k.TOKEN_AND := (distinct_facts hk).2.2.2.2.1.symm
  have hc : ({ command_append_arg (command_alloc k) a with
      conditional := k.TOKEN_OR } : command).conditional = k.TOKEN_OR := rfl
  rw [build_or hk,
    run_list_launch_wait k (n + 1) _ status a [none] (by rfl) ha1 ha2
      (by simp [command_append_arg, command_alloc]) (by rfl) (by rfl) hf hret hfirst]
  constructor
  · intro hok
    rw [if_neg (by simp), if_neg (by rw [hc]; tauto), if_neg (by rw [hc]; exact hne),
      if_pos ⟨hc, hok⟩,
      run_list_single k n b [none] _ _ (by rfl) hb1 hb2
        (by simp [command_append_arg, command_alloc])]
    simp [launched_append, launched]
  · intro hzero
    refine ⟨{ w with
        forks := fs,
        trace := w.trace ++ [.fork { command_append_arg (command_alloc k) a with
          conditional := k.TOKEN_OR } f.ret, .wait (-1) f.ret f.status] }, ?_, ?_⟩
    · rw [if_neg (by simp), if_neg (by rw [hc]; tauto), if_neg (by rw [hc]; exact hne),
        if_neg (by rw [hc]; tauto), if_pos hc]
    · simp [launched_append, launched]

/-- C4 (amended): for a command with conditional operator OR that has a
successor, whose process `run_list` has launched and whose wait reaps that
process (`hfirst`: it is the first unreaped child that a wait for any child
reports), and for every raw wait status of the process: `run_list` continues to
the successor exactly when the process exited normally with a non-zero status.
When the process was ended by a signal (`WIFEXITED` false), as when it exited
with status 0, `run_list` returns without continuing. -/
theorem run_list_or_decision (k : Sh61h) (hk : k.distinct) (n : Nat) (current succ : command)
    (more : List command) (status : Int) (w : World) (argv0 : String)
    (rest : List (Option String)) (f : ForkResult) (fs : List ForkResult)
    (hargv : current.argv = some argv0 :: rest) (hcd : argv0 ≠ BUILTIN_CD)
    (hexit : argv0 ≠ BUILTIN_EXIT) (hargc : current.argc ≠ 0) (hpid : current.pid = -1)
    (hbg : current.background = 0) (hcond : current.conditional = k.TOKEN_OR)
    (hf : w.forks = f :: fs) (hret : 0 < f.ret) (hfirst : f.rank = 0 ∨ w.children = []) :
    ∃ w2, launched w2.trace = launched w.trace ++ [current]
      ∧ w2.children = w.children
      ∧ run_list k (n + 1) (current :: succ :: more) status w
          = (if WIFEXITED f.status = true ∧ WEXITSTATUS f.status ≠ 0 then
              run_list k n (succ :: more) f.status w2
            else .ret () w2)
      ∧ (WIFEXITED f.status = false →
          run_list k (n + 1) (current :: succ :: more) status w = .ret () w2) := by
  have hne : k.TOKEN_OR ≠ k.TOKEN_AND := (distinct_facts hk).2.2.2.2.1.symm
  have hrun := run_list_launch_wait k n (succ :: more) status argv0 rest hargv hcd hexit hargc hpid hbg hf
    hret hfirst
  rw [if_neg (by simp), if_neg (by rw [hcond]; tauto), if_neg (by rw [hcond]; exact hne)] at hrun
  refine ⟨{ w with
      forks := fs,
      trace := w.trace ++ [.fork current f.ret, .wait (-1) f.ret f.status] }, ?_, rfl, ?_, ?_⟩
  · simp [launched_append, launched]
  · rw [hrun]
    by_cases hc : WIFEXITED f.status = true ∧ WEXITSTATUS f.status ≠ 0
    · rw [if_pos ⟨hcond, hc⟩, if_pos hc]
    · rw [if_neg (by tauto), if_pos hcond, if_neg hc]
  · intro hsig
    rw [hrun, if_neg (by simp [hsig]), if_pos hcond]


/-- C1 (counterexample): on the line `a && b ; c`, with a exiting with status 1,
`eval_line` returns after launching a alone: c, which follows the chain, is not
launched. -/
theorem and_failure_abandons_rest_of_line :
    WIFEXITED 256 = true ∧ WEXITSTATUS 256 = 1
    ∧ (eval_line sh61h 8
        [(sh61h.TOKEN_NORMAL, "a"), (sh61h.TOKEN_AND, "&&"), (sh61h.TOKEN_NORMAL, "b"),
          (sh61h.TOKEN_SEQUENCE, ";"), (sh61h.TOKEN_NORMAL, "c")]
        0 (World.fresh [⟨10, 256, 0⟩, ⟨11, 0, 0⟩, ⟨12, 0, 0⟩] [] [])).returned = true
    ∧ (launched (eval_line sh61h 8
        [(sh61h.TOKEN_NORMAL, "a"), (sh61h.TOKEN_AND, "&&"), (sh61h.TOKEN_NORMAL, "b"),
          (sh61h.TOKEN_SEQUENCE, ";"), (sh61h.TOKEN_NORMAL, "c")]
        0 (World.fresh [⟨10, 256, 0⟩, ⟨11, 0, 0⟩, ⟨12, 0, 0⟩] [] [])).world.trace).map
          command.words = [["a"]] := by
  decide

/-- C1 (witness): the amended statement at the list of `a && b ; c`, with a
exiting with status 1 and no other child of the shell around. -/
theorem run_list_and_failure_ends_list_witness :
    ¬ (WIFEXITED 256 = true ∧ WEXITSTATUS 256 = 0)
    ∧ ∃ w2, run_list sh61h 1
        [{ command_append_arg (command_alloc sh61h) "a" with conditional := sh61h.TOKEN_AND },
          command_append_arg (command_alloc sh61h) "b",
          command_append_arg (command_alloc sh61h) "c"]
        0 (World.fresh [⟨10, 256, 0⟩, ⟨11, 0, 0⟩] [] []) = .ret () w2
      ∧ launched w2.trace = launched (World.fresh [⟨10, 256, 0⟩, ⟨11, 0, 0⟩] [] []).trace
          ++ [{ command_append_arg (command_alloc sh61h) "a" with
                conditional := sh61h.TOKEN_AND }]
      ∧ w2.children = (World.fresh [⟨10, 256, 0⟩, ⟨11, 0, 0⟩] [] []).children :=
  ⟨by decide,
    run_list_and_failure_ends_list sh61h 0
      { command_append_arg (command_alloc sh61h) "a" with conditional := sh61h.TOKEN_AND }
      [command_append_arg (command_alloc sh61h) "b",
        command_append_arg (command_alloc sh61h) "c"]
      0 (World.fresh [⟨10, 256, 0⟩, ⟨11, 0, 0⟩] [] []) "a" [none] ⟨10, 256, 0⟩ [⟨11, 0, 0⟩]
      rfl (by decide) (by decide) (by decide) rfl rfl rfl rfl (by decide) (Or.inl rfl)
      (by decide)⟩

/-- The line `a && b` with a exiting with status 0, and no other child of the
shell around: b is launched. -/
theorem and_line_second_runs_iff_first_succeeds_witness :
    (WIFEXITED 0 = true ∧ WEXITSTATUS 0 = 0)
    ∧ launched (run_list sh61h 2
          (build sh61h [(sh61h.TOKEN_NORMAL, "a"), (sh61h.TOKEN_AND, "&&"),
            (sh61h.TOKEN_NORMAL, "b")] (World.fresh [] [] []))
          0 (World.fresh [⟨10, 0, 0⟩, ⟨11, 0, 0⟩] [] [])).world.trace
        = launched (World.fresh [⟨10, 0, 0⟩, ⟨11, 0, 0⟩] [] []).trace
          ++ [{ command_append_arg (command_alloc sh61h) "a" with
                conditional := sh61h.TOKEN_AND },
              command_append_arg (command_alloc sh61h) "b"] :=
  ⟨by decide,
    (and_line_second_runs_iff_first_succeeds sh61h (by decide) "a" "b" "&&" (by decide)
      (by decide) (by decide) (by decide) (World.fresh [] [] [])
      (World.fresh [⟨10, 0, 0⟩, ⟨11, 0, 0⟩] [] []) ⟨10, 0, 0⟩ [⟨11, 0, 0⟩] rfl (by decide)
      (Or.inl rfl) 0 0).1 (by decide)⟩

/-- The line `a || b` with a exiting with status 1, and no other child of the
shell around: b is launched. -/
theorem or_line_second_runs_iff_first_fails_witness :
    (WIFEXITED 256 = true ∧ WEXITSTATUS 256 ≠ 0)
    ∧ launched (run_list sh61h 2
          (build sh61h [(sh61h.TOKEN_NORMAL, "a"), (sh61h.TOKEN_OR, "||"),
            (sh61h.TOKEN_NORMAL, "b")] (World.fresh [] [] []))
          0 (World.fresh [⟨10, 256, 0⟩, ⟨11, 0, 0⟩] [] [])).world.trace
        = launched (World.fresh [⟨10, 256, 0⟩, ⟨11, 0, 0⟩] [] []).trace
          ++ [{ command_append_arg (command_alloc sh61h) "a" with
                conditional := sh61h.TOKEN_OR },
              command_append_arg (command_alloc sh61h) "b"] :=
  ⟨by decide,
    (or_line_second_runs_iff_first_fails sh61h (by decide) "a" "b" "||" (by decide)
      (by decide) (by decide) (by decide) (World.fresh [] [] [])
      (World.fresh [⟨10, 256, 0⟩, ⟨11, 0, 0⟩] [] []) ⟨10, 256, 0⟩ [⟨11, 0, 0⟩] rfl (by decide)
      (Or.inl rfl) 0 0).1 (by decide)⟩

/-- C4 (counterexample): on the line `a || b`, with a ended by signal 9 (so it
did not exit normally with status 0), `run_list` does not continue to b:
`eval_line` returns after launching a alone. -/
theorem or_does_not_continue_after_signal :
    WIFEXITED 9 = false
    ∧ (eval_line sh61h 8
        [(sh61h.TOKEN_NORMAL, "a"), (sh61h.TOKEN_OR, "||"), (sh61h.TOKEN_NORMAL, "b")]
        0 (World.fresh [⟨10, 9, 0⟩, ⟨11, 0, 0⟩] [] [])).returned = true
    ∧ (launched (eval_line sh61h 8
        [(sh61h.TOKEN_NORMAL, "a"), (sh61h.TOKEN_OR, "||"), (sh61h.TOKEN_NORMAL, "b")]
        0 (World.fresh [⟨10, 9, 0⟩, ⟨11, 0, 0⟩] [] [])).world.trace).map
          command.words = [["a"]] := by
  decide

/-- C4 (witness): the amended statement at the list of `a || b`, with a ended by
signal 9 and no other child of the shell around. -/
theorem run_list_or_decision_witness :
    WIFEXITED 9 = false
    ∧ ∃ w2, launched w2.trace = launched (World.fresh [⟨10, 9, 0⟩, ⟨11, 0, 0⟩] [] []).trace
          ++ [{ command_append_arg (command_alloc sh61h) "a" with
                conditional := sh61h.TOKEN_OR }]
      ∧ w2.children = (World.fresh [⟨10, 9, 0⟩, ⟨11, 0, 0⟩] [] []).children
      ∧ run_list sh61h 2
          [{ command_append_arg (command_alloc sh61h) "a" with conditional := sh61h.TOKEN_OR },
            command_append_arg (command_alloc sh61h) "b"]
          0 (World.fresh [⟨10, 9, 0⟩, ⟨11, 0, 0⟩] [] [])
          = (if WIFEXITED 9 = true ∧ WEXITSTATUS 9 ≠ 0 then
              run_list sh61h 1 [command_append_arg (command_alloc sh61h) "b"] 9 w2
            else .ret () w2)
      ∧ (WIFEXITED 9 = false →
          run_list sh61h 2
            [{ command_append_arg (command_alloc sh61h) "a" with
                conditional := sh61h.TOKEN_OR },
              command_append_arg (command_alloc sh61h) "b"]
            0 (World.fresh [⟨10, 9, 0⟩, ⟨11, 0, 0⟩] [] []) = .ret () w2) :=
  ⟨by decide,
    run_list_or_decision sh61h (by decide) 1
      { command_append_arg (command_alloc sh61h) "a" with conditional := sh61h.TOKEN_OR }
      (command_append_arg (command_alloc sh61h) "b") [] 0
      (World.fresh [⟨10, 9, 0⟩, ⟨11, 0, 0⟩] [] []) "a" [none] ⟨10, 9, 0⟩ [⟨11, 0, 0⟩]
      rfl (by decide) (by decide) (by decide) rfl rfl rfl rfl (by decide) (Or.inl rfl)⟩


/-! ## Pipelines, process ids and built-ins at concrete inputs -/

/-- C5 (the code at the failing input): on the line `a | b && c`, where a ends
first with exit status 1 and the last stage b ends later with exit status 0,
the one wait of `run_list` is `waitpid(-1, ...)`; it reaps a (pid 10) and stores
a's status 256, so c is not launched although the last stage succeeded. -/
theorem pipeline_condition_reads_first_ended_stage :
    (eval_line sh61h 8
        [(sh61h.TOKEN_NORMAL, "a"), (sh61h.TOKEN_PIPE, "|"), (sh61h.TOKEN_NORMAL, "b"),
          (sh61h.TOKEN_AND, "&&"), (sh61h.TOKEN_NORMAL, "c")]
        0 (World.fresh [⟨10, 256, 0⟩, ⟨11, 0, 1⟩, ⟨12, 0, 0⟩] [] [some (3, 4)])).returned = true
    ∧ waits (eval_line sh61h 8
        [(sh61h.TOKEN_NORMAL, "a"), (sh61h.TOKEN_PIPE, "|"), (sh61h.TOKEN_NORMAL, "b"),
          (sh61h.TOKEN_AND, "&&"), (sh61h.TOKEN_NORMAL, "c")]
        0 (World.fresh [⟨10, 256, 0⟩, ⟨11, 0, 1⟩, ⟨12, 0, 0⟩] [] [some (3, 4)])).world.trace
      = [(-1, 10, 256)]
    ∧ (launched (eval_line sh61h 8
        [(sh61h.TOKEN_NORMAL, "a"), (sh61h.TOKEN_PIPE, "|"), (sh61h.TOKEN_NORMAL, "b"),
          (sh61h.TOKEN_AND, "&&"), (sh61h.TOKEN_NORMAL, "c")]
        0 (World.fresh [⟨10, 256, 0⟩, ⟨11, 0, 1⟩, ⟨12, 0, 0⟩] [] [some (3, 4)])).world.trace).map
          command.words = [["a"], ["b"]]
    ∧ (eval_line sh61h 8
        [(sh61h.TOKEN_NORMAL, "a"), (sh61h.TOKEN_PIPE, "|"), (sh61h.TOKEN_NORMAL, "b"),
          (sh61h.TOKEN_AND, "&&"), (sh61h.TOKEN_NORMAL, "c")]
        0 (World.fresh [⟨10, 256, 0⟩, ⟨11, 0, 1⟩, ⟨12, 0, 0⟩] [] [some (3, 4)])).world.children
      = [⟨11, 0⟩] := by
  decide

/-- C6 (the code at the failing input): for the command `a`, with fork
succeeding and returning 10 in the shell, `start_command` returns -1 and the
command's `pid` field still holds -1; the child 10 exists. -/
theorem start_command_parent_returns_unset_pid :
    start_command (command_append_arg (command_alloc sh61h) "a") 42
        (World.fresh [⟨10, 0, 0⟩] [] [])
      = .ret (command_append_arg (command_alloc sh61h) "a", -1)
          { World.fresh [] [] [] with
            children := [⟨10, 0⟩],
            trace := [.fork (command_append_arg (command_alloc sh61h) "a") 10] }
    ∧ (command_append_arg (command_alloc sh61h) "a").pid = -1 := by
  decide

/-- C7 (the code at the failing input): on the line `cd /nonexistent && b`,
with chdir failing and an earlier background child of the shell (pid 7) that
is still running while the line is read and later ends with status 0,
`start_command` forks nothing for cd and returns -1, `run_list` passes that -1
to waitpid, which blocks until child 7 ends, reaps it with status 0, and b is
launched.  With no child at all the wait fails and leaves
`status` as the stack had it; when that is 0, b is launched as well. -/
theorem failed_cd_and_then_launches_second :
    (eval_line sh61h 8
        [(sh61h.TOKEN_NORMAL, "cd"), (sh61h.TOKEN_NORMAL, "/nonexistent"),
          (sh61h.TOKEN_AND, "&&"), (sh61h.TOKEN_NORMAL, "b")]
        0 { World.fresh [⟨12, 0, 0⟩] [-1] [] with children := [⟨7, 0⟩] }).returned = true
    ∧ (eval_line sh61h 8
        [(sh61h.TOKEN_NORMAL, "cd"), (sh61h.TOKEN_NORMAL, "/nonexistent"),
          (sh61h.TOKEN_AND, "&&"), (sh61h.TOKEN_NORMAL, "b")]
        0 { World.fresh [⟨12, 0, 0⟩] [-1] [] with children := [⟨7, 0⟩] }).world.trace.take 7
      = [.poll 0, .poll 0, .poll 0, .poll 0, .chdir (some "/nonexistent") (-1),
          .perror "failed to change cwd: ", .wait (-1) 7 0]
    ∧ (launched (eval_line sh61h 8
        [(sh61h.TOKEN_NORMAL, "cd"), (sh61h.TOKEN_NORMAL, "/nonexistent"),
          (sh61h.TOKEN_AND, "&&"), (sh61h.TOKEN_NORMAL, "b")]
        0 { World.fresh [⟨12, 0, 0⟩] [-1] [] with children := [⟨7, 0⟩] }).world.trace).map
          command.words = [["b"]]
    ∧ (launched (eval_line sh61h 8
        [(sh61h.TOKEN_NORMAL, "cd"), (sh61h.TOKEN_NORMAL, "/nonexistent"),
          (sh61h.TOKEN_AND, "&&"), (sh61h.TOKEN_NORMAL, "b")]
        0 (World.fresh [⟨12, 0, 0⟩] [-1] [])).world.trace).map
          command.words = [["b"]] := by
  decide

/-- C2 (the code at the failing input): on the line `a && b`, while an earlier
child of the shell (pid 7) is unreaped and is the first a wait for any child
reports.  The wait of `run_list` after launching a is `waitpid(-1, ...)`: it
reaps child 7, not a (pid 10).  With a exiting with status 1 and child 7 with
status 0, the AND test passes and b is launched; with a exiting with status 0
and child 7 with status 1, the test fails and b is not launched.  In both runs
a is still unreaped when `eval_line` returns. -/
theorem and_line_decided_by_another_child :
    ((eval_line sh61h 8
        [(sh61h.TOKEN_NORMAL, "a"), (sh61h.TOKEN_AND, "&&"), (sh61h.TOKEN_NORMAL, "b")]
        0 { World.fresh [⟨10, 256, 1⟩, ⟨11, 0, 0⟩] [] [] with children := [⟨7, 0⟩] }).returned
        = true
      ∧ waits (eval_line sh61h 8
          [(sh61h.TOKEN_NORMAL, "a"), (sh61h.TOKEN_AND, "&&"), (sh61h.TOKEN_NORMAL, "b")]
          0 { World.fresh [⟨10, 256, 1⟩, ⟨11, 0, 0⟩] [] [] with
              children := [⟨7, 0⟩] }).world.trace
        = [(-1, 7, 0), (-1, 11, 0)]
      ∧ (launched (eval_line sh61h 8
          [(sh61h.TOKEN_NORMAL, "a"), (sh61h.TOKEN_AND, "&&"), (sh61h.TOKEN_NORMAL, "b")]
          0 { World.fresh [⟨10, 256, 1⟩, ⟨11, 0, 0⟩] [] [] with
              children := [⟨7, 0⟩] }).world.trace).map command.words
        = [["a"], ["b"]]
      ∧ (eval_line sh61h 8
          [(sh61h.TOKEN_NORMAL, "a"), (sh61h.TOKEN_AND, "&&"), (sh61h.TOKEN_NORMAL, "b")]
          0 { World.fresh [⟨10, 256, 1⟩, ⟨11, 0, 0⟩] [] [] with
              children := [⟨7, 0⟩] }).world.children
        = [⟨10, 256⟩])
    ∧ (waits (eval_line sh61h 8
          [(sh61h.TOKEN_NORMAL, "a"), (sh61h.TOKEN_AND, "&&"), (sh61h.TOKEN_NORMAL, "b")]
          0 { World.fresh [⟨10, 0, 1⟩, ⟨11, 0, 0⟩] [] [] with
              children := [⟨7, 256⟩] }).world.trace
        = [(-1, 7, 256)]
      ∧ (launched (eval_line sh61h 8
          [(sh61h.TOKEN_NORMAL, "a"), (sh61h.TOKEN_AND, "&&"), (sh61h.TOKEN_NORMAL, "b")]
          0 { World.fresh [⟨10, 0, 1⟩, ⟨11, 0, 0⟩] [] [] with
              children := [⟨7, 256⟩] }).world.trace).map command.words
        = [["a"]]
      ∧ (eval_line sh61h 8
          [(sh61h.TOKEN_NORMAL, "a"), (sh61h.TOKEN_AND, "&&"), (sh61h.TOKEN_NORMAL, "b")]
          0 { World.fresh [⟨10, 0, 1⟩, ⟨11, 0, 0⟩] [] [] with
              children := [⟨7, 256⟩] }).world.children
        = [⟨10, 0⟩]) := by
  decide

/-- C3 (the code at the failing input): on the line `a || b`, while an earlier
child of the shell (pid 7) is unreaped and is the first a wait for any child
reports.  The wait of `run_list` after launching a is `waitpid(-1, ...)`: it
reaps child 7, not a (pid 10).  With a exiting with status 0 and child 7 with
status 1, the OR test passes and b is launched; with a exiting with status 1
and child 7 with status 0, the test fails and b is not launched. -/
theorem or_line_decided_by_another_child :
    ((eval_line sh61h 8
        [(sh61h.TOKEN_NORMAL, "a"), (sh61h.TOKEN_OR, "||"), (sh61h.TOKEN_NORMAL, "b")]
        0 { World.fresh [⟨10, 0, 1⟩, ⟨11, 0, 0⟩] [] [] with children := [⟨7, 256⟩] }).returned
        = true
      ∧ waits (eval_line sh61h 8
          [(sh61h.TOKEN_NORMAL, "a"), (sh61h.TOKEN_OR, "||"), (sh61h.TOKEN_NORMAL, "b")]
          0 { World.fresh [⟨10, 0, 1⟩, ⟨11, 0, 0⟩] [] [] with
              children := [⟨7, 256⟩] }).world.trace
        = [(-1, 7, 256), (-1, 11, 0)]
      ∧ (launched (eval_line sh61h 8
          [(sh61h.TOKEN_NORMAL, "a"), (sh61h.TOKEN_OR, "||"), (sh61h.TOKEN_NORMAL, "b")]
          0 { World.fresh [⟨10, 0, 1⟩, ⟨11, 0, 0⟩] [] [] with
              children := [⟨7, 256⟩] }).world.trace).map command.words
        = [["a"], ["b"]]
      ∧ (eval_line sh61h 8
          [(sh61h.TOKEN_NORMAL, "a"), (sh61h.TOKEN_OR, "||"), (sh61h.TOKEN_NORMAL, "b")]
          0 { World.fresh [⟨10, 0, 1⟩, ⟨11, 0, 0⟩] [] [] with
              children := [⟨7, 256⟩] }).world.children
        = [⟨10, 0⟩])
    ∧ (waits (eval_line sh61h 8
          [(sh61h.TOKEN_NORMAL, "a"), (sh61h.TOKEN_OR, "||"), (sh61h.TOKEN_NORMAL, "b")]
          0 { World.fresh [⟨10, 256, 1⟩, ⟨11, 0, 0⟩] [] [] with
              children := [⟨7, 0⟩] }).world.trace
        = [(-1, 7, 0)]
      ∧ (launched (eval_line sh61h 8
          [(sh61h.TOKEN_NORMAL, "a"), (sh61h.TOKEN_OR, "||"), (sh61h.TOKEN_NORMAL, "b")]
          0 { World.fresh [⟨10, 256, 1⟩, ⟨11, 0, 0⟩] [] [] with
              children := [⟨7, 0⟩] }).world.trace).map command.words
        = [["a"]]) := by
  decide

/-- C10 (the code at the failing input): after `eval_line` has run the line
`a | b` and returned, both ends of the pipe it created (descriptors 3 and 4)
are still open in the shell, which had only 0, 1 and 2 open before the line. -/
theorem pipe_ends_stay_open_in_shell :
    (World.fresh [⟨10, 0, 0⟩, ⟨11, 0, 1⟩] [] [some (3, 4)]).fds = [0, 1, 2]
    ∧ (eval_line sh61h 8
        [(sh61h.TOKEN_NORMAL, "a"), (sh61h.TOKEN_PIPE, "|"), (sh61h.TOKEN_NORMAL, "b")]
        0 (World.fresh [⟨10, 0, 0⟩, ⟨11, 0, 1⟩] [] [some (3, 4)])).returned = true
    ∧ (eval_line sh61h 8
        [(sh61h.TOKEN_NORMAL, "a"), (sh61h.TOKEN_PIPE, "|"), (sh61h.TOKEN_NORMAL, "b")]
        0 (World.fresh [⟨10, 0, 0⟩, ⟨11, 0, 1⟩] [] [some (3, 4)])).world.fds = [3, 4, 0, 1, 2] := by
  decide

/-- C8: when `eval_line` processes a PIPE token and the pipe is created with
read end `r` and write end `wr`, the command that was current becomes a pipe
source (`PIPE_IN`) with `stdout_fd = wr` and `background = 1`, a fresh node is
linked right after it as a pipe sink (`PIPE_OUT`) with `stdin_fd = r`, both
nodes hold `(r, wr)` in `pipe_fds`, the fresh node is the new current command,
and the loop goes on with the rest of the stream. -/
theorem eval_token_pipe_created (k : Sh61h) (hk : k.distinct) (token : String)
    (st : LineState) (w : World) (r wr : Int) (ps : List (Option (Int × Int)))
    (rest : List (Int × String)) (hp : w.pipes = some (r, wr) :: ps) :
    eval_token k k.TOKEN_PIPE token st w
      = ({ before := st.before ++ [{ st.current with
              pipe_type := k.PIPE_IN, background := 1, pipe_fds := (r, wr), stdout_fd := wr }],
           current := { command_alloc k with
              pipe_type := k.PIPE_OUT, pipe_fds := (r, wr), stdin_fd := r },
           after := [], allocs := st.allocs + 1 },
          { w with
            pipes := ps, fds := r :: wr :: w.fds,
            trace := w.trace ++ [.pipe (some (r, wr))] },
          false)
    ∧ eval_loop k ((k.TOKEN_PIPE, token) :: rest) st w
      = eval_loop k rest
          { before := st.before ++ [{ st.current with
              pipe_type := k.PIPE_IN, background := 1, pipe_fds := (r, wr), stdout_fd := wr }],
            current := { command_alloc k with
              pipe_type := k.PIPE_OUT, pipe_fds := (r, wr), stdin_fd := r },
            after := [], allocs := st.allocs + 1 }
          (World.waitpid_nohang { w with
            pipes := ps, fds := r :: wr :: w.fds,
            trace := w.trace ++ [.pipe (some (r, wr))] }) := by
  have h : eval_token k k.TOKEN_PIPE token st w
      = ({ before := st.before ++ [{ st.current with
              pipe_type := k.PIPE_IN, background := 1, pipe_fds := (r, wr), stdout_fd := wr }],
           current := { command_alloc k with
              pipe_type := k.PIPE_OUT, pipe_fds := (r, wr), stdin_fd := r },
           after := [], allocs := st.allocs + 1 },
          { w with
            pipes := ps, fds := r :: wr :: w.fds,
            trace := w.trace ++ [.pipe (some (r, wr))] },
          false) := by
    rw [eval_token_pipe hk]
    simp [World.pipe, hp]
  exact ⟨h, by rw [eval_loop, h]⟩

/-- C8 (witness): the PIPE token of the line `a | b`, with the pipe created as
descriptors 3 (read end) and 4 (write end). -/
theorem eval_token_pipe_created_witness :
    (build sh61h [(sh61h.TOKEN_NORMAL, "a"), (sh61h.TOKEN_PIPE, "|"),
        (sh61h.TOKEN_NORMAL, "b")] (World.fresh [] [] [some (3, 4)])).map
        (fun c => (c.words, c.pipe_type, c.pipe_fds, c.stdin_fd, c.stdout_fd, c.background))
      = [(["a"], sh61h.PIPE_IN, (3, 4), 0, 4, 1), (["b"], sh61h.PIPE_OUT, (3, 4), 3, 1, 0)]
    ∧ eval_token sh61h sh61h.TOKEN_PIPE "|"
        { line_init sh61h with current := command_append_arg (command_alloc sh61h) "a" }
        (World.fresh [] [] [some (3, 4)])
      = ({ before := [{ command_append_arg (command_alloc sh61h) "a" with
              pipe_type := sh61h.PIPE_IN, background := 1, pipe_fds := (3, 4),
              stdout_fd := 4 }],
           current := { command_alloc sh61h with
              pipe_type := sh61h.PIPE_OUT, pipe_fds := (3, 4), stdin_fd := 3 },
           after := [], allocs := 2 },
          { World.fresh [] [] [] with fds := [3, 4, 0, 1, 2], trace := [.pipe (some (3, 4))] },
          false) :=
  ⟨by decide,
    (eval_token_pipe_created sh61h (by decide) "|"
      { line_init sh61h with current := command_append_arg (command_alloc sh61h) "a" }
      (World.fresh [] [] [some (3, 4)]) 3 4 [] [] rfl).1⟩


/-! ## The shape of the list that `eval_line` builds -/

theorem eval_token_pipe_ok {k : Sh61h} (hk : k.distinct) (token : String) (st : LineState)
    {w : World} {r wr : Int} {ps : List (Option (Int × Int))}
    (hp : w.pipes = some (r, wr) :: ps) :
    eval_token k k.TOKEN_PIPE token st w
      = ({ before := st.before ++ [{ st.current with
              pipe_type := k.PIPE_IN, background := 1, pipe_fds := (r, wr), stdout_fd := wr }],
           current := { command_alloc k with
              pipe_type := k.PIPE_OUT, pipe_fds := (r, wr), stdin_fd := r },
           after := [], allocs := st.allocs + 1 },
          { w with
            pipes := ps, fds := r :: wr :: w.fds,
            trace := w.trace ++ [.pipe (some (r, wr))] },
          false) := by
  rw [eval_token_pipe hk]
  simp [World.pipe, hp]

theorem eval_token_not_pipe {k : Sh61h} (type : Int) (token : String) (st : LineState)
    (w : World) (h : type ≠ k.TOKEN_PIPE) :
    ∃ cur1 : command, cur1.stdin_fd = st.current.stdin_fd
      ∧ cur1.pipe_type = st.current.pipe_type ∧ cur1.pipe_fds = st.current.pipe_fds
      ∧ cur1.pid = st.current.pid
      ∧ eval_token k type token st w
        = (if ends_command k type = true then
              { before := st.before ++ [cur1], current := command_alloc k, after := [],
                allocs := st.allocs + 1 }
            else { st with current := cur1 }, w, false) := by
  refine ⟨(if type = k.TOKEN_AND ∨ type = k.TOKEN_OR then
      { (if type = k.TOKEN_BACKGROUND then
          { (if type = k.TOKEN_NORMAL then command_append_arg st.current token
              else st.current) with background := 1 }
          else (if type = k.TOKEN_NORMAL then command_append_arg st.current token
              else st.current)) with conditional := type }
      else (if type = k.TOKEN_BACKGROUND then
          { (if type = k.TOKEN_NORMAL then command_append_arg st.current token
              else st.current) with background := 1 }
          else (if type = k.TOKEN_NORMAL then command_append_arg st.current token
              else st.current))), ?_, ?_, ?_, ?_, ?_⟩
  · split_ifs <;> simp [command_append_arg]
  · split_ifs <;> simp [command_append_arg]
  · split_ifs <;> simp [command_append_arg]
  · split_ifs <;> simp [command_append_arg]
  · simp only [eval_token, h, if_false, ends_command, or_false, decide_eq_true_eq]
    split_ifs <;> rfl

theorem waitpid_nohang_pipes (w : World) : w.waitpid_nohang.pipes = w.pipes := by
  unfold World.waitpid_nohang
  split <;> simp [World.log]

theorem pipe_tokens_cons_pipe (k : Sh61h) (token : String) (s : List (Int × String)) :
    pipe_tokens k ((k.TOKEN_PIPE, token) :: s) = pipe_tokens k s + 1 := by
  simp [pipe_tokens]

theorem pipe_tokens_cons_other (k : Sh61h) (type : Int) (token : String)
    (s : List (Int × String)) (h : type ≠ k.TOKEN_PIPE) :
    pipe_tokens k ((type, token) :: s) = pipe_tokens k s := by
  simp [pipe_tokens, h]

theorem next_operator_cons (k : Sh61h) (type : Int) (token : String) (s : List (Int × String)) :
    next_operator k ((type, token) :: s)
      = if ends_command k type = true then some type else next_operator k s := by
  by_cases h : ends_command k type = true <;> simp [next_operator, List.find?, h]

/-- Tokens read later never touch the nodes before the current one, and never
the `stdin_fd` of the current one; its pipe role and descriptor pair change
only if the next token that starts a node is a PIPE. -/
theorem eval_loop_keeps_earlier_nodes {k : Sh61h} (hk : k.distinct) (s : List (Int × String)) :
    ∀ (st : LineState) (w : World), ∃ (cur : command) (l2 : List command),
      (eval_loop k s st w).1.list = st.before ++ cur :: l2
      ∧ cur.stdin_fd = st.current.stdin_fd
      ∧ (next_operator k s ≠ some k.TOKEN_PIPE →
          cur.pipe_type = st.current.pipe_type ∧ cur.pipe_fds = st.current.pipe_fds) := by
  induction s with
  | nil =>
    intro st w
    exact ⟨st.current, st.after, rfl, rfl, fun _ => ⟨rfl, rfl⟩⟩
  | cons t s ih =>
    intro st w
    obtain ⟨type, token⟩ := t
    by_cases hp : type = k.TOKEN_PIPE
    · subst hp
      have hop : next_operator k ((k.TOKEN_PIPE, token) :: s) = some k.TOKEN_PIPE := by
        simp [next_operator_cons, ends_command]
      rw [eval_loop, eval_token_pipe hk]
      cases hw : w.pipe with
      | mk o w1 =>
        cases o with
        | none =>
          exact ⟨_, _, rfl, rfl, fun h => absurd hop h⟩
        | some fds =>
          obtain ⟨r, wr⟩ := fds
          simp only []
          obtain ⟨c2, l2, h1, -, -⟩ := ih
            { before := st.before ++ [{ st.current with
                pipe_type := k.PIPE_IN, background := 1, pipe_fds := (r, wr),
                stdout_fd := wr }],
              current := { command_alloc k with
                pipe_type := k.PIPE_OUT, pipe_fds := (r, wr), stdin_fd := r },
              after := [], allocs := st.allocs + 1 } w1.waitpid_nohang
          refine ⟨{ st.current with
              pipe_type := k.PIPE_IN, background := 1, pipe_fds := (r, wr), stdout_fd := wr },
            c2 :: l2, ?_, rfl, fun h => absurd hop h⟩
          rw [h1]
          simp
    · obtain ⟨cur1, hs, ht, hfd, -, he⟩ := eval_token_not_pipe type token st w hp
      rw [eval_loop, he]
      simp only []
      by_cases hend : ends_command k type = true
      · simp only [hend, if_true]
        obtain ⟨c2, l2, h1, -, -⟩ := ih
          { before := st.before ++ [cur1], current := command_alloc k, after := [],
            allocs := st.allocs + 1 } w.waitpid_nohang
        refine ⟨cur1, c2 :: l2, ?_, hs, fun _ => ⟨ht, hfd⟩⟩
        rw [h1]
        simp
      · simp only [hend, if_false]
        obtain ⟨c2, l2, h1, h2, h3⟩ := ih { st with current := cur1 } w.waitpid_nohang
        refine ⟨c2, l2, h1, h2.trans hs, fun h => ?_⟩
        rw [next_operator_cons, if_neg hend] at h
        exact ⟨(h3 h).1.trans ht, (h3 h).2.trans hfd⟩

/-- While the pipes are created successfully the loop never breaks: reading
`s1 ++ s2` is reading `s1` and then `s2`, each PIPE token of `s1` takes one
entry of the pipe script, and no node is linked after the current one. -/
theorem eval_loop_append {k : Sh61h} (hk : k.distinct) (s1 s2 : List (Int × String)) :
    ∀ (st : LineState) (w : World) (fdl : List (Int × Int)) (more : List (Option (Int × Int))),
      w.pipes = fdl.map some ++ more → pipe_tokens k s1 ≤ fdl.length →
      eval_loop k (s1 ++ s2) st w
          = eval_loop k s2 (eval_loop k s1 st w).1 (eval_loop k s1 st w).2.1
        ∧ (eval_loop k s1 st w).2.1.pipes = (fdl.drop (pipe_tokens k s1)).map some ++ more
        ∧ (st.after = [] → (eval_loop k s1 st w).1.after = []) := by
  induction s1 with
  | nil =>
    intro st w fdl more hp _
    simp [eval_loop, pipe_tokens, hp]
  | cons t s1 ih =>
    intro st w fdl more hp hlen
    obtain ⟨type, token⟩ := t
    by_cases hpipe : type = k.TOKEN_PIPE
    · subst hpipe
      rw [pipe_tokens_cons_pipe] at hlen ⊢
      cases fdl with
      | nil => simp at hlen
      | cons fd fdl =>
        obtain ⟨r, wr⟩ := fd
        have hp1 : w.pipes = some (r, wr) :: (fdl.map some ++ more) := by simp [hp]
        obtain ⟨h1, h2, h3⟩ := ih
          { before := st.before ++ [{ st.current with
              pipe_type := k.PIPE_IN, background := 1, pipe_fds := (r, wr), stdout_fd := wr }],
            current := { command_alloc k with
              pipe_type := k.PIPE_OUT, pipe_fds := (r, wr), stdin_fd := r },
            after := [], allocs := st.allocs + 1 }
          (World.waitpid_nohang { w with
            pipes := fdl.map some ++ more, fds := r :: wr :: w.fds,
            trace := w.trace ++ [.pipe (some (r, wr))] })
          fdl more (by rw [waitpid_nohang_pipes]) (by simpa using hlen)
        simp only [List.cons_append, eval_loop, eval_token_pipe_ok hk token st hp1]
        exact ⟨h1, by simpa using h2, fun _ => h3 rfl⟩
    · rw [pipe_tokens_cons_other k type token s1 hpipe] at hlen ⊢
      obtain ⟨cur1, -, -, -, -, he⟩ := eval_token_not_pipe type token st w hpipe
      simp only [List.cons_append, eval_loop, he]
      by_cases hend : ends_command k type = true
      · simp only [hend, if_true]
        obtain ⟨h1, h2, h3⟩ := ih
          { before := st.before ++ [cur1], current := command_alloc k, after := [],
            allocs := st.allocs + 1 } w.waitpid_nohang fdl more
          (by rw [waitpid_nohang_pipes, hp]) hlen
        exact ⟨h1, h2, fun _ => h3 rfl⟩
      · simp only [hend, if_false]
        obtain ⟨h1, h2, h3⟩ := ih { st with current := cur1 } w.waitpid_nohang fdl more
          (by rw [waitpid_nohang_pipes, hp]) hlen
        exact ⟨h1, h2, fun ha => h3 ha⟩

theorem pipe_tokens_append (k : Sh61h) (s1 s2 : List (Int × String)) :
    pipe_tokens k (s1 ++ s2) = pipe_tokens k s1 + pipe_tokens k s2 := by
  simp [pipe_tokens]

/-- C9 (amended): in the list built from a token stream whose pipes are all
created successfully, take any PIPE token, created as `(r, wr)`.  The node that
was current when the token arrived carries the pipe-source role, holds
`(r, wr)` in `pipe_fds` and has `wr` as its stdout target, and the node right
after it has `r` as its stdin target.  That following node carries the
pipe-sink role and holds the same pair provided it is not itself followed by a
pipe (the next token that starts a node, if any, is not a PIPE). -/
theorem pipe_joins_source_and_sink (k : Sh61h) (hk : k.distinct)
    (pre post : List (Int × String)) (token : String) (w : World) (fdl : List (Int × Int))
    (more : List (Option (Int × Int))) (hpipes : w.pipes = fdl.map some ++ more)
    (hlen : pipe_tokens k (pre ++ (k.TOKEN_PIPE, token) :: post) ≤ fdl.length) :
    ∃ (l1 : List command) (src0 snk : command) (l2 : List command) (r wr : Int),
      build k pre w = l1 ++ [src0]
      ∧ fdl[pipe_tokens k pre]? = some (r, wr)
      ∧ build k (pre ++ (k.TOKEN_PIPE, token) :: post) w
          = l1 ++ { src0 with
              pipe_type := k.PIPE_IN, background := 1, pipe_fds := (r, wr), stdout_fd := wr }
            :: snk :: l2
      ∧ snk.stdin_fd = r
      ∧ (next_operator k post ≠ some k.TOKEN_PIPE →
          snk.pipe_type = k.PIPE_OUT ∧ snk.pipe_fds = (r, wr)) := by
  have hlt : pipe_tokens k pre < fdl.length := by
    rw [pipe_tokens_append, pipe_tokens_cons_pipe] at hlen
    omega
  obtain ⟨h1, h2, h3⟩ := eval_loop_append hk pre ((k.TOKEN_PIPE, token) :: post) (line_init k) w
    fdl more hpipes (le_of_lt hlt)
  have hafter := h3 rfl
  obtain ⟨r, wr, hrw⟩ : ∃ r wr, fdl[pipe_tokens k pre] = (r, wr) := ⟨_, _, rfl⟩
  have hp1 : (eval_loop k pre (line_init k) w).2.1.pipes
      = some (r, wr) :: ((fdl.drop (pipe_tokens k pre + 1)).map some ++ more) := by
    rw [h2, List.drop_eq_getElem_cons hlt, hrw]
    simp
  have htok := eval_token_pipe_ok hk token (eval_loop k pre (line_init k) w).1 hp1
  have hstep : eval_loop k ((k.TOKEN_PIPE, token) :: post) (eval_loop k pre (line_init k) w).1
        (eval_loop k pre (line_init k) w).2.1
      = eval_loop k post
          (eval_token k k.TOKEN_PIPE token (eval_loop k pre (line_init k) w).1
            (eval_loop k pre (line_init k) w).2.1).1
          (World.waitpid_nohang
            (eval_token k k.TOKEN_PIPE token (eval_loop k pre (line_init k) w).1
              (eval_loop k pre (line_init k) w).2.1).2.1) := by
    rw [eval_loop, htok]
  obtain ⟨cur, l2, h4, h5, h6⟩ := eval_loop_keeps_earlier_nodes hk post
    (eval_token k k.TOKEN_PIPE token (eval_loop k pre (line_init k) w).1
      (eval_loop k pre (line_init k) w).2.1).1
    (World.waitpid_nohang
      (eval_token k k.TOKEN_PIPE token (eval_loop k pre (line_init k) w).1
        (eval_loop k pre (line_init k) w).2.1).2.1)
  rw [htok] at h5 h6
  refine ⟨(eval_loop k pre (line_init k) w).1.before, (eval_loop k pre (line_init k) w).1.current,
    cur, l2, r, wr, ?_, ?_, ?_, h5, h6⟩
  · simp [build, LineState.list, hafter]
  · simp [List.getElem?_eq_getElem hlt, hrw]
  · rw [build, h1, hstep, h4, htok]
    simp

/-- C9 (counterexample): in the list built from `a | b | c`, with both pipes
created, the nodes a and b are joined by the first pipe (3, 4), yet b does not
carry the pipe-sink role: the second PIPE token overwrote its `pipe_type` with
the source role and its `pipe_fds` with the second pair (5, 6), which differs
from the pair held by a. -/
theorem middle_stage_keeps_neither_sink_role_nor_pair :
    (build sh61h
        [(sh61h.TOKEN_NORMAL, "a"), (sh61h.TOKEN_PIPE, "|"), (sh61h.TOKEN_NORMAL, "b"),
          (sh61h.TOKEN_PIPE, "|"), (sh61h.TOKEN_NORMAL, "c")]
        (World.fresh [] [] [some (3, 4), some (5, 6)])).map
        (fun c => (c.words, c.pipe_type, c.pipe_fds, c.stdin_fd, c.stdout_fd))
      = [(["a"], sh61h.PIPE_IN, (3, 4), 0, 4), (["b"], sh61h.PIPE_IN, (5, 6), 3, 6),
          (["c"], sh61h.PIPE_OUT, (5, 6), 5, 1)]
    ∧ sh61h.PIPE_IN ≠ sh61h.PIPE_OUT := by
  decide

/-- C9 (witness): the PIPE token of the line `a | b`, created as (3, 4). -/
theorem pipe_joins_source_and_sink_witness :
    pipe_tokens sh61h ([(sh61h.TOKEN_NORMAL, "a")]
        ++ (sh61h.TOKEN_PIPE, "|") :: [(sh61h.TOKEN_NORMAL, "b")]) ≤ [((3 : Int), (4 : Int))].length
    ∧ ∃ (l1 : List command) (src0 snk : command) (l2 : List command) (r wr : Int),
      build sh61h [(sh61h.TOKEN_NORMAL, "a")] (World.fresh [] [] [some (3, 4)]) = l1 ++ [src0]
      ∧ [((3 : Int), (4 : Int))][pipe_tokens sh61h [(sh61h.TOKEN_NORMAL, "a")]]? = some (r, wr)
      ∧ build sh61h ([(sh61h.TOKEN_NORMAL, "a")]
            ++ (sh61h.TOKEN_PIPE, "|") :: [(sh61h.TOKEN_NORMAL, "b")])
          (World.fresh [] [] [some (3, 4)])
          = l1 ++ { src0 with
              pipe_type := sh61h.PIPE_IN, background := 1, pipe_fds := (r, wr),
              stdout_fd := wr }
            :: snk :: l2
      ∧ snk.stdin_fd = r
      ∧ (next_operator sh61h [(sh61h.TOKEN_NORMAL, "b")] ≠ some sh61h.TOKEN_PIPE →
          snk.pipe_type = sh61h.PIPE_OUT ∧ snk.pipe_fds = (r, wr)) :=
  ⟨by decide,
    pipe_joins_source_and_sink sh61h (by decide) [(sh61h.TOKEN_NORMAL, "a")]
      [(sh61h.TOKEN_NORMAL, "b")] "|" (World.fresh [] [] [some (3, 4)]) [(3, 4)] [] rfl
      (by decide)⟩


/-- Every node that `eval_line` builds still has the `pid` that
`command_alloc` gave it, which is -1. -/
theorem eval_token_pid {k : Sh61h} (hk : k.distinct) (type : Int) (token : String)
    (st : LineState) (w : World) (h : ∀ c ∈ st.list, c.pid = -1) :
    ∀ c ∈ (eval_token k type token st w).1.list, c.pid = -1 := by
  have hb : ∀ c ∈ st.before, c.pid = -1 := fun c hc => h c (by simp [LineState.list, hc])
  have hc : st.current.pid = -1 := h _ (by simp [LineState.list])
  by_cases hp : type = k.TOKEN_PIPE
  · subst hp
    rw [eval_token_pipe hk]
    rcases w.pipe with ⟨o, w1⟩
    rcases o with _ | ⟨r, wr⟩
    · simp only [LineState.list, List.mem_append, List.mem_cons, List.mem_singleton,
        List.not_mem_nil, or_false]
      rintro c (hm | hm | hm)
      · exact hb c hm
      · rw [hm]; exact hc
      · rw [hm]; rfl
    · simp only [LineState.list, List.mem_append, List.mem_cons, List.mem_singleton,
        List.not_mem_nil, or_false]
      rintro c ((hm | hm) | hm)
      · exact hb c hm
      · rw [hm]; exact hc
      · rw [hm]; rfl
  · obtain ⟨cur1, -, -, -, hpid, he⟩ := eval_token_not_pipe type token st w hp
    rw [he]
    by_cases hend : ends_command k type = true
    · rw [if_pos hend]
      simp only [LineState.list, List.mem_append, List.mem_cons,
        List.mem_singleton, List.not_mem_nil, or_false]
      rintro c ((hm | hm) | hm)
      · exact hb c hm
      · rw [hm, hpid]; exact hc
      · rw [hm]; rfl
    · rw [if_neg hend]
      simp only [LineState.list, List.mem_append, List.mem_cons]
      rintro c (hm | hm | hm)
      · exact hb c hm
      · rw [hm, hpid]; exact hc
      · exact h c (by simp [LineState.list, hm])

theorem eval_loop_pid {k : Sh61h} (hk : k.distinct) (s : List (Int × String)) :
    ∀ (st : LineState) (w : World), (∀ c ∈ st.list, c.pid = -1) →
      ∀ c ∈ (eval_loop k s st w).1.list, c.pid = -1 := by
  induction s with
  | nil => intro st w h; simpa [eval_loop] using h
  | cons t s ih =>
    intro st w h
    obtain ⟨type, token⟩ := t
    have h1 := eval_token_pid hk type token st w h
    rw [eval_loop]
    rcases hr : eval_token k type token st w with ⟨st1, w1, b⟩
    rw [hr] at h1
    cases b with
    | true => simpa using h1
    | false => exact ih st1 w1.waitpid_nohang h1

theorem build_pid {k : Sh61h} (hk : k.distinct) (s : List (Int × String)) (w : World) :
    ∀ c ∈ build k s w, c.pid = -1 :=
  eval_loop_pid hk s (line_init k) w (by simp [line_init, LineState.list, command_alloc])


/-! ## One token at a time: the current node -/

theorem eval_token_touch {k : Sh61h} (type : Int) (token : String) (st : LineState)
    (w : World) (h : type ≠ k.TOKEN_PIPE) :
    eval_token k type token st w
      = (if ends_command k type = true then
            { before := st.before ++ [touch k type token st.current],
              current := command_alloc k, after := [], allocs := st.allocs + 1 }
          else { st with current := touch k type token st.current }, w, false) := by
  simp only [eval_token, h, if_false, ends_command, or_false, decide_eq_true_eq, touch]
  split_ifs <;> rfl

theorem touch_argc (k : Sh61h) (type : Int) (token : String) (c : command) :
    (touch k type token c).argc = if type = k.TOKEN_NORMAL then c.argc + 1 else c.argc := by
  unfold touch
  split_ifs <;> simp [command_append_arg]

theorem touch_background (k : Sh61h) (type : Int) (token : String) (c : command) :
    (touch k type token c).background
      = if type = k.TOKEN_BACKGROUND then 1 else c.background := by
  unfold touch
  split_ifs <;> simp [command_append_arg]

theorem touch_conditional (k : Sh61h) (type : Int) (token : String) (c : command) :
    (touch k type token c).conditional
      = if type = k.TOKEN_AND ∨ type = k.TOKEN_OR then type else c.conditional := by
  unfold touch
  split_ifs <;> simp [command_append_arg]

theorem touch_normal {k : Sh61h} (hk : k.distinct) (token : String) (c : command) :
    touch k k.TOKEN_NORMAL token c = command_append_arg c token := by
  obtain ⟨⟨-, h2, -, h4, h5⟩, -⟩ := distinct_facts hk
  simp [touch, h2, h4, h5]

theorem ends_command_normal {k : Sh61h} (hk : k.distinct) :
    ends_command k k.TOKEN_NORMAL = false := by
  obtain ⟨⟨h1, h2, h3, h4, h5⟩, -⟩ := distinct_facts hk
  simp [ends_command, h1, h2, h3, h4, h5]

theorem ends_command_pipe (k : Sh61h) : ends_command k k.TOKEN_PIPE = true := by
  simp [ends_command]

/-! ## Words only -/

theorem foldl_append_arg (ws : List String) :
    ∀ (c : command) (xs : List String), c.argc = xs.length →
      c.argv.take c.argc = xs.map some →
      ws.foldl command_append_arg c
        = { c with
            argc := xs.length + ws.length,
            argv := if ws = [] then c.argv else (xs ++ ws).map some ++ [none] } := by
  induction ws with
  | nil =>
    intro c xs h1 _
    simp [← h1]
  | cons a ws ih =>
    intro c xs h1 h2
    have h2' : c.argv.take xs.length = xs.map some := h1 ▸ h2
    have hv : (command_append_arg c a).argv = xs.map some ++ [some a, none] := by
      simp [command_append_arg, h1, h2']
    have h3 := ih (command_append_arg c a) (xs ++ [a])
      (by simp [command_append_arg, h1])
      (by
        rw [hv]
        simp [command_append_arg, h1, List.take_append_eq_append_take])
    rw [List.foldl_cons, h3]
    by_cases hws : ws = []
    · subst hws
      simp [hv, command_append_arg, h2]
    · simp [command_append_arg, hws, h1, Nat.add_assoc, Nat.add_comm 1]

theorem eval_loop_words {k : Sh61h} (hk : k.distinct) (ws : List String)
    (rest : List (Int × String)) :
    ∀ (st : LineState) (w : World), ∃ w1 : World, w1.pipes = w.pipes
      ∧ eval_loop k (word_tokens k ws ++ rest) st w
        = eval_loop k rest { st with current := ws.foldl command_append_arg st.current } w1 := by
  induction ws with
  | nil => intro st w; exact ⟨w, rfl, rfl⟩
  | cons a ws ih =>
    intro st w
    obtain ⟨w1, h1, h2⟩ := ih { st with current := command_append_arg st.current a }
      w.waitpid_nohang
    refine ⟨w1, by rw [h1, waitpid_nohang_pipes], ?_⟩
    have h3 : word_tokens k (a :: ws) ++ rest
        = (k.TOKEN_NORMAL, a) :: (word_tokens k ws ++ rest) := by
      simp [word_tokens]
    rw [h3, eval_loop, eval_token_normal hk]
    simpa using h2


/-- C14 (amended): for every token stream that consists only of one or more
WORD tokens, the list that `eval_line` builds has exactly one node: the real
command, whose `argv` is the words in order followed by NULL, whose `argc` is
the number of words and whose conditional operator is NONE (0); every other
field is as `command_alloc` left it.  That node is the last one (its `next` is
NULL): no sentinel node follows it. -/
theorem words_only_line_builds_one_node (k : Sh61h) (hk : k.distinct) (ws : List String)
    (hws : ws ≠ []) (w : World) :
    build k (word_tokens k ws) w
      = [{ command_alloc k with argc := ws.length, argv := ws.map some ++ [none] }]
    ∧ ({ command_alloc k with
          argc := ws.length, argv := ws.map some ++ [none] } : command).conditional = 0 := by
  refine ⟨?_, rfl⟩
  obtain ⟨w1, -, h⟩ := eval_loop_words hk ws [] (line_init k) w
  rw [List.append_nil] at h
  have hf := foldl_append_arg ws (command_alloc k) [] rfl rfl
  have hc : (line_init k).current = command_alloc k := rfl
  rw [build, h, eval_loop, hc, hf]
  simp [LineState.list, line_init, hws, command_alloc]

/-- C14 (counterexample): the list built from the two WORD tokens `ls -l` has
one node, with two arguments; no node with empty arguments follows it. -/
theorem words_only_line_has_no_sentinel :
    build sh61h [(sh61h.TOKEN_NORMAL, "ls"), (sh61h.TOKEN_NORMAL, "-l")] (World.fresh [] [] [])
      = [{ command_alloc sh61h with argc := 2, argv := [some "ls", some "-l", none] }]
    ∧ (build sh61h [(sh61h.TOKEN_NORMAL, "ls"), (sh61h.TOKEN_NORMAL, "-l")]
        (World.fresh [] [] [])).length = 1 := by
  decide

/-- C14 (witness): the words `ls -l`. -/
theorem words_only_line_builds_one_node_witness :
    ["ls", "-l"] ≠ []
    ∧ build sh61h (word_tokens sh61h ["ls", "-l"]) (World.fresh [] [] [])
      = [{ command_alloc sh61h with
            argc := ["ls", "-l"].length, argv := ["ls", "-l"].map some ++ [none] }]
    ∧ ({ command_alloc sh61h with
          argc := ["ls", "-l"].length,
          argv := ["ls", "-l"].map some ++ [none] } : command).conditional = 0 :=
  ⟨by decide,
    words_only_line_builds_one_node sh61h (by decide) ["ls", "-l"] (by decide)
      (World.fresh [] [] [])⟩

/-! ## Empty nodes -/

theorem ends_command_ne_normal {k : Sh61h} (hk : k.distinct) {type : Int}
    (h : ends_command k type = true) : type ≠ k.TOKEN_NORMAL := by
  intro h1
  rw [h1, ends_command_normal hk] at h
  exact Bool.false_ne_true h

theorem eval_loop_operands {k : Sh61h} (hk : k.distinct) (s : List (Int × String)) :
    ∀ (prev : Bool) (st : LineState) (w : World),
      operators_follow_words k prev s = true → (∀ c ∈ st.before, c.argc ≠ 0) →
      (prev = true → st.current.argc ≠ 0) → st.after = [] →
      ∀ c ∈ (eval_loop k s st w).1.list.dropLast, c.argc ≠ 0 := by
  induction s with
  | nil =>
    intro prev st w _ hb _ ha
    simpa [eval_loop, LineState.list, ha, List.dropLast_concat] using hb
  | cons t s ih =>
    intro prev st w hops hb hc ha
    obtain ⟨type, token⟩ := t
    simp only [operators_follow_words, Bool.and_eq_true] at hops
    obtain ⟨hprev, hrest⟩ := hops
    by_cases hp : type = k.TOKEN_PIPE
    · subst hp
      rw [ends_command_pipe, if_pos rfl] at hprev
      have hcur := hc hprev
      have hflag : decide (k.TOKEN_PIPE = k.TOKEN_NORMAL) = false := by
        have := (distinct_facts hk).1.2.2.1
        simp [this.symm]
      rw [hflag] at hrest
      rw [eval_loop, eval_token_pipe hk]
      rcases w.pipe with ⟨o, w1⟩
      rcases o with _ | ⟨r, wr⟩
      · simp only [LineState.list]
        intro c hmem
        have hd : (st.before ++ [{ st.current with pipe_type := k.PIPE_IN, background := 1 },
            { command_alloc k with pipe_type := k.PIPE_OUT }]).dropLast
            = st.before ++ [{ st.current with pipe_type := k.PIPE_IN, background := 1 }] := by
          rw [show st.before ++ [{ st.current with pipe_type := k.PIPE_IN, background := 1 },
              { command_alloc k with pipe_type := k.PIPE_OUT }]
            = (st.before ++ [{ st.current with pipe_type := k.PIPE_IN, background := 1 }])
              ++ [{ command_alloc k with pipe_type := k.PIPE_OUT }] by simp]
          exact List.dropLast_concat
        rw [hd] at hmem
        rcases List.mem_append.1 hmem with hm | hm
        · exact hb c hm
        · rw [List.mem_singleton.1 hm]; exact hcur
      · simp only []
        refine ih false _ _ hrest ?_ (fun h => absurd h Bool.false_ne_true) rfl
        intro c hmem
        rcases List.mem_append.1 hmem with hm | hm
        · exact hb c hm
        · rw [List.mem_singleton.1 hm]; exact hcur
    · rw [eval_loop, eval_token_touch type token st w hp]
      simp only []
      by_cases hend : ends_command k type = true
      · rw [if_pos hend] at hprev ⊢
        have hcur := hc hprev
        have hn := ends_command_ne_normal hk hend
        have hflag : decide (type = k.TOKEN_NORMAL) = false := by simp [hn]
        rw [hflag] at hrest
        refine ih false _ _ hrest ?_ (fun h => absurd h Bool.false_ne_true) rfl
        intro c hmem
        rcases List.mem_append.1 hmem with hm | hm
        · exact hb c hm
        · rw [List.mem_singleton.1 hm, touch_argc, if_neg hn]; exact hcur
      · rw [if_neg hend]
        refine ih _ _ _ hrest hb ?_ ha
        intro hflag
        have hn : type = k.TOKEN_NORMAL := by simpa using hflag
        simp only [touch_argc, hn, if_true]
        omega

/-- C15 (amended): in every list built by `eval_line` from a token stream in
which every token that starts a new node (SEQUENCE, BACKGROUND, AND, OR, PIPE)
directly follows a WORD token, a node with an empty argument sequence occurs
only as the final node: every node that has a successor has `argc != 0`.  This
holds whether or not the pipes are created. -/
theorem empty_node_only_last (k : Sh61h) (hk : k.distinct) (s : List (Int × String))
    (w : World) (hops : operators_follow_words k false s = true) :
    ∀ c ∈ (build k s w).dropLast, c.argc ≠ 0 :=
  eval_loop_operands hk s false (line_init k) w hops (by simp [line_init])
    (fun h => absurd h Bool.false_ne_true) rfl

/-- C15 (counterexample): the list built from the tokens [SEQUENCE, WORD a]
(the line `; a`) is an empty node followed by the node of a: a node with empty
arguments has a successor. -/
theorem empty_node_before_command :
    (build sh61h [(sh61h.TOKEN_SEQUENCE, ";"), (sh61h.TOKEN_NORMAL, "a")]
        (World.fresh [] [] [])).map (fun c => (c.argc, c.words)) = [(0, []), (1, ["a"])] := by
  decide

/-- C15 (witness): the line `a ; b &`. -/
theorem empty_node_only_last_witness :
    operators_follow_words sh61h false
        [(sh61h.TOKEN_NORMAL, "a"), (sh61h.TOKEN_SEQUENCE, ";"), (sh61h.TOKEN_NORMAL, "b"),
          (sh61h.TOKEN_BACKGROUND, "&")] = true
    ∧ ∀ c ∈ (build sh61h
        [(sh61h.TOKEN_NORMAL, "a"), (sh61h.TOKEN_SEQUENCE, ";"), (sh61h.TOKEN_NORMAL, "b"),
          (sh61h.TOKEN_BACKGROUND, "&")] (World.fresh [] [] [])).dropLast, c.argc ≠ 0 :=
  ⟨by decide,
    empty_node_only_last sh61h (by decide)
      [(sh61h.TOKEN_NORMAL, "a"), (sh61h.TOKEN_SEQUENCE, ";"), (sh61h.TOKEN_NORMAL, "b"),
        (sh61h.TOKEN_BACKGROUND, "&")] (World.fresh [] [] []) (by decide)⟩


/-! ## Reclaiming the list -/

theorem eval_loop_allocs {k : Sh61h} (hk : k.distinct) (s : List (Int × String)) :
    ∀ (st : LineState) (w : World), st.after = [] → st.allocs = st.list.length →
      (eval_loop k s st w).1.allocs = (eval_loop k s st w).1.list.length := by
  induction s with
  | nil => intro st w _ h; simpa [eval_loop] using h
  | cons t s ih =>
    intro st w ha hl
    obtain ⟨type, token⟩ := t
    simp only [LineState.list, ha, List.length_append, List.length_cons, List.length_nil] at hl
    by_cases hp : type = k.TOKEN_PIPE
    · subst hp
      rw [eval_loop, eval_token_pipe hk]
      rcases w.pipe with ⟨o, w1⟩
      rcases o with _ | ⟨r, wr⟩
      · simp [LineState.list, hl]
      · simp only []
        exact ih _ _ rfl (by simp [LineState.list, hl])
    · rw [eval_loop, eval_token_touch type token st w hp]
      simp only []
      by_cases hend : ends_command k type = true
      · rw [if_pos hend]
        exact ih _ _ rfl (by simp [LineState.list, hl])
      · rw [if_neg hend]
        exact ih _ _ ha (by simp [LineState.list, hl, ha])

theorem collect_length (l : List command) : collect l.length l = some l := by
  induction l with
  | nil => rfl
  | cons c l ih => simp [collect, ih]

/-- C17: for every token stream, also one cut short by a pipe-creation
failure, the counter `allocs` that `eval_line` keeps equals the number of nodes
of the list it built, so the reclaiming traversal collects exactly the nodes of
the list without following a NULL link, and once `run_list` (when it is
called) has returned, `eval_line` returns after calling `command_free` exactly
once on each node, last node first, the final empty node included. -/
theorem allocs_counts_nodes_and_all_are_freed (k : Sh61h) (hk : k.distinct)
    (s : List (Int × String)) (w : World) (fuel : Nat) (status : Int) :
    (eval_loop k s (line_init k) w).1.allocs = (build k s w).length
    ∧ collect (eval_loop k s (line_init k) w).1.allocs (build k s w) = some (build k s w)
    ∧ eval_line k fuel s status w
      = match (if ((build k s w).headD (eval_loop k s (line_init k) w).1.current).argc ≠ 0 then
                run_list k fuel (build k s w) status (eval_loop k s (line_init k) w).2.1
              else .ret () (eval_loop k s (line_init k) w).2.1) with
        | .ret () w2 =>
          .ret () { w2 with
            trace := w2.trace ++ (build k s w).reverse.map Event.command_free }
        | other => other := by
  have h1 : (eval_loop k s (line_init k) w).1.allocs = (build k s w).length :=
    eval_loop_allocs hk s (line_init k) w rfl (by simp [line_init, LineState.list])
  have h2 : collect (eval_loop k s (line_init k) w).1.allocs (build k s w)
      = some (build k s w) := by
    rw [h1, collect_length]
  refine ⟨h1, h2, ?_⟩
  rw [build] at h2
  simp only [eval_line, build]
  split <;> simp_all

/-- C17 (witness): the line `a | b` with the pipe failing: three nodes were
allocated (a, the empty node linked after it, and none for b). -/
theorem allocs_counts_nodes_and_all_are_freed_witness :
    (eval_loop sh61h [(sh61h.TOKEN_NORMAL, "a"), (sh61h.TOKEN_PIPE, "|"),
        (sh61h.TOKEN_NORMAL, "b")] (line_init sh61h) (World.fresh [] [] [none])).1.allocs
      = (build sh61h [(sh61h.TOKEN_NORMAL, "a"), (sh61h.TOKEN_PIPE, "|"),
          (sh61h.TOKEN_NORMAL, "b")] (World.fresh [] [] [none])).length
    ∧ freed (eval_line sh61h 4 [(sh61h.TOKEN_NORMAL, "a"), (sh61h.TOKEN_PIPE, "|"),
        (sh61h.TOKEN_NORMAL, "b")] 0 (World.fresh [] [] [none])).world.trace
      = (build sh61h [(sh61h.TOKEN_NORMAL, "a"), (sh61h.TOKEN_PIPE, "|"),
          (sh61h.TOKEN_NORMAL, "b")] (World.fresh [] [] [none])).reverse :=
  ⟨(allocs_counts_nodes_and_all_are_freed sh61h (by decide)
      [(sh61h.TOKEN_NORMAL, "a"), (sh61h.TOKEN_PIPE, "|"), (sh61h.TOKEN_NORMAL, "b")]
      (World.fresh [] [] [none]) 4 0).1,
    by decide⟩


/-! ## The calls that `start_command` and `run_list` make -/

theorem waits_append (xs ys : List Event) : waits (xs ++ ys) = waits xs ++ waits ys := by
  induction xs with
  | nil => simp [waits]
  | cons e es ih => cases e <;> simp [waits, ih]

theorem foreground_calls_append (xs ys : List Event) :
    foreground_calls (xs ++ ys) = foreground_calls xs ++ foreground_calls ys := by
  induction xs with
  | nil => simp [foreground_calls]
  | cons e es ih => cases e <;> simp [foreground_calls, ih]

theorem freed_append (xs ys : List Event) : freed (xs ++ ys) = freed xs ++ freed ys := by
  induction xs with
  | nil => simp [freed]
  | cons e es ih => cases e <;> simp [freed, ih]

theorem waitpid_trace (w : World) (pid status : Int) :
    (w.waitpid pid status).2.2.trace
      = w.trace ++ [.wait pid (w.waitpid pid status).1 (w.waitpid pid status).2.1] := by
  unfold World.waitpid
  split <;> simp [World.log]

/-- What `start_command` adds to the trace: no wait, no `set_foreground`, no
`command_free`; and at least one call (fork or chdir) whenever it returns. -/
theorem start_command_events (c : command) (pgid : Int) (w : World) :
    ∃ es, (start_command c pgid w).world.trace = w.trace ++ es
      ∧ waits es = [] ∧ foreground_calls es = [] ∧ freed es = []
      ∧ ((start_command c pgid w).returned = true → es ≠ []) := by
  unfold start_command
  split
  · exact ⟨[], by simp [Outcome.world], rfl, rfl, rfl, by simp [Outcome.returned]⟩
  · exact ⟨[], by simp [Outcome.world], rfl, rfl, rfl, by simp [Outcome.returned]⟩
  · split_ifs with h1 h2
    · simp only [World.chdir]
      cases w.chdirs with
      | nil =>
        simp only [World.log]
        exact ⟨[.chdir (c.argv.getD 1 none) (-1), .perror "failed to change cwd: "],
          by simp [Outcome.world], rfl, rfl, rfl, by simp⟩
      | cons r rs =>
        by_cases hr : r = -1
        · simp only [hr, if_true, World.log]
          exact ⟨[.chdir (c.argv.getD 1 none) (-1), .perror "failed to change cwd: "],
            by simp [Outcome.world], rfl, rfl, rfl, by simp⟩
        · simp only [hr, if_false]
          exact ⟨[.chdir (c.argv.getD 1 none) r], by simp [Outcome.world], rfl, rfl, rfl, by simp⟩
    · exact ⟨[], by simp [Outcome.world], rfl, rfl, rfl, by simp [Outcome.returned]⟩
    · simp only [World.fork]
      cases w.forks with
      | nil =>
        simp only [World.log]
        exact ⟨[.fork c (-1), .perror "Failed to fork, oh dear: "],
          by simp [Outcome.world], rfl, rfl, rfl, by simp⟩
      | cons f fs =>
        by_cases hpos : f.ret > 0
        · have h0 : f.ret ≠ 0 := by omega
          simp only [hpos, if_true, h0, if_false]
          exact ⟨[.fork c f.ret], by simp [Outcome.world], rfl, rfl, rfl, by simp⟩
        · by_cases h0 : f.ret = 0
          · simp only [hpos, if_false, h0, if_true]
            exact ⟨[.fork c 0], by simp [Outcome.world, h0], rfl, rfl, rfl,
              by simp [Outcome.returned]⟩
          · simp only [hpos, if_false, h0, World.log]
            exact ⟨[.fork c f.ret, .perror "Failed to fork, oh dear: "],
              by simp [Outcome.world], rfl, rfl, rfl, by simp⟩

theorem no_wait_head {es : List Event} (h : waits es = []) (xs : List Event)
    (hx : es ≠ [] ∨ xs = []) (pid r s : Int) (rest : List Event) :
    es ++ xs ≠ .wait pid r s :: rest := by
  cases es with
  | nil =>
    rcases hx with hx | hx
    · exact absurd rfl hx
    · simp [hx]
  | cons e t =>
    intro heq
    simp only [List.cons_append, List.cons.injEq] at heq
    rw [heq.1] at h
    simp [waits] at h

/-- What `run_list` adds to the trace: never a `set_foreground`, never a
`command_free`, and its first call is never a wait. -/
theorem run_list_events (k : Sh61h) (n : Nat) :
    ∀ (l : List command) (status : Int) (w : World),
      ∃ es, (run_list k n l status w).world.trace = w.trace ++ es
        ∧ foreground_calls es = [] ∧ freed es = []
        ∧ ∀ (pid r s : Int) (rest : List Event), es ≠ .wait pid r s :: rest := by
  induction n with
  | zero =>
    intro l status w
    exact ⟨[], by simp [run_list, Outcome.world], rfl, rfl, by simp⟩
  | succ n ih =>
    intro l status w
    cases l with
    | nil => exact ⟨[], by simp [run_list, Outcome.world], rfl, rfl, by simp⟩
    | cons current next =>
      by_cases hargc : current.argc = 0
      · exact ⟨[], by simp [run_list, hargc, Outcome.world], rfl, rfl, by simp⟩
      · obtain ⟨es0, h0, hw0, hf0, hfr0, hne0⟩ := start_command_events current 42 w
        rw [run_list, if_neg hargc]
        cases hs : start_command current 42 w with
        | ret a w1 =>
          obtain ⟨cur, child⟩ := a
          rw [hs] at h0 hne0
          simp only [Outcome.world] at h0
          have hne := hne0 rfl
          -- the wait, when there is one
          obtain ⟨status1, w2, ews, hmatch, hw2, hfw, hfrw⟩ :
              ∃ status1 w2 ews,
                (if cur.background = 0 then
                    ((w1.waitpid child status).2.1, (w1.waitpid child status).2.2)
                  else (status, w1)) = (status1, w2)
                ∧ w2.trace = w.trace ++ (es0 ++ ews)
                ∧ foreground_calls ews = [] ∧ freed ews = [] := by
            by_cases hb : cur.background = 0
            · exact ⟨_, _, [.wait child (w1.waitpid child status).1
                (w1.waitpid child status).2.1], by rw [if_pos hb],
                by rw [waitpid_trace, h0, List.append_assoc], rfl, rfl⟩
            · exact ⟨_, _, [], by rw [if_neg hb], by simp [h0], rfl, rfl⟩
          simp only [hmatch]
          have hret : ∃ es, (Outcome.ret () w2 : Outcome Unit).world.trace = w.trace ++ es
              ∧ foreground_calls es = [] ∧ freed es = []
              ∧ ∀ (pid r s : Int) (rest : List Event), es ≠ .wait pid r s :: rest :=
            ⟨es0 ++ ews, hw2, by simp [foreground_calls_append, hf0, hfw],
              by simp [freed_append, hfr0, hfrw],
              fun pid r s rest => no_wait_head hw0 ews (Or.inl hne) pid r s rest⟩
          have hrec : ∀ l1 : List command,
              ∃ es, (run_list k n l1 status1 w2).world.trace = w.trace ++ es
              ∧ foreground_calls es = [] ∧ freed es = []
              ∧ ∀ (pid r s : Int) (rest : List Event), es ≠ .wait pid r s :: rest := by
            intro l1
            obtain ⟨es1, h1, hf1, hfr1, -⟩ := ih l1 status1 w2
            refine ⟨es0 ++ (ews ++ es1), by rw [h1, hw2]; simp,
              by simp [foreground_calls_append, hf0, hfw, hf1],
              by simp [freed_append, hfr0, hfrw, hfr1],
              fun pid r s rest => no_wait_head hw0 _ (Or.inl hne) pid r s rest⟩
          split_ifs
          · exact hret
          · exact hrec next
          · exact hret
          · exact hrec next
          · exact hret
          · exact hrec next
          · obtain ⟨es1, h1, hf1, hfr1, -⟩ := ih (cur :: next) status1
              (w2.log (.printf "Uncaught conditions Considered Harmful... \n"))
            refine ⟨es0 ++ (ews ++ (.printf "Uncaught conditions Considered Harmful... \n"
                :: es1)), by rw [h1]; simp [World.log, hw2],
              by simp [foreground_calls_append, hf0, hfw, hf1, foreground_calls],
              by simp [freed_append, hfr0, hfrw, hfr1, freed],
              fun pid r s rest => no_wait_head hw0 _ (Or.inl hne) pid r s rest⟩
        | exited st w1 =>
          rw [hs] at h0
          exact ⟨es0, h0, hf0, hfr0,
            fun pid r s rest => by
              have := no_wait_head hw0 [] (Or.inr rfl) pid r s rest
              simpa using this⟩
        | inChild w1 =>
          rw [hs] at h0
          exact ⟨es0, h0, hf0, hfr0,
            fun pid r s rest => by
              have := no_wait_head hw0 [] (Or.inr rfl) pid r s rest
              simpa using this⟩
        | fault w1 =>
          rw [hs] at h0
          exact ⟨es0, h0, hf0, hfr0,
            fun pid r s rest => by
              have := no_wait_head hw0 [] (Or.inr rfl) pid r s rest
              simpa using this⟩
        | fuel w1 =>
          rw [hs] at h0
          exact ⟨es0, h0, hf0, hfr0,
            fun pid r s rest => by
              have := no_wait_head hw0 [] (Or.inr rfl) pid r s rest
              simpa using this⟩


/-! ## Launching in the shell process -/

/-- In the shell process (fork never returns 0 there) `start_command` on a
command that is not a built-in returns after one call of fork, whatever its
result; for a node whose `pid` is -1 the value returned is -1. -/
theorem start_command_shell {c : command} (argv0 : String) (rest : List (Option String))
    (pgid : Int) (w : World) (hargv : c.argv = some argv0 :: rest)
    (hcd : argv0 ≠ BUILTIN_CD) (hexit : argv0 ≠ BUILTIN_EXIT) (hpid : c.pid = -1)
    (hshell : ∀ f, w.forks.head? = some f → f.ret ≠ 0) :
    ∃ w1 es, start_command c pgid w = .ret (c, -1) w1
      ∧ w1.trace = w.trace ++ es ∧ launched es = [c] ∧ waits es = []
      ∧ w1.forks = w.forks.tail := by
  simp only [start_command, hargv, hcd, hexit, if_false, World.fork]
  cases hfk : w.forks with
  | nil =>
    exact ⟨_, [.fork c (-1), .perror "Failed to fork, oh dear: "], rfl,
      by simp [World.log], rfl, rfl, by simp [World.log, hfk]⟩
  | cons f fs =>
    have h0 : f.ret ≠ 0 := hshell f (by simp [hfk])
    by_cases hpos : f.ret > 0
    · simp only [hpos, if_true, h0, if_false, hpid]
      exact ⟨_, [.fork c f.ret], rfl, rfl, rfl, rfl, rfl⟩
    · simp only [hpos, if_false, h0, World.log]
      exact ⟨_, [.fork c f.ret, .perror "Failed to fork, oh dear: "], rfl, by simp, rfl, rfl,
        rfl⟩

theorem waitpid_forks (w : World) (pid status : Int) :
    (w.waitpid pid status).2.2.forks = w.forks := by
  unfold World.waitpid
  split <;> simp [World.log]

/-- One iteration of `run_list` on a command without conditional operator that
is not a built-in and has a successor: it is launched, waited for exactly when
its background flag is 0, and the loop goes on with the successor. -/
theorem run_list_plain_step (k : Sh61h) (hk : k.distinct) (n : Nat) (c : command)
    (next : List command) (status : Int) (w : World) (argv0 : String)
    (rest : List (Option String)) (hargv : c.argv = some argv0 :: rest)
    (hcd : argv0 ≠ BUILTIN_CD) (hexit : argv0 ≠ BUILTIN_EXIT) (hargc : c.argc ≠ 0)
    (hpid : c.pid = -1) (hcond : c.conditional = 0) (hnext : next ≠ [])
    (hshell : ∀ f, w.forks.head? = some f → f.ret ≠ 0) :
    ∃ status1 w2 es, run_list k (n + 1) (c :: next) status w = run_list k n next status1 w2
      ∧ w2.trace = w.trace ++ es ∧ launched es = [c]
      ∧ (c.background ≠ 0 → waits es = [])
      ∧ (c.background = 0 → ∃ r s, waits es = [(-1, r, s)])
      ∧ w2.forks = w.forks.tail := by
  obtain ⟨w1, es0, hs, ht, hl, hw, hf⟩ :=
    start_command_shell argv0 rest 42 w hargv hcd hexit hpid hshell
  obtain ⟨-, -, -, -, -, hand0, hor0, -⟩ := distinct_facts hk
  have h1 : ¬ ((0 : Int) = k.TOKEN_AND) := fun h => hand0 h.symm
  have h2 : ¬ ((0 : Int) = k.TOKEN_OR) := fun h => hor0 h.symm
  rw [run_list, if_neg hargc, hs]
  simp only [hnext, if_false, hcond, h1, h2, false_and, if_true]
  by_cases hb : c.background = 0
  · refine ⟨_, _, es0 ++ [.wait (-1) (w1.waitpid (-1) status).1 (w1.waitpid (-1) status).2.1],
      by rw [if_pos hb], ?_, ?_, fun h => absurd hb h,
      fun _ => ⟨(w1.waitpid (-1) status).1, (w1.waitpid (-1) status).2.1, ?_⟩, ?_⟩
    · rw [waitpid_trace, ht, List.append_assoc]
    · simp [launched_append, hl, launched]
    · simp [waits_append, hw, waits]
    · rw [waitpid_forks, hf]
  · exact ⟨_, _, es0, by rw [if_neg hb], ht, hl, fun _ => hw, fun h => absurd h hb, hf⟩

/-- The last iteration of `run_list`, on a command that is not a built-in, has
no successor and is not in the background: one launch, then one wait. -/
theorem run_list_last_step (k : Sh61h) (n : Nat) (c : command) (status : Int) (w : World)
    (argv0 : String) (rest : List (Option String)) (hargv : c.argv = some argv0 :: rest)
    (hcd : argv0 ≠ BUILTIN_CD) (hexit : argv0 ≠ BUILTIN_EXIT) (hargc : c.argc ≠ 0)
    (hpid : c.pid = -1) (hbg : c.background = 0)
    (hshell : ∀ f, w.forks.head? = some f → f.ret ≠ 0) :
    ∃ wf es r s, run_list k (n + 1) [c] status w = .ret () wf
      ∧ wf.trace = w.trace ++ es ++ [.wait (-1) r s] ∧ launched es = [c] ∧ waits es = [] := by
  obtain ⟨w1, es0, hs, ht, hl, hw, -⟩ :=
    start_command_shell argv0 rest 42 w hargv hcd hexit hpid hshell
  rw [run_list, if_neg hargc, hs]
  simp only [hbg, if_true]
  exact ⟨_, es0, _, _, rfl, by rw [waitpid_trace, ht], hl, hw⟩


/-! ## A sequence of two commands; the terminal -/

/-- C16: the tokens [WORD echo, WORD hi, SEQUENCE, WORD echo, WORD bye] build
exactly two nodes, with arguments [echo, hi] and [echo, bye], each with
conditional 0 (NONE), pipe role `PIPE_NONE` and background 0, and `run_list`
launches the second command after the first in every world, whatever fork
returns in the shell for the first and whatever status its wait stores. -/
theorem sequence_line_runs_both (k : Sh61h) (hk : k.distinct) (t : String) (w0 w : World)
    (hshell : ∀ f, w.forks.head? = some f → f.ret ≠ 0) (n : Nat) (status : Int) :
    build k [(k.TOKEN_NORMAL, "echo"), (k.TOKEN_NORMAL, "hi"), (k.TOKEN_SEQUENCE, t),
        (k.TOKEN_NORMAL, "echo"), (k.TOKEN_NORMAL, "bye")] w0
      = [{ command_alloc k with argc := 2, argv := [some "echo", some "hi", none] },
         { command_alloc k with argc := 2, argv := [some "echo", some "bye", none] }]
    ∧ (command_alloc k).conditional = 0 ∧ (command_alloc k).pipe_type = k.PIPE_NONE
    ∧ (command_alloc k).background = 0
    ∧ launched (run_list k (n + 2)
          (build k [(k.TOKEN_NORMAL, "echo"), (k.TOKEN_NORMAL, "hi"), (k.TOKEN_SEQUENCE, t),
            (k.TOKEN_NORMAL, "echo"), (k.TOKEN_NORMAL, "bye")] w0) status w).world.trace
        = launched w.trace
          ++ [{ command_alloc k with argc := 2, argv := [some "echo", some "hi", none] },
              { command_alloc k with argc := 2, argv := [some "echo", some "bye", none] }] := by
  have hb : build k [(k.TOKEN_NORMAL, "echo"), (k.TOKEN_NORMAL, "hi"), (k.TOKEN_SEQUENCE, t),
        (k.TOKEN_NORMAL, "echo"), (k.TOKEN_NORMAL, "bye")] w0
      = [{ command_alloc k with argc := 2, argv := [some "echo", some "hi", none] },
         { command_alloc k with argc := 2, argv := [some "echo", some "bye", none] }] := by
    simp [build, eval_loop, eval_token_normal hk, eval_token_sequence hk, line_init,
      LineState.list, command_append_arg, command_alloc]
  refine ⟨hb, rfl, rfl, rfl, ?_⟩
  rw [hb]
  obtain ⟨status1, w2, es, hrun, ht, hl, -, -, -⟩ :=
    run_list_plain_step k hk (n + 1)
      { command_alloc k with argc := 2, argv := [some "echo", some "hi", none] }
      [{ command_alloc k with argc := 2, argv := [some "echo", some "bye", none] }]
      status w "echo" [some "hi", none] rfl (by decide) (by decide)
      (by simp) rfl rfl (by simp) hshell
  rw [hrun, run_list_single k n "echo" [some "bye", none] status1 w2 rfl (by decide)
    (by decide) (by simp), ht, launched_append, hl]
  simp

/-- C16 (witness): a world in which the first echo is forked as child 10 and
ends with status 256 (exit status 1). -/
theorem sequence_line_runs_both_witness :
    (launched (run_list sh61h 2
          (build sh61h [(sh61h.TOKEN_NORMAL, "echo"), (sh61h.TOKEN_NORMAL, "hi"),
            (sh61h.TOKEN_SEQUENCE, ";"), (sh61h.TOKEN_NORMAL, "echo"),
            (sh61h.TOKEN_NORMAL, "bye")] (World.fresh [] [] []))
          0 (World.fresh [⟨10, 256, 0⟩, ⟨11, 0, 0⟩] [] [])).world.trace)
      = launched (World.fresh [⟨10, 256, 0⟩, ⟨11, 0, 0⟩] [] []).trace
        ++ [{ command_alloc sh61h with argc := 2, argv := [some "echo", some "hi", none] },
            { command_alloc sh61h with argc := 2, argv := [some "echo", some "bye", none] }] :=
  (sequence_line_runs_both sh61h (by decide) ";" (World.fresh [] [] [])
    (World.fresh [⟨10, 256, 0⟩, ⟨11, 0, 0⟩] [] []) (by decide) 0 0).2.2.2.2

/-- C18 (the code at the failing input): for the foreground line `a`, the
calls that `eval_line` makes are one poll, the fork of a, the wait and the
`command_free` of the node: `set_foreground` is called neither before the wait
nor after it. -/
theorem foreground_never_handed_over :
    (eval_line sh61h 4 [(sh61h.TOKEN_NORMAL, "a")] 0
        (World.fresh [⟨10, 0, 0⟩] [] [])).world.trace
      = [.poll (-1), .fork (command_append_arg (command_alloc sh61h) "a") 10,
          .wait (-1) 10 0, .command_free (command_append_arg (command_alloc sh61h) "a")]
    ∧ foreground_calls (eval_line sh61h 4 [(sh61h.TOKEN_NORMAL, "a")] 0
        (World.fresh [⟨10, 0, 0⟩] [] [])).world.trace = [] := by
  decide


/-! ## Pipelines -/

theorem filterMap_some_nil (ws : List String) :
    (ws.map some ++ [none]).filterMap id = ws := by
  induction ws with
  | nil => rfl
  | cons a ws ih => simp

/-- The list built from the tokens of `c1 | ... | cn`, every pipe created:
one node per command, carrying its words; all but the last are in the
background, the last is not; no conditional, `pid` -1. -/
theorem eval_loop_pipeline {k : Sh61h} (hk : k.distinct) (more : List (Option (Int × Int)))
    (cmds : List (List String)) :
    cmds ≠ [] → (∀ ws ∈ cmds, ws ≠ []) →
    ∀ (st : LineState) (w : World) (fdl : List (Int × Int)),
      st.after = [] → st.current.argc = 0 → st.current.background = 0 →
      st.current.conditional = 0 → st.current.pid = -1 →
      w.pipes = fdl.map some ++ more → cmds.length ≤ fdl.length + 1 →
      ∃ (srcs : List command) (last : command),
        (eval_loop k (pipeline_tokens k cmds) st w).1.list = st.before ++ (srcs ++ [last])
        ∧ (srcs ++ [last]).map command.words = cmds
        ∧ (∀ c ∈ srcs ++ [last], c.argv = c.words.map some ++ [none]
            ∧ c.argc = c.words.length ∧ c.conditional = 0 ∧ c.pid = -1)
        ∧ (∀ c ∈ srcs, c.background = 1) ∧ last.background = 0 := by
  induction cmds with
  | nil => intro h; exact absurd rfl h
  | cons ws tl ih =>
    intro _ hws st w fdl ha hargc hbg hcond hpid hpipes hlen
    have hws0 : ws ≠ [] := hws ws (by simp)
    have hf := foldl_append_arg ws st.current [] (by simp [hargc]) (by simp [hargc])
    simp only [hws0, if_false, List.nil_append, List.length_nil, Nat.zero_add] at hf
    cases tl with
    | nil =>
      obtain ⟨w1, -, h⟩ := eval_loop_words hk ws [] st w
      rw [List.append_nil] at h
      refine ⟨[], { st.current with argc := ws.length, argv := ws.map some ++ [none] },
        ?_, ?_, ?_, by simp, hbg⟩
      · simp [pipeline_tokens, h, eval_loop, hf, LineState.list, ha]
      · simp [command.words, filterMap_some_nil]
      · intro c hc
        simp only [List.nil_append, List.mem_singleton] at hc
        subst hc
        simp [command.words, filterMap_some_nil, hcond, hpid]
    | cons c2 cs =>
      obtain ⟨w1, hw1, h⟩ := eval_loop_words hk ws
        ((k.TOKEN_PIPE, "|") :: pipeline_tokens k (c2 :: cs)) st w
      cases fdl with
      | nil => simp at hlen
      | cons fd fdl =>
        obtain ⟨r, wr⟩ := fd
        have hp1 : w1.pipes = some (r, wr) :: (fdl.map some ++ more) := by
          rw [hw1, hpipes]; simp
        obtain ⟨srcs, last, h1, h2, h3, h4, h5⟩ := ih (by simp)
          (fun x hx => hws x (by simp [hx]))
          { before := st.before ++ [{ (ws.foldl command_append_arg st.current) with
              pipe_type := k.PIPE_IN, background := 1, pipe_fds := (r, wr), stdout_fd := wr }],
            current := { command_alloc k with
              pipe_type := k.PIPE_OUT, pipe_fds := (r, wr), stdin_fd := r },
            after := [], allocs := st.allocs + 1 }
          (World.waitpid_nohang { w1 with
            pipes := fdl.map some ++ more, fds := r :: wr :: w1.fds,
            trace := w1.trace ++ [.pipe (some (r, wr))] })
          fdl rfl rfl rfl rfl rfl (by rw [waitpid_nohang_pipes])
          (by simpa using hlen)
        refine ⟨{ st.current with
            argc := ws.length, argv := ws.map some ++ [none], pipe_type := k.PIPE_IN,
            background := 1, pipe_fds := (r, wr), stdout_fd := wr } :: srcs, last,
          ?_, ?_, ?_, ?_, h5⟩
        · rw [pipeline_tokens, h, eval_loop, eval_token_pipe_ok hk "|" _ hp1]
          simp only []
          rw [h1, hf]
          simp
        · simp only [List.cons_append, List.map_cons, h2]
          simp [command.words, filterMap_some_nil]
        · intro c hc
          simp only [List.cons_append, List.mem_cons] at hc
          rcases hc with hc | hc
          · subst hc
            simp [command.words, filterMap_some_nil, hcond, hpid]
          · exact h3 c hc
        · intro c hc
          rcases List.mem_cons.1 hc with hc | hc
          · subst hc; rfl
          · exact h4 c hc

/-- `run_list` on a list whose nodes are commands without conditional operator
that are not built-ins, all in the background but the last: every node is
launched, in order, and then the one wait is made. -/
theorem run_list_pipeline (k : Sh61h) (hk : k.distinct) (srcs : List command) :
    ∀ (last : command) (status : Int) (w : World) (n : Nat),
      (∀ c ∈ srcs ++ [last], c.argc ≠ 0 ∧ c.conditional = 0 ∧ c.pid = -1
        ∧ ∃ a rest, c.argv = some a :: rest ∧ a ≠ BUILTIN_CD ∧ a ≠ BUILTIN_EXIT) →
      (∀ c ∈ srcs, c.background = 1) → last.background = 0 →
      (∀ f ∈ w.forks, f.ret ≠ 0) → srcs.length + 1 ≤ n →
      ∃ (wf : World) (es : List Event) (r s : Int),
        run_list k n (srcs ++ [last]) status w = .ret () wf
        ∧ wf.trace = w.trace ++ es ++ [.wait (-1) r s]
        ∧ waits es = [] ∧ launched es = srcs ++ [last] := by
  induction srcs with
  | nil =>
    intro last status w n hall _ hlast hshell hn
    obtain ⟨m, rfl⟩ : ∃ m, n = m + 1 := ⟨n - 1, by simp at hn; omega⟩
    obtain ⟨hargc, -, hpid, a, rest, hargv, hcd, hexit⟩ := hall last (by simp)
    obtain ⟨wf, es, r, s, h1, h2, h3, h4⟩ :=
      run_list_last_step k m last status w a rest hargv hcd hexit hargc hpid hlast
        (fun f hf => hshell f (List.mem_of_mem_head? hf))
    exact ⟨wf, es, r, s, h1, h2, h4, h3⟩
  | cons c srcs ih =>
    intro last status w n hall hsrc hlast hshell hn
    obtain ⟨m, rfl⟩ : ∃ m, n = m + 1 := ⟨n - 1, by simp at hn; omega⟩
    obtain ⟨hargc, hcond, hpid, a, rest, hargv, hcd, hexit⟩ := hall c (by simp)
    obtain ⟨status1, w2, es0, hrun, ht, hl, hnw, -, hf⟩ :=
      run_list_plain_step k hk m c (srcs ++ [last]) status w a rest hargv hcd hexit hargc hpid
        hcond (by simp) (fun f hf => hshell f (List.mem_of_mem_head? hf))
    have hb : c.background ≠ 0 := by rw [hsrc c (by simp)]; decide
    obtain ⟨wf, es, r, s, h1, h2, h3, h4⟩ := ih last status1 w2 m
      (fun x hx => hall x (by simp at hx ⊢; tauto))
      (fun x hx => hsrc x (by simp [hx])) hlast
      (fun f hfm => hshell f (by rw [hf] at hfm; exact List.mem_of_mem_tail hfm))
      (by simp at hn ⊢; omega)
    refine ⟨wf, es0 ++ es, r, s, by rw [List.cons_append, hrun, h1], ?_, ?_, ?_⟩
    · rw [h2, ht]; simp
    · rw [waits_append, hnw hb, h3]; rfl
    · rw [launched_append, hl, h4]; rfl

/-- C11: for the list built from a line `c1 | c2 | ... | cn` (n >= 2, every
pipe created, no built-ins), in the shell process `run_list` returns after
making exactly these calls: a run `es` without any wait in which all n nodes are
launched, in list order, and then its first and only wait.  The nodes carry the
words of c1, ..., cn. -/
theorem pipeline_launched_before_first_wait (k : Sh61h) (hk : k.distinct)
    (cmds : List (List String)) (hn : 2 ≤ cmds.length)
    (hcmds : ∀ ws ∈ cmds, ∃ a rest, ws = a :: rest ∧ a ≠ BUILTIN_CD ∧ a ≠ BUILTIN_EXIT)
    (w0 : World) (fdl : List (Int × Int)) (more : List (Option (Int × Int)))
    (hpipes : w0.pipes = fdl.map some ++ more) (hlen : cmds.length ≤ fdl.length + 1)
    (w : World) (hshell : ∀ f ∈ w.forks, f.ret ≠ 0) (status : Int) (n : Nat)
    (hfuel : cmds.length ≤ n) :
    (build k (pipeline_tokens k cmds) w0).map command.words = cmds
    ∧ ∃ (wf : World) (es : List Event) (r s : Int),
        run_list k n (build k (pipeline_tokens k cmds) w0) status w = .ret () wf
        ∧ wf.trace = w.trace ++ es ++ [.wait (-1) r s]
        ∧ waits es = [] ∧ launched es = build k (pipeline_tokens k cmds) w0 := by
  obtain ⟨srcs, last, h1, h2, h3, h4, h5⟩ := eval_loop_pipeline hk more cmds
    (by intro h; rw [h] at hn; simp at hn)
    (fun ws hws => by obtain ⟨a, rest, h, -⟩ := hcmds ws hws; simp [h])
    (line_init k) w0 fdl rfl rfl rfl rfl rfl hpipes hlen
  have hb : build k (pipeline_tokens k cmds) w0 = srcs ++ [last] := by
    rw [build, h1]; simp [line_init]
  rw [hb]
  refine ⟨h2, ?_⟩
  have hlen2 : (srcs ++ [last]).length = cmds.length := by rw [← h2]; simp
  refine run_list_pipeline k hk srcs last status w n ?_ h4 h5 hshell
    (by simp at hlen2; omega)
  intro c hc
  obtain ⟨hargv, hargc, hcond, hpid⟩ := h3 c hc
  have hw : c.words ∈ cmds := by rw [← h2]; exact List.mem_map_of_mem _ hc
  obtain ⟨a, rest, hws, hcd, hexit⟩ := hcmds _ hw
  refine ⟨by rw [hargc, hws]; simp, hcond, hpid, a, rest.map some ++ [none], ?_, hcd, hexit⟩
  rw [hargv, hws]; rfl

/-- C11 (witness): the line `a | b | c` with its two pipes created, in a world
where the three forks succeed. -/
theorem pipeline_launched_before_first_wait_witness :
    2 ≤ [["a"], ["b"], ["c"]].length
    ∧ ∃ (wf : World) (es : List Event) (r s : Int),
        run_list sh61h 3
            (build sh61h (pipeline_tokens sh61h [["a"], ["b"], ["c"]])
              (World.fresh [] [] [some (3, 4), some (5, 6)]))
            0 (World.fresh [⟨10, 0, 0⟩, ⟨11, 0, 1⟩, ⟨12, 0, 2⟩] [] []) = .ret () wf
        ∧ wf.trace = (World.fresh [⟨10, 0, 0⟩, ⟨11, 0, 1⟩, ⟨12, 0, 2⟩] [] []).trace ++ es
            ++ [.wait (-1) r s]
        ∧ waits es = []
        ∧ launched es = build sh61h (pipeline_tokens sh61h [["a"], ["b"], ["c"]])
            (World.fresh [] [] [some (3, 4), some (5, 6)]) :=
  ⟨by decide,
    (pipeline_launched_before_first_wait sh61h (by decide) [["a"], ["b"], ["c"]] (by decide)
      (by
        intro ws hws
        simp only [List.mem_cons, List.mem_singleton, List.not_mem_nil, or_false] at hws
        rcases hws with rfl | rfl | rfl <;> exact ⟨_, [], rfl, by decide, by decide⟩)
      (World.fresh [] [] [some (3, 4), some (5, 6)]) [(3, 4), (5, 6)] [] rfl
      (by decide) (World.fresh [⟨10, 0, 0⟩, ⟨11, 0, 1⟩, ⟨12, 0, 2⟩] [] []) (by decide) 0 3
      (by decide)).2⟩


/-! ## The current node while the pipes are created -/

theorem ends_command_false {k : Sh61h} {type : Int} (h : ¬ ends_command k type = true) :
    type ≠ k.TOKEN_SEQUENCE ∧ type ≠ k.TOKEN_BACKGROUND ∧ type ≠ k.TOKEN_AND
      ∧ type ≠ k.TOKEN_OR ∧ type ≠ k.TOKEN_PIPE := by
  simp only [ends_command, decide_eq_true_eq, not_or] at h
  exact h

/-- While the pipes are created successfully, the current node keeps
`background == 0` and `conditional == 0`: both are only set on a node at the
moment a new node is linked after it. -/
theorem eval_loop_current_plain {k : Sh61h} (hk : k.distinct) (s : List (Int × String)) :
    ∀ (st : LineState) (w : World) (fdl : List (Int × Int)) (more : List (Option (Int × Int))),
      w.pipes = fdl.map some ++ more → pipe_tokens k s ≤ fdl.length →
      st.current.background = 0 → st.current.conditional = 0 →
      (eval_loop k s st w).1.current.background = 0
        ∧ (eval_loop k s st w).1.current.conditional = 0 := by
  induction s with
  | nil => intro st w fdl more _ _ hb hc; exact ⟨hb, hc⟩
  | cons t s ih =>
    intro st w fdl more hp hlen hb hc
    obtain ⟨type, token⟩ := t
    by_cases hpipe : type = k.TOKEN_PIPE
    · subst hpipe
      rw [pipe_tokens_cons_pipe] at hlen
      cases fdl with
      | nil => simp at hlen
      | cons fd fdl =>
        obtain ⟨r, wr⟩ := fd
        have hp1 : w.pipes = some (r, wr) :: (fdl.map some ++ more) := by simp [hp]
        rw [eval_loop, eval_token_pipe_ok hk token st hp1]
        exact ih _ _ fdl more (by rw [waitpid_nohang_pipes]) (by simpa using hlen) rfl rfl
    · rw [pipe_tokens_cons_other k type token s hpipe] at hlen
      rw [eval_loop, eval_token_touch type token st w hpipe]
      simp only []
      by_cases hend : ends_command k type = true
      · rw [if_pos hend]
        exact ih _ _ fdl more (by rw [waitpid_nohang_pipes, hp]) hlen rfl rfl
      · rw [if_neg hend]
        obtain ⟨-, h2, h3, h4, -⟩ := ends_command_false hend
        refine ih _ _ fdl more (by rw [waitpid_nohang_pipes, hp]) hlen ?_ ?_
        · simp [touch_background, h2, hb]
        · simp [touch_conditional, h3, h4, hc]

/-- Reading a stream whose first part `pre` has all its pipes created: the
state after `pre`, from which the rest of the stream is read. -/
theorem eval_loop_prefix {k : Sh61h} (hk : k.distinct) (pre : List (Int × String)) (w : World)
    (fdl : List (Int × Int)) (more : List (Option (Int × Int)))
    (hpipes : w.pipes = fdl.map some ++ more) (hlen : pipe_tokens k pre ≤ fdl.length) :
    (∀ s2, eval_loop k (pre ++ s2) (line_init k) w
        = eval_loop k s2 (eval_loop k pre (line_init k) w).1
            (eval_loop k pre (line_init k) w).2.1)
    ∧ build k pre w = (eval_loop k pre (line_init k) w).1.before
        ++ [(eval_loop k pre (line_init k) w).1.current]
    ∧ (eval_loop k pre (line_init k) w).1.current.background = 0
    ∧ (eval_loop k pre (line_init k) w).1.current.conditional = 0
    ∧ (eval_loop k pre (line_init k) w).2.1.pipes
        = (fdl.drop (pipe_tokens k pre)).map some ++ more := by
  obtain ⟨hb, hc⟩ := eval_loop_current_plain hk pre (line_init k) w fdl more hpipes hlen rfl rfl
  obtain ⟨-, h2, h3⟩ := eval_loop_append hk pre [] (line_init k) w fdl more hpipes hlen
  refine ⟨fun s2 => (eval_loop_append hk pre s2 (line_init k) w fdl more hpipes hlen).1,
    ?_, hb, hc, h2⟩
  simp [build, LineState.list, h3 rfl]

theorem eval_line_frees (k : Sh61h) (hk : k.distinct) (s : List (Int × String)) (w : World)
    (fuel : Nat) (status : Int) :
    eval_line k fuel s status w
      = match (if ((build k s w).headD (eval_loop k s (line_init k) w).1.current).argc ≠ 0 then
                run_list k fuel (build k s w) status (eval_loop k s (line_init k) w).2.1
              else .ret () (eval_loop k s (line_init k) w).2.1) with
        | .ret () w2 =>
          .ret () { w2 with
            trace := w2.trace ++ (build k s w).reverse.map Event.command_free }
        | other => other := by
  have h1 : (eval_loop k s (line_init k) w).1.allocs = (build k s w).length :=
    eval_loop_allocs hk s (line_init k) w rfl (by simp [line_init, LineState.list])
  have h2 : collect (eval_loop k s (line_init k) w).1.allocs (build k s w)
      = some (build k s w) := by
    rw [h1, collect_length]
  rw [build] at h2
  simp only [eval_line, build]
  split <;> simp_all

/-- The wait call of `run_list` and the background flag: `run_list` calls
`waitpid(child, ...)`, `child` being what `start_command` returned, exactly
when the command's background flag is 0; which child that call reaps is not
said here.  (1) At any iteration of its loop, once `start_command`
has returned: if the flag is 0 the next call is the wait; if it is not 0 no
wait is made before the loop moves on (the next call, if any, is not a wait).
(2) In a list built by `eval_line`, a command terminated by a BACKGROUND token
has the flag set to 1.  (3) A command terminated by SEQUENCE, AND or OR, that
is, neither backgrounded nor a pipe source, has the flag 0, and so has the
last command of a line.  Pipes are assumed created up to the command. -/
theorem run_list_waits_iff_foreground (k : Sh61h) (hk : k.distinct) :
    (∀ (n : Nat) (current : command) (next : List command) (status : Int) (w : World)
        (cur : command) (child : Int) (w1 : World), current.argc ≠ 0 →
        start_command current 42 w = .ret (cur, child) w1 →
        (current.background = 0 →
          ∃ es, (run_list k (n + 1) (current :: next) status w).world.trace
            = w1.trace ++ .wait child (w1.waitpid child status).1
                (w1.waitpid child status).2.1 :: es)
        ∧ (current.background ≠ 0 →
          ∃ es, (run_list k (n + 1) (current :: next) status w).world.trace = w1.trace ++ es
            ∧ ∀ (pid r s : Int) (rest : List Event), es ≠ .wait pid r s :: rest))
    ∧ (∀ (pre post : List (Int × String)) (t : String) (w : World) (fdl : List (Int × Int))
        (more : List (Option (Int × Int))), w.pipes = fdl.map some ++ more →
        pipe_tokens k pre ≤ fdl.length →
        ∃ (l1 : List command) (c0 : command) (l2 : List command),
          build k pre w = l1 ++ [c0]
          ∧ build k (pre ++ (k.TOKEN_BACKGROUND, t) :: post) w
            = l1 ++ { c0 with background := 1 } :: l2)
    ∧ (∀ (pre post : List (Int × String)) (type : Int) (t : String) (w : World)
        (fdl : List (Int × Int)) (more : List (Option (Int × Int))),
        type = k.TOKEN_SEQUENCE ∨ type = k.TOKEN_AND ∨ type = k.TOKEN_OR →
        w.pipes = fdl.map some ++ more → pipe_tokens k pre ≤ fdl.length →
        ∃ (l1 : List command) (c0 c : command) (l2 : List command),
          build k pre w = l1 ++ [c0]
          ∧ build k (pre ++ (type, t) :: post) w = l1 ++ c :: l2
          ∧ c.argv = c0.argv ∧ c.background = 0)
    ∧ (∀ (s : List (Int × String)) (w : World) (fdl : List (Int × Int))
        (more : List (Option (Int × Int))), w.pipes = fdl.map some ++ more →
        pipe_tokens k s ≤ fdl.length →
        ∃ (l1 : List command) (c : command), build k s w = l1 ++ [c] ∧ c.background = 0) := by
  refine ⟨?_, ?_, ?_, ?_⟩
  · intro n current next status w cur child w1 hargc hs
    have hcur : cur = current := start_command_same hs
    subst hcur
    rw [run_list, if_neg hargc, hs]
    simp only []
    constructor
    · intro hb
      rw [if_pos hb]
      simp only []
      have hrec : ∀ (l : List command) (w3 : World) (xs : List Event),
          w3.trace = (w1.waitpid child status).2.2.trace ++ xs →
          ∃ es, (run_list k n l (w1.waitpid child status).2.1 w3).world.trace
            = w1.trace ++ .wait child (w1.waitpid child status).1
                (w1.waitpid child status).2.1 :: es := by
        intro l w3 xs hw3
        obtain ⟨es1, h1, -⟩ := run_list_events k n l (w1.waitpid child status).2.1 w3
        exact ⟨xs ++ es1, by rw [h1, hw3, waitpid_trace]; simp⟩
      have hret : ∃ es, (Outcome.ret () (w1.waitpid child status).2.2 :
            Outcome Unit).world.trace
          = w1.trace ++ .wait child (w1.waitpid child status).1
              (w1.waitpid child status).2.1 :: es :=
        ⟨[], by simp [Outcome.world, waitpid_trace]⟩
      split_ifs
      · exact hret
      · exact hrec next _ [] (by simp)
      · exact hret
      · exact hrec next _ [] (by simp)
      · exact hret
      · exact hrec next _ [] (by simp)
      · exact hrec _ _ [.printf "Uncaught conditions Considered Harmful... \n"]
          (by simp [World.log])
    · intro hb
      rw [if_neg hb]
      simp only []
      have hrec : ∀ l : List command,
          ∃ es, (run_list k n l status w1).world.trace = w1.trace ++ es
            ∧ ∀ (pid r s : Int) (rest : List Event), es ≠ .wait pid r s :: rest := by
        intro l
        obtain ⟨es1, h1, -, -, h4⟩ := run_list_events k n l status w1
        exact ⟨es1, h1, h4⟩
      have hret : ∃ es, (Outcome.ret () w1 : Outcome Unit).world.trace = w1.trace ++ es
            ∧ ∀ (pid r s : Int) (rest : List Event), es ≠ .wait pid r s :: rest :=
        ⟨[], by simp [Outcome.world], by simp⟩
      split_ifs
      · exact hret
      · exact hrec next
      · exact hret
      · exact hrec next
      · exact hret
      · exact hrec next
      · obtain ⟨es1, h1, -⟩ := run_list_events k n (cur :: next) status
          (w1.log (.printf "Uncaught conditions Considered Harmful... \n"))
        exact ⟨.printf "Uncaught conditions Considered Harmful... \n" :: es1,
          by rw [h1]; simp [World.log], by simp⟩
  · intro pre post t w fdl more hpipes hlen
    obtain ⟨h1, h2, -, -, -⟩ := eval_loop_prefix hk pre w fdl more hpipes hlen
    obtain ⟨cur, l2, h4, -, -⟩ := eval_loop_keeps_earlier_nodes hk post
      (eval_token k k.TOKEN_BACKGROUND t (eval_loop k pre (line_init k) w).1
        (eval_loop k pre (line_init k) w).2.1).1
      (World.waitpid_nohang (eval_token k k.TOKEN_BACKGROUND t
        (eval_loop k pre (line_init k) w).1 (eval_loop k pre (line_init k) w).2.1).2.1)
    refine ⟨_, _, cur :: l2, h2, ?_⟩
    rw [build, h1, eval_loop]
    rw [eval_token_background hk] at h4 ⊢
    simp only []
    rw [h4]
    simp
  · intro pre post type t w fdl more htype hpipes hlen
    obtain ⟨h1, h2, hb, -, -⟩ := eval_loop_prefix hk pre w fdl more hpipes hlen
    obtain ⟨⟨-, -, -, -, -⟩, ⟨hsb, hsp, -, -⟩, ⟨hbp, hba, hbo⟩, ⟨hpa, hpo⟩, -⟩ :=
      distinct_facts hk
    have hnp : type ≠ k.TOKEN_PIPE := by
      rcases htype with h | h | h <;> rw [h]
      · exact hsp
      · exact hpa.symm
      · exact hpo.symm
    have hnb : type ≠ k.TOKEN_BACKGROUND := by
      rcases htype with h | h | h <;> rw [h]
      · exact hsb
      · exact hba.symm
      · exact hbo.symm
    have hend : ends_command k type = true := by
      simp only [ends_command, decide_eq_true_eq]
      tauto
    obtain ⟨cur, l2, h4, -, -⟩ := eval_loop_keeps_earlier_nodes hk post
      (eval_token k type t (eval_loop k pre (line_init k) w).1
        (eval_loop k pre (line_init k) w).2.1).1
      (World.waitpid_nohang (eval_token k type t
        (eval_loop k pre (line_init k) w).1 (eval_loop k pre (line_init k) w).2.1).2.1)
    refine ⟨_, _, touch k type t (eval_loop k pre (line_init k) w).1.current, cur :: l2, h2,
      ?_, ?_, ?_⟩
    · rw [build, h1, eval_loop]
      rw [eval_token_touch type t _ _ hnp, if_pos hend] at h4 ⊢
      simp only []
      rw [h4]
      simp
    · have hn := ends_command_ne_normal hk hend
      simp [touch, hn, hnb]
      split_ifs <;> rfl
    · rw [touch_background, if_neg hnb, hb]
  · intro s w fdl more hpipes hlen
    obtain ⟨-, h2, hb, -, -⟩ := eval_loop_prefix hk s w fdl more hpipes hlen
    exact ⟨_, _, h2, hb⟩


/-- The line `a & b`: the node of a carries the background flag. -/
theorem run_list_waits_iff_foreground_witness :
    ∃ (l1 : List command) (c0 : command) (l2 : List command),
      build sh61h [(sh61h.TOKEN_NORMAL, "a")] (World.fresh [] [] []) = l1 ++ [c0]
      ∧ build sh61h ([(sh61h.TOKEN_NORMAL, "a")]
            ++ (sh61h.TOKEN_BACKGROUND, "&") :: [(sh61h.TOKEN_NORMAL, "b")])
          (World.fresh [] [] [])
        = l1 ++ { c0 with background := 1 } :: l2 :=
  (run_list_waits_iff_foreground sh61h (by decide)).2.1 [(sh61h.TOKEN_NORMAL, "a")]
    [(sh61h.TOKEN_NORMAL, "b")] "&" (World.fresh [] [] []) [] [] rfl (by decide)

/-- C12 (the code at the failing input): on the line `a ; b`, while an earlier
child of the shell (pid 7) is unreaped and is the first a wait for any child
reports.  After the three polls of the parsing loop, `run_list` forks a (pid
10), calls `waitpid(-1, ...)`, which reaps child 7, and forks b (pid 11) with
a not waited on; its second wait reaps b, and a is still unreaped when
`eval_line` returns. -/
theorem second_command_forked_while_first_unreaped :
    (eval_line sh61h 8
        [(sh61h.TOKEN_NORMAL, "a"), (sh61h.TOKEN_SEQUENCE, ";"), (sh61h.TOKEN_NORMAL, "b")]
        0 { World.fresh [⟨10, 0, 1⟩, ⟨11, 0, 0⟩] [] [] with children := [⟨7, 0⟩] }).returned
      = true
    ∧ ((eval_line sh61h 8
        [(sh61h.TOKEN_NORMAL, "a"), (sh61h.TOKEN_SEQUENCE, ";"), (sh61h.TOKEN_NORMAL, "b")]
        0 { World.fresh [⟨10, 0, 1⟩, ⟨11, 0, 0⟩] [] [] with
            children := [⟨7, 0⟩] }).world.trace.drop 3).take 4
      = [.fork (command_append_arg (command_alloc sh61h) "a") 10, .wait (-1) 7 0,
          .fork (command_append_arg (command_alloc sh61h) "b") 11, .wait (-1) 11 0]
    ∧ (eval_line sh61h 8
        [(sh61h.TOKEN_NORMAL, "a"), (sh61h.TOKEN_SEQUENCE, ";"), (sh61h.TOKEN_NORMAL, "b")]
        0 { World.fresh [⟨10, 0, 1⟩, ⟨11, 0, 0⟩] [] [] with
            children := [⟨7, 0⟩] }).world.children
      = [⟨10, 0⟩]
    ∧ (build sh61h
        [(sh61h.TOKEN_NORMAL, "a"), (sh61h.TOKEN_SEQUENCE, ";"), (sh61h.TOKEN_NORMAL, "b")]
        (World.fresh [] [] [])).map (fun c => (c.words, c.background, c.pipe_type))
      = [(["a"], 0, sh61h.PIPE_NONE), (["b"], 0, sh61h.PIPE_NONE)] := by
  decide

/-! ## A pipe that cannot be created -/

/-- One iteration of `run_list` on a node that has a successor does not depend
on what the successors are: it ends the run, or goes on with the successors, or
repeats the node. -/
theorem run_list_step_cases (k : Sh61h) (n : Nat) (c : command) (status : Int) (w : World) :
    (∃ o : Outcome Unit, ∀ x : List command, x ≠ [] →
        run_list k (n + 1) (c :: x) status w = o)
    ∨ (∃ (status1 : Int) (w2 : World), ∀ x : List command, x ≠ [] →
        run_list k (n + 1) (c :: x) status w = run_list k n x status1 w2)
    ∨ (∃ (status1 : Int) (w2 : World), ∀ x : List command, x ≠ [] →
        run_list k (n + 1) (c :: x) status w = run_list k n (c :: x) status1 w2) := by
  by_cases hargc : c.argc = 0
  · exact Or.inl ⟨.ret () w, fun x _ => by rw [run_list, if_pos hargc]⟩
  · cases hs : start_command c 42 w with
    | ret a w1 =>
      obtain ⟨cur, child⟩ := a
      have hcur : cur = c := start_command_same hs
      subst hcur
      obtain ⟨status1, w2, hsw⟩ : ∃ (status1 : Int) (w2 : World),
          (if cur.background = 0 then
              ((w1.waitpid child status).2.1, (w1.waitpid child status).2.2)
            else (status, w1)) = (status1, w2) := ⟨_, _, rfl⟩
      have hunfold : ∀ x : List command, x ≠ [] →
          run_list k (n + 1) (cur :: x) status w
            = if cur.conditional = k.TOKEN_AND ∧ WIFEXITED status1 = true
                  ∧ WEXITSTATUS status1 = 0 then
                run_list k n x status1 w2
              else if cur.conditional = k.TOKEN_AND then .ret () w2
              else if cur.conditional = k.TOKEN_OR ∧ WIFEXITED status1 = true
                  ∧ WEXITSTATUS status1 ≠ 0 then
                run_list k n x status1 w2
              else if cur.conditional = k.TOKEN_OR then .ret () w2
              else if cur.conditional = 0 then run_list k n x status1 w2
              else
                run_list k n (cur :: x) status1
                  (w2.log (.printf "Uncaught conditions Considered Harmful... \n")) := by
        intro x hx
        rw [run_list, if_neg hargc, hs]
        simp only [hsw, if_neg hx]
      by_cases h1 : cur.conditional = k.TOKEN_AND ∧ WIFEXITED status1 = true
          ∧ WEXITSTATUS status1 = 0
      · exact Or.inr (Or.inl ⟨status1, w2, fun x hx => by rw [hunfold x hx, if_pos h1]⟩)
      · by_cases h2 : cur.conditional = k.TOKEN_AND
        · exact Or.inl ⟨.ret () w2, fun x hx => by rw [hunfold x hx, if_neg h1, if_pos h2]⟩
        · by_cases h3 : cur.conditional = k.TOKEN_OR ∧ WIFEXITED status1 = true
              ∧ WEXITSTATUS status1 ≠ 0
          · exact Or.inr (Or.inl ⟨status1, w2, fun x hx => by
              rw [hunfold x hx, if_neg h1, if_neg h2, if_pos h3]⟩)
          · by_cases h4 : cur.conditional = k.TOKEN_OR
            · exact Or.inl ⟨.ret () w2, fun x hx => by
                rw [hunfold x hx, if_neg h1, if_neg h2, if_neg h3, if_pos h4]⟩
            · by_cases h5 : cur.conditional = 0
              · exact Or.inr (Or.inl ⟨status1, w2, fun x hx => by
                  rw [hunfold x hx, if_neg h1, if_neg h2, if_neg h3, if_neg h4, if_pos h5]⟩)
              · exact Or.inr (Or.inr ⟨status1,
                  w2.log (.printf "Uncaught conditions Considered Harmful... \n"),
                  fun x hx => by
                    rw [hunfold x hx, if_neg h1, if_neg h2, if_neg h3, if_neg h4, if_neg h5]⟩)
    | exited s w1 =>
      exact Or.inl ⟨.exited s w1, fun x _ => by rw [run_list, if_neg hargc, hs]⟩
    | inChild w1 =>
      exact Or.inl ⟨.inChild w1, fun x _ => by rw [run_list, if_neg hargc, hs]⟩
    | fault w1 =>
      exact Or.inl ⟨.fault w1, fun x _ => by rw [run_list, if_neg hargc, hs]⟩
    | fuel w1 =>
      exact Or.inl ⟨.fuel w1, fun x _ => by rw [run_list, if_neg hargc, hs]⟩

theorem start_command_words (c c' : command) (pgid : Int) (w : World)
    (h : c'.argv = c.argv) :
    (launched (start_command c' pgid w).world.trace).map command.words
      = (launched (start_command c pgid w).world.trace).map command.words := by
  have hw : c'.words = c.words := by simp [command.words, h]
  unfold start_command
  rw [h]
  split
  · rfl
  · rfl
  · split_ifs
    · rcases w.chdir (c.argv.getD 1 none) with ⟨r, w1⟩
      simp only []
      split_ifs <;> rfl
    · rfl
    · simp only [World.fork]
      cases w.forks with
      | nil => simp [World.log, Outcome.world, launched_append, launched, hw]
      | cons f fs =>
        by_cases h1 : f.ret > 0
        · have h0 : f.ret ≠ 0 := by omega
          simp [h1, h0, Outcome.world, launched_append, launched, hw]
        · by_cases h0 : f.ret = 0
          · simp [h0, Outcome.world, launched_append, launched, hw]
          · simp [h1, h0, World.log, Outcome.world, launched_append, launched, hw]

theorem launched_run_single (k : Sh61h) (n : Nat) (c : command) (status : Int) (w : World)
    (hargc : c.argc ≠ 0) :
    launched (run_list k (n + 1) [c] status w).world.trace
      = launched (start_command c 42 w).world.trace := by
  rw [run_list, if_neg hargc]
  cases hs : start_command c 42 w with
  | ret a w1 =>
    obtain ⟨cur, child⟩ := a
    by_cases hb : cur.background = 0
    · simp [hb, Outcome.world, launched_waitpid]
    · simp [hb, Outcome.world]
  | exited s w1 => rfl
  | inChild w1 => rfl
  | fault w1 => rfl
  | fuel w1 => rfl

theorem launched_run_source (k : Sh61h) (hk : k.distinct) (n : Nat) (c e : command)
    (status : Int) (w : World) (hargc : c.argc ≠ 0) (hcond : c.conditional = 0)
    (hempty : e.argc = 0) :
    launched (run_list k (n + 1) [c, e] status w).world.trace
      = launched (start_command c 42 w).world.trace := by
  obtain ⟨-, -, -, -, -, hand0, hor0, -⟩ := distinct_facts hk
  have h1 : ¬ ((0 : Int) = k.TOKEN_AND) := fun h => hand0 h.symm
  have h2 : ¬ ((0 : Int) = k.TOKEN_OR) := fun h => hor0 h.symm
  rw [run_list, if_neg hargc]
  cases hs : start_command c 42 w with
  | ret a w1 =>
    obtain ⟨cur, child⟩ := a
    have hcur : cur = c := start_command_same hs
    subst hcur
    have hend : ∀ (st : Int) (w2 : World), (run_list k n [e] st w2).world = w2 := by
      intro st w2
      cases n with
      | zero => rfl
      | succ m => rw [run_list, if_pos hempty]; rfl
    have hne : ([e] : List command) ≠ [] := by simp
    simp only [hne, if_false, hcond, h1, h2, false_and, if_true]
    rw [hend]
    by_cases hb : cur.background = 0
    · rw [if_pos hb]
      simp [Outcome.world, launched_waitpid]
    · rw [if_neg hb]
      rfl
  | exited s w1 => rfl
  | inChild w1 => rfl
  | fault w1 => rfl
  | fuel w1 => rfl

/-- Running the list left by a failed pipe launches the same commands, in the
same order, as running the list without the marks of that pipe. -/
theorem run_list_cut (k : Sh61h) (hk : k.distinct) (c0 c0' e : command)
    (hargv : c0'.argv = c0.argv) (hargc : c0'.argc = c0.argc) (hcond : c0'.conditional = 0)
    (hempty : e.argc = 0) (n : Nat) :
    ∀ (l1 : List command) (status : Int) (w : World),
      (launched (run_list k n (l1 ++ [c0', e]) status w).world.trace).map command.words
        = (launched (run_list k n (l1 ++ [c0]) status w).world.trace).map command.words := by
  induction n with
  | zero => intro l1 status w; rfl
  | succ n ih =>
    intro l1 status w
    cases l1 with
    | nil =>
      by_cases h0 : c0.argc = 0
      · simp [run_list, h0, hargc]
      · simp only [List.nil_append]
        rw [launched_run_single k n c0 status w h0,
          launched_run_source k hk n c0' e status w (by rw [hargc]; exact h0) hcond hempty]
        exact start_command_words c0 c0' 42 w hargv
    | cons c l1 =>
      simp only [List.cons_append]
      rcases run_list_step_cases k n c status w with ⟨o, h⟩ | ⟨s1, w2, h⟩ | ⟨s1, w2, h⟩
      · rw [h _ (by simp), h _ (by simp)]
      · rw [h _ (by simp), h _ (by simp)]
        exact ih l1 s1 w2
      · rw [h _ (by simp), h _ (by simp)]
        exact ih (c :: l1) s1 w2

theorem pipe_fails (w : World) (h : w.pipes = [] ∨ ∃ tl, w.pipes = none :: tl) :
    w.pipe.1 = none := by
  rcases h with h | ⟨tl, h⟩ <;> simp [World.pipe, h, World.log]

/-- C13: if creating the pipe fails while `eval_line` processes a PIPE token
(all earlier pipes of the line having been created), then no further token is
consumed; the list is the one built from the tokens before the failure, with
its last node marked as a pipe source in the background and one empty node
linked after it; whenever the first command has an argument `eval_line` still
calls `run_list` on that list and then frees it; and `run_list` launches on it
exactly the commands, in the same order, that it launches on the list built
from the tokens before the failure. -/
theorem pipe_failure_stops_parsing (k : Sh61h) (hk : k.distinct)
    (pre post : List (Int × String)) (t : String) (w : World) (fdl : List (Int × Int))
    (more : List (Option (Int × Int))) (hpipes : w.pipes = fdl.map some ++ more)
    (hcount : pipe_tokens k pre = fdl.length) (hfail : more = [] ∨ ∃ tl, more = none :: tl) :
    ∃ (l1 : List command) (c0 : command),
      build k pre w = l1 ++ [c0]
      ∧ (eval_loop k (pre ++ (k.TOKEN_PIPE, t) :: post) (line_init k) w).2.2 = post
      ∧ build k (pre ++ (k.TOKEN_PIPE, t) :: post) w
        = l1 ++ [{ c0 with pipe_type := k.PIPE_IN, background := 1 },
            { command_alloc k with pipe_type := k.PIPE_OUT }]
      ∧ (∀ (fuel : Nat) (status : Int), ((l1 ++ [c0]).headD c0).argc ≠ 0 →
          eval_line k fuel (pre ++ (k.TOKEN_PIPE, t) :: post) status w
            = match run_list k fuel
                (l1 ++ [{ c0 with pipe_type := k.PIPE_IN, background := 1 },
                  { command_alloc k with pipe_type := k.PIPE_OUT }]) status
                (eval_loop k (pre ++ (k.TOKEN_PIPE, t) :: post) (line_init k) w).2.1 with
              | .ret () w2 =>
                .ret () { w2 with
                  trace := w2.trace
                    ++ (l1 ++ [{ c0 with pipe_type := k.PIPE_IN, background := 1 },
                      { command_alloc k with pipe_type := k.PIPE_OUT }]).reverse.map
                        Event.command_free }
              | other => other)
      ∧ (∀ (fuel : Nat) (status : Int) (w1 : World),
          (launched (run_list k fuel
              (l1 ++ [{ c0 with pipe_type := k.PIPE_IN, background := 1 },
                { command_alloc k with pipe_type := k.PIPE_OUT }]) status w1).world.trace).map
              command.words
            = (launched (run_list k fuel (l1 ++ [c0]) status w1).world.trace).map
              command.words) := by
  obtain ⟨h1, h2, -, hc, hp⟩ := eval_loop_prefix hk pre w fdl more hpipes (le_of_eq hcount)
  rw [hcount, List.drop_length, List.map_nil, List.nil_append] at hp
  have hnone := pipe_fails (eval_loop k pre (line_init k) w).2.1 (by rw [hp]; exact hfail)
  have hloop : eval_loop k (pre ++ (k.TOKEN_PIPE, t) :: post) (line_init k) w
      = ({ before := (eval_loop k pre (line_init k) w).1.before,
           current := { (eval_loop k pre (line_init k) w).1.current with
             pipe_type := k.PIPE_IN, background := 1 },
           after := [{ command_alloc k with pipe_type := k.PIPE_OUT }],
           allocs := (eval_loop k pre (line_init k) w).1.allocs + 1 },
          World.log (eval_loop k pre (line_init k) w).2.1.pipe.2
            (.perror "Failed to create pipe: "), post) := by
    rw [h1, eval_loop, eval_token_pipe hk]
    rcases hw : (eval_loop k pre (line_init k) w).2.1.pipe with ⟨o, w1⟩
    rw [hw] at hnone
    simp only at hnone
    subst hnone
    rfl
  have hbuild : build k (pre ++ (k.TOKEN_PIPE, t) :: post) w
      = (eval_loop k pre (line_init k) w).1.before
        ++ [{ (eval_loop k pre (line_init k) w).1.current with
              pipe_type := k.PIPE_IN, background := 1 },
            { command_alloc k with pipe_type := k.PIPE_OUT }] := by
    rw [build, hloop]
    rfl
  refine ⟨(eval_loop k pre (line_init k) w).1.before,
    (eval_loop k pre (line_init k) w).1.current, h2, by rw [hloop], hbuild, ?_, ?_⟩
  · intro fuel status hhead
    rw [eval_line_frees k hk, hbuild]
    have hh : (((eval_loop k pre (line_init k) w).1.before
        ++ [{ (eval_loop k pre (line_init k) w).1.current with
              pipe_type := k.PIPE_IN, background := 1 },
            { command_alloc k with pipe_type := k.PIPE_OUT }]).headD
          (eval_loop k (pre ++ (k.TOKEN_PIPE, t) :: post) (line_init k) w).1.current).argc
        ≠ 0 := by
      cases hbf : (eval_loop k pre (line_init k) w).1.before with
      | nil => rw [hbf] at hhead; simpa using hhead
      | cons b bs => rw [hbf] at hhead; simpa using hhead
    rw [if_pos hh]
  · intro fuel status w1
    exact run_list_cut k hk (eval_loop k pre (line_init k) w).1.current
      { (eval_loop k pre (line_init k) w).1.current with
        pipe_type := k.PIPE_IN, background := 1 }
      { command_alloc k with pipe_type := k.PIPE_OUT } rfl rfl hc rfl fuel _ status w1

/-- C13 (witness): the line `a | b` with the pipe failing. -/
theorem pipe_failure_stops_parsing_witness :
    ∃ (l1 : List command) (c0 : command),
      build sh61h [(sh61h.TOKEN_NORMAL, "a")] (World.fresh [] [] [none]) = l1 ++ [c0]
      ∧ (eval_loop sh61h ([(sh61h.TOKEN_NORMAL, "a")]
            ++ (sh61h.TOKEN_PIPE, "|") :: [(sh61h.TOKEN_NORMAL, "b")])
          (line_init sh61h) (World.fresh [] [] [none])).2.2 = [(sh61h.TOKEN_NORMAL, "b")]
      ∧ build sh61h ([(sh61h.TOKEN_NORMAL, "a")]
            ++ (sh61h.TOKEN_PIPE, "|") :: [(sh61h.TOKEN_NORMAL, "b")])
          (World.fresh [] [] [none])
        = l1 ++ [{ c0 with pipe_type := sh61h.PIPE_IN, background := 1 },
            { command_alloc sh61h with pipe_type := sh61h.PIPE_OUT }] := by
  obtain ⟨l1, c0, h1, h2, h3, -, -⟩ :=
    pipe_failure_stops_parsing sh61h (by decide) [(sh61h.TOKEN_NORMAL, "a")]
      [(sh61h.TOKEN_NORMAL, "b")] "|" (World.fresh [] [] [none]) [] [none] rfl (by decide)
      (Or.inr ⟨[], rfl⟩)
  exact ⟨l1, c0, h1, h2, h3⟩


/-! ## Invariants of the nodes that `eval_line` builds -/

/-- A token that is neither WORD, BACKGROUND, AND nor OR leaves the current
node as it is. -/
theorem touch_other (k : Sh61h) (type : Int) (token : String) (c : command)
    (h1 : type ≠ k.TOKEN_NORMAL) (h2 : type ≠ k.TOKEN_BACKGROUND) (h3 : type ≠ k.TOKEN_AND)
    (h4 : type ≠ k.TOKEN_OR) : touch k type token c = c := by
  simp [touch, h1, h2, h3, h4]

theorem touch_pipe_type (k : Sh61h) (type : Int) (token : String) (c : command) :
    (touch k type token c).pipe_type = c.pipe_type := by
  unfold touch
  split_ifs <;> simp [command_append_arg]

/-- A property of the nodes of the list under construction: `Q` holds of the
current node from its allocation on and `P` of every node once the cursor has
left it, provided each way in which the loop body of `eval_line` changes a node
keeps them. -/
theorem eval_loop_nodes {k : Sh61h} (hk : k.distinct) (P Q : command → Prop)
    (hword : ∀ (c : command) (token : String), Q c → Q (command_append_arg c token))
    (hend : ∀ (c : command) (type : Int) (token : String), Q c → ends_command k type = true →
      type ≠ k.TOKEN_PIPE → P (touch k type token c))
    (hsrc : ∀ (c : command) (r wr : Int), Q c →
      P { c with pipe_type := k.PIPE_IN, background := 1, pipe_fds := (r, wr), stdout_fd := wr })
    (hcut : ∀ c : command, Q c → P { c with pipe_type := k.PIPE_IN, background := 1 })
    (hsink : ∀ r wr : Int,
      Q { command_alloc k with pipe_type := k.PIPE_OUT, pipe_fds := (r, wr), stdin_fd := r })
    (hlast : P { command_alloc k with pipe_type := k.PIPE_OUT })
    (hnew : Q (command_alloc k))
    (hQP : ∀ c : command, Q c → P c)
    (s : List (Int × String)) :
    ∀ (st : LineState) (w : World), (∀ c ∈ st.before, P c) → Q st.current → st.after = [] →
      ∀ c ∈ (eval_loop k s st w).1.list, P c := by
  induction s with
  | nil =>
    intro st w hb hc ha c hmem
    simp only [eval_loop, LineState.list, ha, List.mem_append, List.mem_singleton] at hmem
    rcases hmem with hm | hm
    · exact hb c hm
    · rw [hm]; exact hQP _ hc
  | cons t s ih =>
    intro st w hb hc ha
    obtain ⟨type, token⟩ := t
    by_cases hp : type = k.TOKEN_PIPE
    · subst hp
      rw [eval_loop, eval_token_pipe hk]
      rcases w.pipe with ⟨o, w1⟩
      rcases o with _ | ⟨r, wr⟩
      · intro c hmem
        simp only [LineState.list, List.mem_append, List.mem_cons, List.mem_singleton,
          List.not_mem_nil, or_false] at hmem
        rcases hmem with hm | hm | hm
        · exact hb c hm
        · rw [hm]; exact hcut _ hc
        · rw [hm]; exact hlast
      · simp only []
        refine ih _ _ ?_ (hsink r wr) rfl
        intro c hmem
        rcases List.mem_append.1 hmem with hm | hm
        · exact hb c hm
        · rw [List.mem_singleton.1 hm]; exact hsrc _ r wr hc
    · rw [eval_loop, eval_token_touch type token st w hp]
      simp only []
      by_cases he : ends_command k type = true
      · rw [if_pos he]
        refine ih _ _ ?_ hnew rfl
        intro c hmem
        rcases List.mem_append.1 hmem with hm | hm
        · exact hb c hm
        · rw [List.mem_singleton.1 hm]; exact hend _ type token hc he hp
      · rw [if_neg he]
        obtain ⟨-, h2, h3, h4, -⟩ := ends_command_false he
        refine ih _ _ hb ?_ ha
        by_cases hn : type = k.TOKEN_NORMAL
        · subst hn
          show Q (touch k k.TOKEN_NORMAL token st.current)
          rw [touch_normal hk]
          exact hword _ _ hc
        · show Q (touch k type token st.current)
          rw [touch_other k type token _ hn h2 h3 h4]
          exact hc

/-- An instance of `eval_loop_nodes`: every node's `conditional` is 0,
TOKEN_AND or TOKEN_OR. -/
theorem build_conditional {k : Sh61h} (hk : k.distinct) (s : List (Int × String)) (w : World) :
    ∀ c ∈ build k s w,
      c.conditional = 0 ∨ c.conditional = k.TOKEN_AND ∨ c.conditional = k.TOKEN_OR := by
  refine eval_loop_nodes hk
    (fun c => c.conditional = 0 ∨ c.conditional = k.TOKEN_AND ∨ c.conditional = k.TOKEN_OR)
    (fun c => c.conditional = 0 ∨ c.conditional = k.TOKEN_AND ∨ c.conditional = k.TOKEN_OR)
    ?_ ?_ ?_ ?_ ?_ ?_ ?_ ?_ s (line_init k) w ?_ ?_ rfl
  · intro c token h; exact h
  · intro c type token h _ _
    show (touch k type token c).conditional = 0 ∨ _ ∨ _
    rw [touch_conditional]
    split_ifs with h1
    · rcases h1 with h1 | h1
      · exact Or.inr (Or.inl h1)
      · exact Or.inr (Or.inr h1)
    · exact h
  · intro c r wr h; exact h
  · intro c h; exact h
  · intro r wr; exact Or.inl rfl
  · exact Or.inl rfl
  · exact Or.inl rfl
  · intro c h; exact h
  · intro c hmem; simp [line_init] at hmem
  · exact Or.inl rfl

/-! ## What `run_list` prints -/

theorem printed_append (xs ys : List Event) : printed (xs ++ ys) = printed xs ++ printed ys := by
  induction xs with
  | nil => simp [printed]
  | cons e es ih => cases e <;> simp [printed, ih]

theorem waitpid_printed (w : World) (pid status : Int) :
    printed (w.waitpid pid status).2.2.trace = printed w.trace := by
  rw [waitpid_trace, printed_append]
  simp [printed]

/-- The function `start_command` prints nothing through `printf`. -/
theorem start_command_printed (c : command) (pgid : Int) (w : World) :
    printed (start_command c pgid w).world.trace = printed w.trace := by
  unfold start_command
  split
  · rfl
  · rfl
  · split_ifs with h1 h2
    · simp only [World.chdir]
      cases w.chdirs with
      | nil => simp [World.log, Outcome.world, printed_append, printed]
      | cons r rs =>
        by_cases hr : r = -1
        · simp [hr, World.log, Outcome.world, printed_append, printed]
        · simp [hr, Outcome.world, printed_append, printed]
    · rfl
    · simp only [World.fork]
      cases w.forks with
      | nil => simp [World.log, Outcome.world, printed_append, printed]
      | cons f fs =>
        by_cases hpos : f.ret > 0
        · have h0 : f.ret ≠ 0 := by omega
          simp [hpos, h0, Outcome.world, printed_append, printed]
        · by_cases h0 : f.ret = 0
          · simp [h0, Outcome.world, printed_append, printed]
          · simp [hpos, h0, World.log, Outcome.world, printed_append, printed]

/-- On a list whose nodes all have `conditional` among 0, TOKEN_AND and
TOKEN_OR, `run_list` never prints. -/
theorem run_list_quiet (k : Sh61h) (n : Nat) :
    ∀ (l : List command) (status : Int) (w : World),
      (∀ c ∈ l, c.conditional = 0 ∨ c.conditional = k.TOKEN_AND
        ∨ c.conditional = k.TOKEN_OR) →
      printed (run_list k n l status w).world.trace = printed w.trace := by
  induction n with
  | zero => intro l status w _; rfl
  | succ n ih =>
    intro l status w hl
    cases l with
    | nil => rfl
    | cons current next =>
      have hcur := hl current (List.mem_cons_self _ _)
      have hnext : ∀ c ∈ next, c.conditional = 0 ∨ c.conditional = k.TOKEN_AND
          ∨ c.conditional = k.TOKEN_OR := fun c hc => hl c (List.mem_cons_of_mem _ hc)
      by_cases hargc : current.argc = 0
      · rw [run_list, if_pos hargc]; rfl
      · have hp := start_command_printed current 42 w
        rw [run_list, if_neg hargc]
        cases hs : start_command current 42 w with
        | ret a w1 =>
          obtain ⟨cur, child⟩ := a
          have hsame : cur = current := start_command_same hs
          subst hsame
          rw [hs] at hp
          simp only [Outcome.world] at hp
          obtain ⟨status1, w2, hmatch, hw2⟩ :
              ∃ status1 w2,
                (if cur.background = 0 then
                    ((w1.waitpid child status).2.1, (w1.waitpid child status).2.2)
                  else (status, w1)) = (status1, w2)
                ∧ printed w2.trace = printed w.trace := by
            by_cases hb : cur.background = 0
            · exact ⟨_, _, by rw [if_pos hb], by rw [waitpid_printed, hp]⟩
            · exact ⟨_, _, by rw [if_neg hb], hp⟩
          simp only [hmatch]
          have hrec : printed (run_list k n next status1 w2).world.trace = printed w.trace := by
            rw [ih next status1 w2 hnext, hw2]
          split_ifs with h1 h2 h3 h4 h5 h6
          · exact hw2
          · exact hrec
          · exact hw2
          · exact hrec
          · exact hw2
          · exact hrec
          · exfalso
            rcases hcur with h | h | h
            · exact h6 h
            · exact h3 h
            · exact h5 h
        | exited st w1 => rw [hs] at hp; exact hp
        | inChild w1 => rw [hs] at hp; exact hp
        | fault w1 => rw [hs] at hp; exact hp
        | fuel w1 => rw [hs] at hp; exact hp

/-- C23: in the list that `eval_line` builds from any token stream, every
node's `conditional` field is 0, TOKEN_AND or TOKEN_OR; and `run_list` on that
list, from any state and for any number of iterations, never prints its
diagnostic "Uncaught conditions": it hands nothing to `printf`. -/
theorem conditional_codes_never_uncaught (k : Sh61h) (hk : k.distinct) (s : List (Int × String))
    (w : World) :
    (∀ c ∈ build k s w,
        c.conditional = 0 ∨ c.conditional = k.TOKEN_AND ∨ c.conditional = k.TOKEN_OR)
    ∧ ∀ (fuel : Nat) (status : Int) (w1 : World),
        printed (run_list k fuel (build k s w) status w1).world.trace = printed w1.trace :=
  ⟨build_conditional hk s w,
    fun fuel status w1 => run_list_quiet k fuel _ status w1 (build_conditional hk s w)⟩

/-- C23 (witness): the line `a && b || c ; d`. -/
theorem conditional_codes_never_uncaught_witness :
    (∀ c ∈ build sh61h
          [(sh61h.TOKEN_NORMAL, "a"), (sh61h.TOKEN_AND, "&&"), (sh61h.TOKEN_NORMAL, "b"),
            (sh61h.TOKEN_OR, "||"), (sh61h.TOKEN_NORMAL, "c"), (sh61h.TOKEN_SEQUENCE, ";"),
            (sh61h.TOKEN_NORMAL, "d")] (World.fresh [] [] []),
        c.conditional = 0 ∨ c.conditional = sh61h.TOKEN_AND ∨ c.conditional = sh61h.TOKEN_OR)
    ∧ ∀ (fuel : Nat) (status : Int) (w1 : World),
        printed (run_list sh61h fuel (build sh61h
          [(sh61h.TOKEN_NORMAL, "a"), (sh61h.TOKEN_AND, "&&"), (sh61h.TOKEN_NORMAL, "b"),
            (sh61h.TOKEN_OR, "||"), (sh61h.TOKEN_NORMAL, "c"), (sh61h.TOKEN_SEQUENCE, ";"),
            (sh61h.TOKEN_NORMAL, "d")] (World.fresh [] [] [])) status w1).world.trace
          = printed w1.trace :=
  conditional_codes_never_uncaught sh61h (by decide) _ _

/-! ## The nodes that `run_list` starts -/

theorem append_arg_argv0_valid (c : command) (token : String) (h : c.argv0_valid) :
    (command_append_arg c token).argv0_valid := by
  intro _
  by_cases h0 : c.argc = 0
  · exact ⟨token, [none], by simp [command_append_arg, h0]⟩
  · obtain ⟨a, rest, ha⟩ := h h0
    obtain ⟨m, hm⟩ : ∃ m, c.argc = m + 1 := ⟨c.argc - 1, by omega⟩
    exact ⟨a, rest.take m ++ [some token, none], by simp [command_append_arg, ha, hm]⟩

theorem touch_argv0_valid (k : Sh61h) (type : Int) (token : String) (c : command)
    (h : c.argv0_valid) : (touch k type token c).argv0_valid := by
  unfold touch
  split_ifs <;> first | exact append_arg_argv0_valid c token h | exact h

/-- An instance of `eval_loop_nodes`: in every node, `argv[0]` is a string
whenever `argc` is not 0. -/
theorem build_argv0_valid {k : Sh61h} (hk : k.distinct) (s : List (Int × String)) (w : World) :
    ∀ c ∈ build k s w, c.argv0_valid := by
  have h0 : (command_alloc k).argv0_valid := fun h => absurd rfl h
  refine eval_loop_nodes hk (fun c => c.argv0_valid) (fun c => c.argv0_valid)
    ?_ ?_ ?_ ?_ ?_ ?_ ?_ ?_ s (line_init k) w ?_ ?_ rfl
  · intro c token h; exact append_arg_argv0_valid c token h
  · intro c type token h _ _; exact touch_argv0_valid k type token c h
  · intro c r wr h; exact h
  · intro c h; exact h
  · intro r wr; exact fun h => absurd rfl h
  · exact fun h => absurd rfl h
  · exact h0
  · intro c h; exact h
  · intro c hmem; simp [line_init] at hmem
  · exact h0

/-- With a string at `argv[0]`, `start_command` reads no NULL pointer. -/
theorem start_command_no_fault {c : command} {a : String} {rest : List (Option String)}
    (h : c.argv = some a :: rest) (pgid : Int) (w : World) :
    (∀ w1, start_command c pgid w ≠ .fault w1) ∧ (∀ w1, start_command c pgid w ≠ .fuel w1) := by
  have hr : (start_command c pgid w).returned = true ∨ (∃ st w1, start_command c pgid w = .exited st w1)
      ∨ ∃ w1, start_command c pgid w = .inChild w1 := by
    simp only [start_command, h]
    split_ifs <;> simp [Outcome.returned]
  constructor <;> intro w1 heq <;> rw [heq] at hr <;> simp [Outcome.returned] at hr

/-- The record of started nodes is a ghost: the outcome is that of `run_list`. -/
theorem run_list_started_outcome (k : Sh61h) (n : Nat) :
    ∀ (l : List command) (status : Int) (w : World),
      (run_list_started k n l status w).2 = run_list k n l status w := by
  induction n with
  | zero => intro l status w; rfl
  | succ n ih =>
    intro l status w
    cases l with
    | nil => rfl
    | cons current next =>
      rw [run_list_started, run_list]
      by_cases hargc : current.argc = 0
      · rw [if_pos hargc, if_pos hargc]
      · rw [if_neg hargc, if_neg hargc]
        cases start_command current 42 w with
        | ret a w1 =>
          obtain ⟨cur, child⟩ := a
          obtain ⟨status1, w2, hmatch⟩ :
              ∃ status1 w2,
                (if cur.background = 0 then
                    ((w1.waitpid child status).2.1, (w1.waitpid child status).2.2)
                  else (status, w1)) = (status1, w2) := ⟨_, _, rfl⟩
          simp only [hmatch]
          split_ifs
          · rfl
          · exact ih _ _ _
          · rfl
          · exact ih _ _ _
          · rfl
          · exact ih _ _ _
          · exact ih _ _ _
        | exited st w1 => rfl
        | inChild w1 => rfl
        | fault w1 => rfl
        | fuel w1 => rfl

/-- On a non-empty list whose nodes have `conditional` among 0, TOKEN_AND and
TOKEN_OR and a string at `argv[0]` when `argc` is not 0, `run_list` with one
unit of fuel per node starts the nodes of a prefix, each once and in order,
none of them empty, and ends without running out of fuel and without reading a
NULL pointer. -/
theorem run_list_started_prefix (k : Sh61h) (l : List command) :
    ∀ (n : Nat) (status : Int) (w : World), l ≠ [] → l.length ≤ n →
      (∀ c ∈ l, (c.conditional = 0 ∨ c.conditional = k.TOKEN_AND
        ∨ c.conditional = k.TOKEN_OR) ∧ c.argv0_valid) →
      (∃ m, (run_list_started k n l status w).1 = l.take m ∧ ∀ c ∈ l.take m, c.argc ≠ 0)
      ∧ (∀ w1, (run_list_started k n l status w).2 ≠ .fuel w1)
      ∧ (∀ w1, (run_list_started k n l status w).2 ≠ .fault w1) := by
  induction l with
  | nil => intro n status w h; exact absurd rfl h
  | cons current next ih =>
    intro n status w _ hlen hl
    obtain ⟨n, rfl⟩ : ∃ n', n = n' + 1 := ⟨n - 1, by simp at hlen; omega⟩
    have hlen1 : next.length ≤ n := by simpa using hlen
    obtain ⟨hcond, hvalid⟩ := hl current (List.mem_cons_self _ _)
    have hnext : ∀ c ∈ next, (c.conditional = 0 ∨ c.conditional = k.TOKEN_AND
        ∨ c.conditional = k.TOKEN_OR) ∧ c.argv0_valid :=
      fun c hc => hl c (List.mem_cons_of_mem _ hc)
    rw [run_list_started]
    by_cases hargc : current.argc = 0
    · rw [if_pos hargc]
      exact ⟨⟨0, rfl, by simp⟩, by simp, by simp⟩
    · rw [if_neg hargc]
      obtain ⟨a, rest, hargv⟩ := hvalid hargc
      obtain ⟨hnf, hnfu⟩ := start_command_no_fault hargv 42 w
      have hone : (∃ m, [current] = (current :: next).take m
          ∧ ∀ c ∈ (current :: next).take m, c.argc ≠ 0) :=
        ⟨1, by simp, by simpa using hargc⟩
      cases hs : start_command current 42 w with
      | ret r w1 =>
        obtain ⟨cur, child⟩ := r
        have hsame : cur = current := start_command_same hs
        subst hsame
        obtain ⟨status1, w2, hmatch⟩ :
            ∃ status1 w2,
              (if cur.background = 0 then
                  ((w1.waitpid child status).2.1, (w1.waitpid child status).2.2)
                else (status, w1)) = (status1, w2) := ⟨_, _, rfl⟩
        simp only [hmatch]
        have hrec : next ≠ [] →
            (∃ m, cur :: (run_list_started k n next status1 w2).1 = (cur :: next).take m
              ∧ ∀ c ∈ (cur :: next).take m, c.argc ≠ 0)
            ∧ (∀ w3, (run_list_started k n next status1 w2).2 ≠ .fuel w3)
            ∧ (∀ w3, (run_list_started k n next status1 w2).2 ≠ .fault w3) := by
          intro hne
          obtain ⟨⟨m, hm1, hm2⟩, h2, h3⟩ := ih n status1 w2 hne hlen1 hnext
          refine ⟨⟨m + 1, by simp [hm1], ?_⟩, h2, h3⟩
          intro c hc
          simp only [List.take_succ_cons, List.mem_cons] at hc
          rcases hc with hc | hc
          · rw [hc]; exact hargc
          · exact hm2 c hc
        split_ifs with h1 h2 h3 h4 h5 h6
        · exact ⟨hone, by simp, by simp⟩
        · exact hrec h1
        · exact ⟨hone, by simp, by simp⟩
        · exact hrec h1
        · exact ⟨hone, by simp, by simp⟩
        · exact hrec h1
        · exfalso
          rcases hcond with h | h | h
          · exact h6 h
          · exact h3 h
          · exact h5 h
      | exited st w1 => exact ⟨hone, by simp, by simp⟩
      | inChild w1 => exact ⟨hone, by simp, by simp⟩
      | fault w1 => exact absurd hs (hnf w1)
      | fuel w1 => exact absurd hs (hnfu w1)

/-- C24: `run_list` on the list that `eval_line` builds from any token stream,
given one loop iteration per node: it ends (it neither is still running after
those iterations nor reads a NULL pointer), the nodes it hands to
`start_command` are the first `m` nodes of the list, each once and in order,
and each of them has `argc != 0` and a string at `argv[0]`. -/
theorem run_list_starts_prefix_once (k : Sh61h) (hk : k.distinct) (s : List (Int × String))
    (w : World) (fuel : Nat) (status : Int) (w1 : World)
    (hfuel : (build k s w).length ≤ fuel) :
    (∃ m, (run_list_started k fuel (build k s w) status w1).1 = (build k s w).take m
      ∧ ∀ c ∈ (build k s w).take m,
          c.argc ≠ 0 ∧ ∃ (a : String) (rest : List (Option String)), c.argv = some a :: rest)
    ∧ (run_list_started k fuel (build k s w) status w1).2
        = run_list k fuel (build k s w) status w1
    ∧ (∀ w2, run_list k fuel (build k s w) status w1 ≠ .fuel w2)
    ∧ (∀ w2, run_list k fuel (build k s w) status w1 ≠ .fault w2) := by
  have hne : build k s w ≠ [] := by simp [build, LineState.list]
  have hnodes : ∀ c ∈ build k s w, (c.conditional = 0 ∨ c.conditional = k.TOKEN_AND
      ∨ c.conditional = k.TOKEN_OR) ∧ c.argv0_valid :=
    fun c hc => ⟨build_conditional hk s w c hc, build_argv0_valid hk s w c hc⟩
  obtain ⟨⟨m, hm1, hm2⟩, h2, h3⟩ :=
    run_list_started_prefix k (build k s w) fuel status w1 hne hfuel hnodes
  have hout := run_list_started_outcome k fuel (build k s w) status w1
  refine ⟨⟨m, hm1, ?_⟩, hout, ?_, ?_⟩
  · intro c hc
    exact ⟨hm2 c hc, (hnodes c (List.mem_of_mem_take hc)).2 (hm2 c hc)⟩
  · rw [← hout]; exact h2
  · rw [← hout]; exact h3

/-- C24 (witness): the line `a ; ; b` builds three nodes, the second of them
empty; three iterations are enough. -/
theorem run_list_starts_prefix_once_witness :
    (build sh61h [(sh61h.TOKEN_NORMAL, "a"), (sh61h.TOKEN_SEQUENCE, ";"),
        (sh61h.TOKEN_SEQUENCE, ";"), (sh61h.TOKEN_NORMAL, "b")] (World.fresh [] [] [])).length ≤ 3
    ∧ (∃ m, (run_list_started sh61h 3 (build sh61h [(sh61h.TOKEN_NORMAL, "a"),
            (sh61h.TOKEN_SEQUENCE, ";"), (sh61h.TOKEN_SEQUENCE, ";"), (sh61h.TOKEN_NORMAL, "b")]
            (World.fresh [] [] [])) 0 (World.fresh [⟨7, 0, 0⟩] [] [])).1
          = (build sh61h [(sh61h.TOKEN_NORMAL, "a"), (sh61h.TOKEN_SEQUENCE, ";"),
              (sh61h.TOKEN_SEQUENCE, ";"), (sh61h.TOKEN_NORMAL, "b")]
              (World.fresh [] [] [])).take m
        ∧ ∀ c ∈ (build sh61h [(sh61h.TOKEN_NORMAL, "a"), (sh61h.TOKEN_SEQUENCE, ";"),
              (sh61h.TOKEN_SEQUENCE, ";"), (sh61h.TOKEN_NORMAL, "b")]
              (World.fresh [] [] [])).take m,
            c.argc ≠ 0 ∧ ∃ (a : String) (rest : List (Option String)), c.argv = some a :: rest)
      ∧ (run_list_started sh61h 3 (build sh61h [(sh61h.TOKEN_NORMAL, "a"),
            (sh61h.TOKEN_SEQUENCE, ";"), (sh61h.TOKEN_SEQUENCE, ";"), (sh61h.TOKEN_NORMAL, "b")]
            (World.fresh [] [] [])) 0 (World.fresh [⟨7, 0, 0⟩] [] [])).2
          = run_list sh61h 3 (build sh61h [(sh61h.TOKEN_NORMAL, "a"),
              (sh61h.TOKEN_SEQUENCE, ";"), (sh61h.TOKEN_SEQUENCE, ";"), (sh61h.TOKEN_NORMAL, "b")]
              (World.fresh [] [] [])) 0 (World.fresh [⟨7, 0, 0⟩] [] [])
      ∧ (∀ w2, run_list sh61h 3 (build sh61h [(sh61h.TOKEN_NORMAL, "a"),
              (sh61h.TOKEN_SEQUENCE, ";"), (sh61h.TOKEN_SEQUENCE, ";"), (sh61h.TOKEN_NORMAL, "b")]
              (World.fresh [] [] [])) 0 (World.fresh [⟨7, 0, 0⟩] [] []) ≠ .fuel w2)
      ∧ (∀ w2, run_list sh61h 3 (build sh61h [(sh61h.TOKEN_NORMAL, "a"),
              (sh61h.TOKEN_SEQUENCE, ";"), (sh61h.TOKEN_SEQUENCE, ";"), (sh61h.TOKEN_NORMAL, "b")]
              (World.fresh [] [] [])) 0 (World.fresh [⟨7, 0, 0⟩] [] []) ≠ .fault w2) :=
  ⟨by decide,
    run_list_starts_prefix_once sh61h (by decide) _ _ 3 0 (World.fresh [⟨7, 0, 0⟩] [] [])
      (by decide)⟩

/-! ## The wait before a conditional is evaluated -/

/-- An instance of `eval_loop_nodes`: a node whose `conditional` is TOKEN_AND
or TOKEN_OR has `background == 0` and is not marked as the source of a pipe. -/
theorem build_conditional_foreground {k : Sh61h} (hk : k.distinct) (s : List (Int × String))
    (w : World) :
    ∀ c ∈ build k s w, c.conditional = k.TOKEN_AND ∨ c.conditional = k.TOKEN_OR →
      c.background = 0 ∧ c.pipe_type ≠ k.PIPE_IN := by
  obtain ⟨-, -, ⟨-, hba, hbo⟩, -, -, hand0, hor0, hni, -, hio⟩ := distinct_facts hk
  have hzero : ∀ c : command, c.conditional = 0 →
      c.conditional = k.TOKEN_AND ∨ c.conditional = k.TOKEN_OR →
      c.background = 0 ∧ c.pipe_type ≠ k.PIPE_IN := by
    intro c h0 h
    rcases h with h | h
    · exact absurd (h.symm.trans h0) hand0
    · exact absurd (h.symm.trans h0) hor0
  refine eval_loop_nodes hk
    (fun c => c.conditional = k.TOKEN_AND ∨ c.conditional = k.TOKEN_OR →
      c.background = 0 ∧ c.pipe_type ≠ k.PIPE_IN)
    (fun c => c.background = 0 ∧ c.pipe_type ≠ k.PIPE_IN ∧ c.conditional = 0)
    ?_ ?_ ?_ ?_ ?_ ?_ ?_ ?_ s (line_init k) w ?_ ?_ rfl
  · intro c token h; exact h
  · intro c type token h _ _ hcond
    obtain ⟨hb, hpt, hc0⟩ := h
    rw [touch_conditional] at hcond
    rw [touch_background, touch_pipe_type]
    by_cases ht : type = k.TOKEN_AND ∨ type = k.TOKEN_OR
    · have hnb : type ≠ k.TOKEN_BACKGROUND := by
        rcases ht with ht | ht <;> rw [ht]
        · exact hba.symm
        · exact hbo.symm
      rw [if_neg hnb]
      exact ⟨hb, hpt⟩
    · rw [if_neg ht, hc0] at hcond
      rcases hcond with h | h
      · exact absurd h.symm hand0
      · exact absurd h.symm hor0
  · intro c r wr h; exact hzero _ h.2.2
  · intro c h; exact hzero _ h.2.2
  · intro r wr; exact ⟨rfl, hio.symm, rfl⟩
  · exact hzero _ rfl
  · exact ⟨rfl, hni, rfl⟩
  · intro c h _; exact ⟨h.1, h.2.1⟩
  · intro c hmem; simp [line_init] at hmem
  · exact ⟨rfl, hni, rfl⟩

/-- One iteration of `run_list` on a node with `background == 0` and a
successor, whose `conditional` is TOKEN_AND or TOKEN_OR: the wait is made and
the status tested is the one the wait leaves. -/
theorem run_list_conditional_step (k : Sh61h) (hk : k.distinct) (n : Nat) (c : command)
    (next : List command) (status : Int) (w0 : World) (child : Int) (w1 : World)
    (hargc : c.argc ≠ 0) (hnext : next ≠ []) (hb : c.background = 0)
    (hcond : c.conditional = k.TOKEN_AND ∨ c.conditional = k.TOKEN_OR)
    (hs : start_command c 42 w0 = .ret (c, child) w1) :
    run_list k (n + 1) (c :: next) status w0
      = if (c.conditional = k.TOKEN_AND ∧ WIFEXITED (w1.waitpid child status).2.1 = true
              ∧ WEXITSTATUS (w1.waitpid child status).2.1 = 0)
            ∨ (c.conditional = k.TOKEN_OR ∧ WIFEXITED (w1.waitpid child status).2.1 = true
              ∧ WEXITSTATUS (w1.waitpid child status).2.1 ≠ 0) then
          run_list k n next (w1.waitpid child status).2.1 (w1.waitpid child status).2.2
        else .ret () (w1.waitpid child status).2.2 := by
  obtain ⟨-, -, -, -, hao, -⟩ := distinct_facts hk
  rw [run_list, if_neg hargc, hs]
  simp only [hb, if_true, hnext, if_false]
  rcases hcond with h | h
  · simp only [h, true_and, eq_false hao, false_and, or_false]
    split_ifs <;> rfl
  · simp only [h, true_and, eq_false hao.symm, false_and, false_or, if_false]
    split_ifs <;> rfl

/-- C25 (the code at the failing input): on the line `cd / && b`, with chdir
succeeding, while an earlier child of the shell (pid 7) is unreaped and ends
with exit status 1.  The node of `cd /` has conditional TOKEN_AND, `background
== 0` and is no pipe source, as the invariant says.  But `start_command` runs
no process for it and returns 0, so the wait of that iteration is
`waitpid(0, ...)`: it reaps child 7 and stores its status 256, the AND test
fails on it, and b is not launched although the cd succeeded. -/
theorem conditional_tested_on_unrelated_child :
    (build sh61h
        [(sh61h.TOKEN_NORMAL, "cd"), (sh61h.TOKEN_NORMAL, "/"), (sh61h.TOKEN_AND, "&&"),
          (sh61h.TOKEN_NORMAL, "b")]
        (World.fresh [] [] [])).map
          (fun c => (c.words, c.conditional, c.background, c.pipe_type))
      = [(["cd", "/"], sh61h.TOKEN_AND, 0, sh61h.PIPE_NONE), (["b"], 0, 0, sh61h.PIPE_NONE)]
    ∧ (eval_line sh61h 8
        [(sh61h.TOKEN_NORMAL, "cd"), (sh61h.TOKEN_NORMAL, "/"), (sh61h.TOKEN_AND, "&&"),
          (sh61h.TOKEN_NORMAL, "b")]
        0 { World.fresh [⟨11, 0, 0⟩] [0] [] with children := [⟨7, 256⟩] }).returned = true
    ∧ ((eval_line sh61h 8
        [(sh61h.TOKEN_NORMAL, "cd"), (sh61h.TOKEN_NORMAL, "/"), (sh61h.TOKEN_AND, "&&"),
          (sh61h.TOKEN_NORMAL, "b")]
        0 { World.fresh [⟨11, 0, 0⟩] [0] [] with
            children := [⟨7, 256⟩] }).world.trace.drop 4).take 2
      = [.chdir (some "/") 0, .wait 0 7 256]
    ∧ launched (eval_line sh61h 8
        [(sh61h.TOKEN_NORMAL, "cd"), (sh61h.TOKEN_NORMAL, "/"), (sh61h.TOKEN_AND, "&&"),
          (sh61h.TOKEN_NORMAL, "b")]
        0 { World.fresh [⟨11, 0, 0⟩] [0] [] with children := [⟨7, 256⟩] }).world.trace
      = [] := by
  decide

end Sh61

namespace Io61

/-! ## io61: reading through the cache -/

/-- Taking as many elements as a prefix has gives that prefix. -/
theorem take_take_length (L : List Nat) (k : Nat) : L.take (L.take k).length = L.take k := by
  rw [List.length_take]
  rcases Nat.le_total k L.length with h | h
  · rw [Nat.min_eq_left h]
  · rw [Nat.min_eq_right h, List.take_of_length_le h, List.take_of_length_le (le_refl _)]

/-- A slice of a cache that holds the bytes of the file from `tg` on holds the
bytes of the file at the matching offsets. -/
theorem cache_slice {buff data : List Nat} {N tg : Nat}
    (h : buff.take N = (data.drop tg).take N) (i t : Nat) (hit : i + t ≤ N) :
    (buff.drop i).take t = (data.drop (tg + i)).take t := by
  have h1 := congrArg (fun l => (l.drop i).take t) h
  simp only [List.drop_take, List.take_take, List.drop_drop] at h1
  have hm : min t (N - i) = t := by omega
  rw [hm] at h1
  rw [h1]

/-- A size below `2 ^ 63` is unchanged by the conversion to `ssize_t`. -/
theorem to_ssize_small (x : Nat) (h : x < 2 ^ 63) : to_ssize x = (x : Int) := by
  unfold to_ssize
  have h1 : x % 2 ^ 64 = x := Nat.mod_eq_of_lt (by omega)
  rw [h1, if_pos h]

/-- A read that does not fail and transfers at least one byte unless the file
has ended: it returns the number of bytes stored, which are the next bytes of
the file, at most 4096 of them and none only at the end of the file, and it
moves the offset by that number. -/
theorem sys_read_spec (d : Fd) (hr : ∀ r ∈ d.reads, ∃ m, r = some m ∧ 0 < m) :
    ∃ n : Nat, (sys_read d BUF_SIZE.toNat).1 = (n : Int)
      ∧ (sys_read d BUF_SIZE.toNat).2.1 = (d.data.drop d.offset).take n
      ∧ ((sys_read d BUF_SIZE.toNat).2.1).length = n
      ∧ n ≤ 4096
      ∧ (n = 0 ↔ d.data.length ≤ d.offset)
      ∧ (sys_read d BUF_SIZE.toNat).2.2.offset = d.offset + n
      ∧ (sys_read d BUF_SIZE.toNat).2.2.data = d.data
      ∧ (∀ r ∈ (sys_read d BUF_SIZE.toNat).2.2.reads, ∃ m, r = some m ∧ 0 < m) := by
  have hB : BUF_SIZE.toNat = 4096 := rfl
  rw [hB]
  cases hrs : d.reads with
  | nil =>
    refine ⟨((d.data.drop d.offset).take 4096).length, ?_, ?_, ?_, ?_, ?_, ?_, ?_, ?_⟩
    · simp [sys_read, hrs]
    · simp only [sys_read, hrs]; exact (take_take_length _ _).symm
    · simp [sys_read, hrs]
    · simp only [List.length_take]; omega
    · simp only [List.length_take, List.length_drop]; omega
    · simp [sys_read, hrs]
    · simp [sys_read, hrs]
    · simp [sys_read, hrs]
  | cons r rs =>
    obtain ⟨m, rfl, hm⟩ := hr r (by rw [hrs]; exact List.mem_cons_self _ _)
    refine ⟨((d.data.drop d.offset).take (min m 4096)).length, ?_, ?_, ?_, ?_, ?_, ?_, ?_, ?_⟩
    · simp [sys_read, hrs]
    · simp only [sys_read, hrs]; exact (take_take_length _ _).symm
    · simp [sys_read, hrs]
    · simp only [List.length_take]; omega
    · simp only [List.length_take, List.length_drop]; omega
    · simp [sys_read, hrs]
    · simp [sys_read, hrs]
    · intro r hr1
      simp only [sys_read, hrs] at hr1
      exact hr r (by rw [hrs]; exact List.mem_cons_of_mem _ hr1)

/-- The bytes of a consistent cache from `pos_tag` on are the bytes of the file
from there on, they end inside the array, and the file reaches that far. -/
theorem cached_bytes (f : io61_file) (d : Fd) (hc : consistent f d) (p t : Nat)
    (hp : f.pos_tag = (p : Int)) (ht : (t : Int) ≤ f.end_tag - f.pos_tag) :
    (f.buff.drop (f.pos_tag - f.tag).toNat).take t = (d.data.drop p).take t
      ∧ (0 < t → p + t ≤ d.data.length) := by
  obtain ⟨hlen, htag0, htp, hpe, het, hcache, hoff⟩ := hc
  have hB : BUF_SIZE = 4096 := rfl
  have hBn : BUF_SIZE.toNat = 4096 := rfl
  rw [hB] at het
  rw [hBn] at hlen
  have hl := congrArg List.length hcache
  simp only [List.length_take, List.length_drop] at hl
  constructor
  · rw [cache_slice hcache (f.pos_tag - f.tag).toNat t (by omega)]
    congr 2
    omega
  · intro h0
    omega

/-- The bytes of `buf` after `chunk` has been copied to the index `br`. -/
theorem copy_into_buf (buf chunk : List Nat) (br t : Nat) (hb : br + t ≤ buf.length)
    (hch : chunk.length = t) :
    (buf.take br ++ chunk ++ buf.drop (br + t)).length = buf.length
      ∧ (buf.take br ++ chunk ++ buf.drop (br + t)).take (br + t) = buf.take br ++ chunk
      ∧ ∀ e : Nat, (buf.take br ++ chunk ++ buf.drop (br + t)).drop (br + t + e)
          = buf.drop (br + t + e) := by
  have hk : (buf.take br ++ chunk).length = br + t := by
    rw [List.length_append, List.length_take, hch]; omega
  refine ⟨?_, List.take_left' hk, ?_⟩
  · rw [List.length_append, hk, List.length_drop]; omega
  · intro e
    rw [← List.drop_drop, List.drop_left' hk, List.drop_drop]

/-- The cache after a read that stored `m` bytes at the start of `buff`. -/
theorem refill_consistent (f : io61_file) (d d1 : Fd) (bytes : List Nat) (m : Nat)
    (hc : consistent f d) (hpe : f.pos_tag = f.end_tag)
    (hm2 : bytes = (d.data.drop d.offset).take m) (hm3 : bytes.length = m) (hm4 : m ≤ 4096)
    (hm6 : d1.offset = d.offset + m) (hm7 : d1.data = d.data) :
    consistent { f with tag := f.end_tag, end_tag := f.end_tag + (m : Int),
                        buff := bytes ++ f.buff.drop bytes.length } d1 := by
  obtain ⟨hlen, htag0, htp, hpe1, het, hcache, hoff⟩ := hc
  have hB : BUF_SIZE = 4096 := rfl
  have hBn : BUF_SIZE.toNat = 4096 := rfl
  rw [hBn] at hlen
  refine ⟨?_, ?_, ?_, ?_, ?_, ?_, ?_⟩
  · show (bytes ++ f.buff.drop bytes.length).length = BUF_SIZE.toNat
    rw [hBn, List.length_append, List.length_drop, hm3]; omega
  · show 0 ≤ f.end_tag; omega
  · show f.end_tag ≤ f.pos_tag; omega
  · show f.pos_tag ≤ f.end_tag + (m : Int); omega
  · show f.end_tag + (m : Int) ≤ f.end_tag + BUF_SIZE; rw [hB]; omega
  · show (bytes ++ f.buff.drop bytes.length).take (f.end_tag + (m : Int) - f.end_tag).toNat
        = (d1.data.drop f.end_tag.toNat).take (f.end_tag + (m : Int) - f.end_tag).toNat
    have e1 : (f.end_tag + (m : Int) - f.end_tag).toNat = m := by omega
    have e2 : f.end_tag.toNat = d.offset := by omega
    rw [e1, e2, hm7, List.take_left' hm3, hm2]
  · show (d1.offset : Int) = f.end_tag + (m : Int)
    rw [hm6]; push_cast; omega

/-- The invariant of the loop of `io61_read`: with `br` bytes copied from the
offset `p0` on, a consistent cache and `pos_tag = p0 + br`, the loop ends with
the smaller of `sz` and the number of bytes of the file from `p0` on. -/
theorem io61_read_loop_spec (fuel : Nat) :
    ∀ (f : io61_file) (d : Fd) (buf : List Nat) (sz br p0 : Nat),
      consistent f d → (∀ r ∈ d.reads, ∃ m, r = some m ∧ 0 < m) →
      sz < 2 ^ 63 → sz ≤ buf.length → br ≤ sz →
      f.pos_tag = ((p0 + br : Nat) : Int) →
      buf.take br = (d.data.drop p0).take br →
      2 * (sz - br) + (if f.pos_tag < f.end_tag then 1 else 2) ≤ fuel →
      ∃ (buf1 : List Nat) (f1 : io61_file) (d1 : Fd),
        io61_read_loop fuel f d buf sz br
            = .ok (((min sz (d.data.length - p0) : Nat) : Int), buf1) f1 d1
          ∧ buf1.take (min sz (d.data.length - p0))
              = (d.data.drop p0).take (min sz (d.data.length - p0))
          ∧ buf1.drop (min sz (d.data.length - p0)) = buf.drop (min sz (d.data.length - p0))
          ∧ f1.pos_tag = ((p0 + min sz (d.data.length - p0) : Nat) : Int)
          ∧ consistent f1 d1 ∧ d1.data = d.data := by
  induction fuel with
  | zero =>
    intro f d buf sz br p0 _ _ _ _ _ _ _ hfuel
    split_ifs at hfuel <;> omega
  | succ n ih =>
    intro f d buf sz br p0 hc hr hsz hbuf hbr hpos hcop hfuel
    have htag0 : 0 ≤ f.tag := hc.2.1
    have htp : f.tag ≤ f.pos_tag := hc.2.2.1
    have hpe : f.pos_tag ≤ f.end_tag := hc.2.2.2.1
    have het : f.end_tag ≤ f.tag + 4096 := hc.2.2.2.2.1
    have hoff : (d.offset : Int) = f.end_tag := hc.2.2.2.2.2.2
    have hB : BUF_SIZE = 4096 := rfl
    have hbl : br ≤ d.data.length - p0 := by
      have hl := congrArg List.length hcop
      simp only [List.length_take, List.length_drop] at hl
      omega
    rw [io61_read_loop]
    by_cases h1 : br = sz
    · rw [if_pos h1]
      have hres : min sz (d.data.length - p0) = br := by omega
      rw [hres]
      exact ⟨buf, f, d, rfl, hcop, rfl, hpos, hc, rfl⟩
    · rw [if_neg h1]
      by_cases h2 : f.pos_tag < f.end_tag
      · rw [if_pos h2, to_ssize_small _ (by omega)]
        rw [if_pos h2] at hfuel
        obtain ⟨t, ht1, ht2, ht3, hto⟩ : ∃ t : Nat, 1 ≤ t ∧ br + t ≤ sz
            ∧ (t : Int) ≤ f.end_tag - f.pos_tag
            ∧ (if ((sz - br : Nat) : Int) > f.end_tag - f.pos_tag then f.end_tag - f.pos_tag
                else ((sz - br : Nat) : Int)) = (t : Int) := by
          by_cases hgt : ((sz - br : Nat) : Int) > f.end_tag - f.pos_tag
          · refine ⟨(f.end_tag - f.pos_tag).toNat, ?_, ?_, ?_, ?_⟩
            · omega
            · omega
            · omega
            · rw [if_pos hgt]; omega
          · refine ⟨sz - br, ?_, ?_, ?_, ?_⟩
            · omega
            · omega
            · omega
            · rw [if_neg hgt]
        rw [hto]
        simp only [Int.toNat_ofNat]
        have hnf : ¬ ((t : Int) < 0 ∨ f.pos_tag - f.tag < 0 ∨ f.pos_tag - f.tag + (t : Int) > BUF_SIZE
            ∨ br + t > buf.length) := by
          rw [hB]; omega
        rw [if_neg hnf]
        clear hnf hto
        obtain ⟨hchunk, hfile⟩ := cached_bytes f d hc (p0 + br) t hpos ht3
        have hfile1 : p0 + (br + t) ≤ d.data.length := by
          have := hfile (by omega)
          omega
        have hchl : ((f.buff.drop (f.pos_tag - f.tag).toNat).take t).length = t := by
          rw [hchunk, List.length_take, List.length_drop]; omega
        obtain ⟨hbuf1, hbtake, hbdrop⟩ := copy_into_buf buf
          ((f.buff.drop (f.pos_tag - f.tag).toNat).take t) br t (by omega) hchl
        have g1 : f.tag ≤ f.pos_tag + (t : Int) := by omega
        have g2 : f.pos_tag + (t : Int) ≤ f.end_tag := by omega
        have hcons : consistent { f with pos_tag := f.pos_tag + (t : Int) } d :=
          ⟨hc.1, htag0, g1, g2, hc.2.2.2.2.1, hc.2.2.2.2.2.1, hoff⟩
        have g3 : sz ≤ (buf.take br ++ (f.buff.drop (f.pos_tag - f.tag).toNat).take t
            ++ buf.drop (br + t)).length := by
          rw [hbuf1]; exact hbuf
        have g5 : f.pos_tag + (t : Int) = ((p0 + (br + t) : Nat) : Int) := by omega
        have g6 : (buf.take br ++ (f.buff.drop (f.pos_tag - f.tag).toNat).take t
              ++ buf.drop (br + t)).take (br + t) = (d.data.drop p0).take (br + t) := by
          rw [hbtake, hchunk, hcop, List.take_add, List.drop_drop]
        have g7 : 2 * (sz - (br + t)) + (if f.pos_tag + (t : Int) < f.end_tag then 1 else 2)
            ≤ n := by
          split_ifs <;> omega
        obtain ⟨buf1, f1, d1, hrun, htake, hdrop, hpos1, hcons1, hdata1⟩ :=
          ih { f with pos_tag := f.pos_tag + (t : Int) } d
            (buf.take br ++ (f.buff.drop (f.pos_tag - f.tag).toNat).take t ++ buf.drop (br + t))
            sz (br + t) p0 hcons hr hsz g3 ht2 g5 g6 g7
        refine ⟨buf1, f1, d1, hrun, htake, ?_, hpos1, hcons1, hdata1⟩
        rw [hdrop]
        obtain ⟨e, he⟩ : ∃ e, min sz (d.data.length - p0) = (br + t) + e :=
          ⟨min sz (d.data.length - p0) - (br + t), by omega⟩
        rw [he]
        exact hbdrop e
      · rw [if_neg h2]
        rw [if_neg h2] at hfuel
        have hpe1 : f.pos_tag = f.end_tag := by omega
        obtain ⟨m, hm1, hm2, hm3, hm4, hm5, hm6, hm7, hm8⟩ := sys_read_spec d hr
        rcases hsr : sys_read d BUF_SIZE.toNat with ⟨read_res, bytes, d1⟩
        rw [hsr] at hm1 hm2 hm3 hm6 hm7 hm8
        simp only at hm1 hm2 hm3 hm6 hm7 hm8 ⊢
        subst hm1
        by_cases h3 : (m : Int) > 0
        · rw [if_pos h3]
          have hcons := refill_consistent f d d1 bytes m hc hpe1 hm2 hm3 hm4 hm6 hm7
          have g6 : buf.take br = (d1.data.drop p0).take br := by rw [hm7]; exact hcop
          have g7 : 2 * (sz - br) + (if f.pos_tag < f.end_tag + (m : Int) then 1 else 2) ≤ n := by
            split_ifs <;> omega
          obtain ⟨buf1, f1, d2, hrun, htake, hdrop, hpos1, hcons1, hdata1⟩ :=
            ih { f with tag := f.end_tag, end_tag := f.end_tag + (m : Int),
                        buff := bytes ++ f.buff.drop bytes.length } d1 buf sz br p0
              hcons hm8 hsz hbuf hbr hpos g6 g7
          rw [hm7] at hrun htake hdrop hpos1 hdata1
          exact ⟨buf1, f1, d2, hrun, htake, hdrop, hpos1, hcons1, hdata1⟩
        · rw [if_neg h3]
          have hm0 : m = 0 := by omega
          have hlen0 : d.data.length ≤ d.offset := hm5.mp hm0
          have hres : min sz (d.data.length - p0) = br := by omega
          have hval : (if br ≠ 0 then ((br : Nat) : Int) else (m : Int)) = ((br : Nat) : Int) := by
            split_ifs <;> omega
          rw [hval, hres]
          have hcons := refill_consistent f d d1 bytes m hc hpe1 hm2 hm3 hm4 hm6 hm7
          subst hm0
          refine ⟨buf, _, d1, rfl, hcop, rfl, hpos, ?_, hm7⟩
          obtain ⟨c1, c2, c3, c4, c5, c6, c7⟩ := hcons
          refine ⟨c1, c2, c3, ?_, ?_, ?_, ?_⟩
          · show f.pos_tag ≤ f.end_tag; omega
          · show f.end_tag ≤ f.end_tag + BUF_SIZE; rw [hB]; omega
          · show (bytes ++ f.buff.drop bytes.length).take (f.end_tag - f.end_tag).toNat
                = (d1.data.drop f.end_tag.toNat).take (f.end_tag - f.end_tag).toNat
            have e1 : (f.end_tag - f.end_tag).toNat = 0 := by omega
            rw [e1]; rfl
          · show (d1.offset : Int) = f.end_tag
            rw [hm6]; push_cast; omega

/-- C19: `io61_read` on a file whose cache is consistent, with `sz` bytes of
room at `buf`.  When no underlying read fails (each transfers at least one
byte unless the file has ended, possibly fewer than asked), the call returns
the smaller of `sz` and the number of bytes of the file from `pos_tag` on, the
first bytes of `buf` are the bytes of the file from `pos_tag` on and the rest of
`buf` is untouched, `pos_tag` has advanced by the result and the cache is
consistent again.  When `pos_tag = end_tag`, `sz > 0` and the first underlying
read fails, the call returns -1 and `buf` is untouched. -/
theorem io61_read_contract (fuel : Nat) (f : io61_file) (d : Fd) (buf : List Nat) (sz : Nat)
    (hc : consistent f d) (hsz : sz < 2 ^ 63) (hbuf : sz ≤ buf.length) :
    ((∀ r ∈ d.reads, ∃ m, r = some m ∧ 0 < m) → 2 * sz + 2 ≤ fuel →
      ∃ (buf1 : List Nat) (f1 : io61_file) (d1 : Fd),
        io61_read fuel f d buf sz
            = .ok (((min sz (d.data.length - f.pos_tag.toNat) : Nat) : Int), buf1) f1 d1
          ∧ buf1.take (min sz (d.data.length - f.pos_tag.toNat))
              = (d.data.drop f.pos_tag.toNat).take (min sz (d.data.length - f.pos_tag.toNat))
          ∧ buf1.drop (min sz (d.data.length - f.pos_tag.toNat))
              = buf.drop (min sz (d.data.length - f.pos_tag.toNat))
          ∧ f1.pos_tag = f.pos_tag + ((min sz (d.data.length - f.pos_tag.toNat) : Nat) : Int)
          ∧ consistent f1 d1 ∧ d1.data = d.data)
    ∧ (∀ rs : List (Option Nat), d.reads = none :: rs → f.pos_tag = f.end_tag → 0 < sz →
        0 < fuel →
        ∃ (f1 : io61_file) (d1 : Fd),
          io61_read fuel f d buf sz = .ok (-1, buf) f1 d1 ∧ f1.pos_tag = f.pos_tag) := by
  constructor
  · intro hr hfuel
    have hp : f.pos_tag = ((f.pos_tag.toNat + 0 : Nat) : Int) := by
      have h1 := hc.2.1
      have h2 := hc.2.2.1
      omega
    obtain ⟨buf1, f1, d1, hrun, htake, hdrop, hpos1, hcons1, hdata1⟩ :=
      io61_read_loop_spec fuel f d buf sz 0 f.pos_tag.toNat hc hr hsz hbuf (Nat.zero_le _) hp rfl
        (by split_ifs <;> omega)
    refine ⟨buf1, f1, d1, hrun, htake, hdrop, ?_, hcons1, hdata1⟩
    rw [hpos1]
    have h1 := hc.2.1
    have h2 := hc.2.2.1
    omega
  · intro rs hrs hpe hsz0 hfuel
    obtain ⟨n, rfl⟩ : ∃ n, fuel = n + 1 := ⟨fuel - 1, by omega⟩
    have h1 : ¬ (0 = sz) := by omega
    have h2 : ¬ (f.pos_tag < f.end_tag) := by omega
    refine ⟨{ f with tag := f.end_tag, buff := [] ++ f.buff.drop ([] : List Nat).length },
      { d with reads := rs }, ?_, rfl⟩
    rw [io61_read, io61_read_loop, if_neg h1, if_neg h2]
    simp [sys_read, hrs]

/-- C19 (witness): four bytes asked at offset 1 of a file of five bytes, two of
them cached and the next read short; and the same file with nothing cached left
when the read fails. -/
theorem io61_read_contract_witness :
    (∃ (buf1 : List Nat) (f1 : io61_file) (d1 : Fd),
        io61_read 10 cached_file short_fd [0, 0, 0, 0, 0] 4
            = .ok (((min 4 (short_fd.data.length - cached_file.pos_tag.toNat) : Nat) : Int), buf1)
                f1 d1
          ∧ buf1.take (min 4 (short_fd.data.length - cached_file.pos_tag.toNat))
              = (short_fd.data.drop cached_file.pos_tag.toNat).take
                  (min 4 (short_fd.data.length - cached_file.pos_tag.toNat))
          ∧ buf1.drop (min 4 (short_fd.data.length - cached_file.pos_tag.toNat))
              = [0, 0, 0, 0, 0].drop (min 4 (short_fd.data.length - cached_file.pos_tag.toNat))
          ∧ f1.pos_tag = cached_file.pos_tag
              + ((min 4 (short_fd.data.length - cached_file.pos_tag.toNat) : Nat) : Int)
          ∧ consistent f1 d1 ∧ d1.data = short_fd.data)
    ∧ (∃ (f1 : io61_file) (d1 : Fd),
        io61_read 1 { cached_file with pos_tag := 3 } { short_fd with reads := [none] }
            [0, 0, 0, 0, 0] 4 = .ok (-1, [0, 0, 0, 0, 0]) f1 d1
          ∧ f1.pos_tag = 3) :=
  ⟨(io61_read_contract 10 cached_file short_fd [0, 0, 0, 0, 0] 4
      ⟨by rw [cached_file, List.length_append, List.length_replicate]; rfl, by decide, by decide,
        by decide, by decide, rfl, by decide⟩
      (by decide) (by decide)).1
      (by simp [short_fd]) (by decide),
    (io61_read_contract 1 { cached_file with pos_tag := 3 } { short_fd with reads := [none] }
      [0, 0, 0, 0, 0] 4
      ⟨by rw [cached_file, List.length_append, List.length_replicate]; rfl, by decide, by decide,
        by decide, by decide, rfl, by decide⟩
      (by decide) (by decide)).2 [] rfl rfl (by decide) (by decide)⟩

/-! ## io61: writing through the cache -/

/-- A complete write returns the size of what it was given and records it. -/
theorem sys_write_spec (d : Fd) (bytes : List Nat) (hw : ∀ r ∈ d.writes, r = none) :
    (sys_write d bytes).1 = (bytes.length : Int)
      ∧ (sys_write d bytes).2.written = d.written ++ [bytes]
      ∧ (∀ r ∈ (sys_write d bytes).2.writes, r = none) := by
  cases hws : d.writes with
  | nil => simp [sys_write, hws]
  | cons r ws =>
    have hr : r = none := hw r (by rw [hws]; exact List.mem_cons_self _ _)
    subst hr
    refine ⟨by simp [sys_write, hws], by simp [sys_write, hws], ?_⟩
    intro r hr1
    simp only [sys_write, hws] at hr1
    exact hw r (by rw [hws]; exact List.mem_cons_of_mem _ hr1)

/-- When every write is complete `io61_flush` hands the buffered bytes to write
and empties the cache. -/
theorem io61_flush_spec (f : io61_file) (d : Fd) (hlen : f.buff.length = 4096)
    (h1 : f.tag ≤ f.end_tag) (h2 : f.end_tag ≤ f.tag + 4096)
    (hw : ∀ r ∈ d.writes, r = none) :
    ∃ d1 : Fd, io61_flush f d = .ok 0 { f with pos_tag := f.end_tag, tag := f.end_tag } d1
      ∧ d1.written.flatten = d.written.flatten ++ f.buff.take (f.end_tag - f.tag).toNat
      ∧ (∀ r ∈ d1.writes, r = none) := by
  have hB : BUF_SIZE = 4096 := rfl
  unfold io61_flush
  by_cases h : f.end_tag = f.tag
  · rw [if_neg (not_not.mpr h)]
    refine ⟨d, rfl, ?_, hw⟩
    have e : (f.end_tag - f.tag).toNat = 0 := by omega
    rw [e]; simp
  · rw [if_pos h]
    have hnf : ¬ (f.end_tag - f.tag < 0 ∨ f.end_tag - f.tag > BUF_SIZE) := by rw [hB]; omega
    rw [if_neg hnf]
    obtain ⟨hs1, hs2, hs3⟩ := sys_write_spec d (f.buff.take (f.end_tag - f.tag).toNat) hw
    rcases hsw : sys_write d (f.buff.take (f.end_tag - f.tag).toNat) with ⟨n, d1⟩
    rw [hsw] at hs1 hs2 hs3
    simp only at hs1 hs2 hs3 ⊢
    have hn : n = f.end_tag - f.tag := by
      rw [hs1, List.length_take]; omega
    rw [if_pos hn]
    refine ⟨d1, rfl, ?_, hs3⟩
    rw [hs2, List.flatten_append]
    simp

/-- The invariant of the loop of `io61_write`: the bytes handed to write,
followed by the buffered ones, grow by the bytes taken from `buf`; the loop
ends with `sz`. -/
theorem io61_write_loop_spec (fuel : Nat) :
    ∀ (f : io61_file) (d : Fd) (buf : List Nat) (sz br : Nat),
      f.buff.length = 4096 → f.tag ≤ f.pos_tag → f.pos_tag = f.end_tag →
      f.end_tag < f.tag + 4096 → (∀ r ∈ d.writes, r = none) →
      sz < 2 ^ 63 → sz ≤ buf.length → br ≤ sz → sz - br < fuel →
      ∃ (f1 : io61_file) (d1 : Fd),
        io61_write_loop fuel f d buf sz br = .ok ((sz : Nat) : Int) f1 d1
          ∧ f1.buff.length = 4096 ∧ f1.tag ≤ f1.pos_tag ∧ f1.pos_tag = f1.end_tag
          ∧ f1.end_tag < f1.tag + 4096 ∧ (∀ r ∈ d1.writes, r = none)
          ∧ d1.written.flatten ++ f1.buff.take (f1.end_tag - f1.tag).toNat
              = d.written.flatten ++ f.buff.take (f.end_tag - f.tag).toNat
                ++ (buf.drop br).take (sz - br) := by
  induction fuel with
  | zero => intro f d buf sz br _ _ _ _ _ _ _ _ hfuel; omega
  | succ n ih =>
    intro f d buf sz br hlen htp hpe het hw hsz hbuf hbr hfuel
    have hB : BUF_SIZE = 4096 := rfl
    rw [io61_write_loop]
    by_cases h1 : br = sz
    · rw [if_pos h1]
      subst h1
      refine ⟨f, d, rfl, hlen, htp, hpe, het, hw, ?_⟩
      simp
    · rw [if_neg h1]
      have hlt : f.pos_tag - f.tag < BUF_SIZE := by rw [hB]; omega
      rw [if_pos hlt, to_ssize_small _ (by omega)]
      obtain ⟨t, ht1, ht2, ht3, hto⟩ : ∃ t : Nat, 1 ≤ t ∧ br + t ≤ sz
          ∧ f.pos_tag + (t : Int) ≤ f.tag + 4096
          ∧ (if BUF_SIZE - (f.pos_tag - f.tag) < ((sz - br : Nat) : Int) then
              BUF_SIZE - (f.pos_tag - f.tag) else ((sz - br : Nat) : Int)) = (t : Int) := by
        rw [hB]
        by_cases hgt : 4096 - (f.pos_tag - f.tag) < ((sz - br : Nat) : Int)
        · refine ⟨(4096 - (f.pos_tag - f.tag)).toNat, ?_, ?_, ?_, ?_⟩
          · omega
          · omega
          · omega
          · rw [if_pos hgt]; omega
        · refine ⟨sz - br, ?_, ?_, ?_, ?_⟩
          · omega
          · omega
          · omega
          · rw [if_neg hgt]
      rw [hto]
      simp only [Int.toNat_ofNat]
      have hnf : ¬ ((t : Int) < 0 ∨ f.pos_tag - f.tag < 0 ∨ br + t > buf.length) := by omega
      rw [if_neg hnf]
      simp only
      clear hnf hto
      have hend : (if f.pos_tag + (t : Int) > f.end_tag then f.pos_tag + (t : Int) else f.end_tag)
          = f.pos_tag + (t : Int) := by
        split_ifs <;> omega
      rw [hend, if_pos (le_refl _)]
      have hi : (f.buff.take (f.pos_tag - f.tag).toNat ++ (buf.drop br).take t).length
          = (f.pos_tag + (t : Int) - f.tag).toNat := by
        simp only [List.length_append, List.length_take, List.length_drop]
        omega
      have hlen1 : (f.buff.take (f.pos_tag - f.tag).toNat ++ (buf.drop br).take t
          ++ f.buff.drop ((f.pos_tag - f.tag).toNat + t)).length = 4096 := by
        simp only [List.length_append, List.length_take, List.length_drop]
        omega
      have hpend : (f.buff.take (f.pos_tag - f.tag).toNat ++ (buf.drop br).take t
            ++ f.buff.drop ((f.pos_tag - f.tag).toNat + t)).take
              (f.pos_tag + (t : Int) - f.tag).toNat
          = f.buff.take (f.end_tag - f.tag).toNat ++ (buf.drop br).take t := by
        rw [List.take_left' hi, hpe]
      have hsplit : (buf.drop br).take (sz - br)
          = (buf.drop br).take t ++ (buf.drop (br + t)).take (sz - (br + t)) := by
        have e : sz - br = t + (sz - (br + t)) := by omega
        rw [e, List.take_add, List.drop_drop]
      by_cases h4 : f.pos_tag + (t : Int) - f.tag = BUF_SIZE
      · rw [if_pos h4]
        obtain ⟨d2, hfl, hwr, hw2⟩ := io61_flush_spec
          { f with
            buff := f.buff.take (f.pos_tag - f.tag).toNat ++ (buf.drop br).take t
              ++ f.buff.drop ((f.pos_tag - f.tag).toNat + t),
            end_tag := f.pos_tag + (t : Int), pos_tag := f.pos_tag + (t : Int) } d hlen1
          (by show f.tag ≤ f.pos_tag + (t : Int); omega)
          (by show f.pos_tag + (t : Int) ≤ f.tag + 4096; rw [hB] at h4; omega) hw
        rw [hfl]
        simp only
        obtain ⟨f1, d1, hrun, ha, hb, hc, hd, he, hf⟩ :=
          ih { f with
               buff := f.buff.take (f.pos_tag - f.tag).toNat ++ (buf.drop br).take t
                 ++ f.buff.drop ((f.pos_tag - f.tag).toNat + t),
               end_tag := f.pos_tag + (t : Int), pos_tag := f.pos_tag + (t : Int),
               tag := f.pos_tag + (t : Int) } d2 buf sz (br + t) hlen1
            (le_refl _) rfl (by show f.pos_tag + (t : Int) < f.pos_tag + (t : Int) + 4096; omega)
            hw2 hsz hbuf (by omega) (by omega)
        refine ⟨f1, d1, hrun, ha, hb, hc, hd, he, ?_⟩
        rw [hf, hwr]
        have e0 : (f.pos_tag + (t : Int) - (f.pos_tag + (t : Int))).toNat = 0 := by omega
        show d.written.flatten ++ (f.buff.take (f.pos_tag - f.tag).toNat ++ (buf.drop br).take t
              ++ f.buff.drop ((f.pos_tag - f.tag).toNat + t)).take
                (f.pos_tag + (t : Int) - f.tag).toNat
            ++ (f.buff.take (f.pos_tag - f.tag).toNat ++ (buf.drop br).take t
              ++ f.buff.drop ((f.pos_tag - f.tag).toNat + t)).take
                (f.pos_tag + (t : Int) - (f.pos_tag + (t : Int))).toNat
            ++ (buf.drop (br + t)).take (sz - (br + t)) = _
        rw [e0, hpend, hsplit]
        simp only [List.take_zero, List.append_nil, List.append_assoc]
      · rw [if_neg h4]
        obtain ⟨f1, d1, hrun, ha, hb, hc, hd, he, hf⟩ :=
          ih { f with
               buff := f.buff.take (f.pos_tag - f.tag).toNat ++ (buf.drop br).take t
                 ++ f.buff.drop ((f.pos_tag - f.tag).toNat + t),
               end_tag := f.pos_tag + (t : Int), pos_tag := f.pos_tag + (t : Int) } d buf sz
            (br + t) hlen1
            (by show f.tag ≤ f.pos_tag + (t : Int); omega) rfl
            (by show f.pos_tag + (t : Int) < f.tag + 4096; rw [hB] at h4; omega)
            hw hsz hbuf (by omega) (by omega)
        refine ⟨f1, d1, hrun, ha, hb, hc, hd, he, ?_⟩
        rw [hf]
        show d.written.flatten ++ (f.buff.take (f.pos_tag - f.tag).toNat ++ (buf.drop br).take t
              ++ f.buff.drop ((f.pos_tag - f.tag).toNat + t)).take
                (f.pos_tag + (t : Int) - f.tag).toNat
            ++ (buf.drop (br + t)).take (sz - (br + t)) = _
        rw [hpend, hsplit]
        simp only [List.append_assoc]

/-- C20: a sequence of `io61_write` calls, each writing a whole buffer,
followed by `io61_flush`, on a file open for writing whose cache is consistent
(`tag <= pos_tag = end_tag < tag + 4096`), when every underlying write is
complete: each `io61_write` returns the size it was given, the bytes handed to
the underlying write, concatenated, are the bytes handed over before, then the
bytes that were pending, then the buffers in call order, and nothing is
buffered after the flush. -/
theorem write_sequence_reaches_descriptor (fuel : Nat) (bufs : List (List Nat)) (f : io61_file)
    (d : Fd) (hlen : f.buff.length = 4096) (htp : f.tag ≤ f.pos_tag)
    (hpe : f.pos_tag = f.end_tag) (het : f.end_tag < f.tag + 4096)
    (hw : ∀ r ∈ d.writes, r = none)
    (hb : ∀ b ∈ bufs, b.length < 2 ^ 63 ∧ b.length < fuel) :
    ∃ (f1 : io61_file) (d1 : Fd),
      write_all fuel bufs f d = .ok (bufs.map (fun b => ((b.length : Nat) : Int))) f1 d1
        ∧ d1.written.flatten
            = d.written.flatten ++ f.buff.take (f.end_tag - f.tag).toNat ++ bufs.flatten
        ∧ f1.tag = f1.pos_tag ∧ f1.pos_tag = f1.end_tag := by
  induction bufs generalizing f d with
  | nil =>
    obtain ⟨d1, hfl, hwr, -⟩ := io61_flush_spec f d hlen (by omega) (by omega) hw
    refine ⟨{ f with pos_tag := f.end_tag, tag := f.end_tag }, d1, ?_, ?_, rfl, rfl⟩
    · rw [write_all, hfl]; rfl
    · rw [hwr]; simp
  | cons b bs ih =>
    obtain ⟨hb1, hb2⟩ := hb b (List.mem_cons_self _ _)
    obtain ⟨f1, d1, hrun, ha, hb3, hc, hd, he, hf⟩ :=
      io61_write_loop_spec fuel f d b b.length 0 hlen htp hpe het hw hb1 (le_refl _)
        (Nat.zero_le _) (by omega)
    obtain ⟨f2, d2, hrun2, hwr2, ht2, hp2⟩ :=
      ih f1 d1 ha hb3 hc hd he (fun x hx => hb x (List.mem_cons_of_mem _ hx))
    refine ⟨f2, d2, ?_, ?_, ht2, hp2⟩
    · rw [write_all, io61_write, hrun]
      simp only
      rw [hrun2]
      rfl
    · rw [hwr2, hf]
      simp

/-- C20 (witness): two bytes pending, then the buffers `[1, 2, 3]` and `[4]`
written and the file flushed. -/
theorem write_sequence_reaches_descriptor_witness :
    ∃ (f1 : io61_file) (d1 : Fd),
      write_all 10 [[1, 2, 3], [4]] pending_file sink_fd
          = .ok ([[1, 2, 3], [4]].map (fun b => ((b.length : Nat) : Int))) f1 d1
        ∧ d1.written.flatten
            = sink_fd.written.flatten
              ++ pending_file.buff.take (pending_file.end_tag - pending_file.tag).toNat
              ++ [[1, 2, 3], [4]].flatten
        ∧ f1.tag = f1.pos_tag ∧ f1.pos_tag = f1.end_tag :=
  write_sequence_reaches_descriptor 10 [[1, 2, 3], [4]] pending_file sink_fd
    (by rw [pending_file, List.length_append, List.length_replicate]; rfl) (by decide) (by decide)
    (by decide) (by simp [sink_fd]) (by simp)

/-! ## io61: flushing a file that was opened for reading -/

/-- A read does not touch what the descriptor records about writes. -/
theorem sys_read_keeps_writes (d : Fd) (count : Nat) :
    (sys_read d count).2.2.writes = d.writes ∧ (sys_read d count).2.2.written = d.written := by
  unfold sys_read
  split <;> exact ⟨rfl, rfl⟩

/-- What the loop of `io61_read` leaves when it returns: the descriptor's write
side is untouched, and when the result is `sz` (the last step was a copy out of
the cache) the cache is not empty, `tag < end_tag`. -/
theorem io61_read_loop_keeps (fuel : Nat) :
    ∀ (f : io61_file) (d : Fd) (buf : List Nat) (sz br : Nat) (r : Int) (buf1 : List Nat)
      (f1 : io61_file) (d1 : Fd),
      f.tag ≤ f.pos_tag → f.pos_tag ≤ f.end_tag → (br = sz → f.tag < f.end_tag) →
      io61_read_loop fuel f d buf sz br = .ok (r, buf1) f1 d1 →
      d1.writes = d.writes ∧ d1.written = d.written ∧ (r = (sz : Int) → f1.tag < f1.end_tag) := by
  induction fuel with
  | zero => intro f d buf sz br r buf1 f1 d1 _ _ _ h; simp [io61_read_loop] at h
  | succ n ih =>
    intro f d buf sz br r buf1 f1 d1 htp hpe hdone h
    rw [io61_read_loop] at h
    by_cases h1 : br = sz
    · rw [if_pos h1] at h
      simp only [Result.ok.injEq, Prod.mk.injEq] at h
      obtain ⟨⟨-, -⟩, hf, hd⟩ := h
      subst hf hd
      exact ⟨rfl, rfl, fun _ => hdone h1⟩
    · rw [if_neg h1] at h
      by_cases h2 : f.pos_tag < f.end_tag
      · rw [if_pos h2] at h
        obtain ⟨t, ht, hle⟩ : ∃ t : Int,
            (if to_ssize (sz - br) > f.end_tag - f.pos_tag then f.end_tag - f.pos_tag
              else to_ssize (sz - br)) = t ∧ t ≤ f.end_tag - f.pos_tag := by
          refine ⟨_, rfl, ?_⟩
          split_ifs <;> omega
        rw [ht] at h
        simp only at h
        by_cases hf : t < 0 ∨ f.pos_tag - f.tag < 0 ∨ f.pos_tag - f.tag + t > BUF_SIZE
            ∨ br + t.toNat > buf.length
        · rw [if_pos hf] at h
          simp at h
        · rw [if_neg hf] at h
          have ht0 : 0 ≤ t := by
            simp only [not_or, not_lt] at hf
            exact hf.1
          exact ih _ _ _ _ _ _ _ _ _
            (by show f.tag ≤ f.pos_tag + t; omega)
            (by show f.pos_tag + t ≤ f.end_tag; omega)
            (fun _ => by show f.tag < f.end_tag; omega) h
      · rw [if_neg h2] at h
        obtain ⟨hw1, hw2⟩ := sys_read_keeps_writes d BUF_SIZE.toNat
        rcases hsr : sys_read d BUF_SIZE.toNat with ⟨read_res, bytes, d2⟩
        rw [hsr] at h hw1 hw2
        simp only at h hw1 hw2
        by_cases h3 : read_res > 0
        · rw [if_pos h3] at h
          obtain ⟨e1, e2, e3⟩ := ih _ _ _ _ _ _ _ _ _
            (by show f.end_tag ≤ f.pos_tag; omega)
            (by show f.pos_tag ≤ f.end_tag + read_res; omega)
            (fun hbs => absurd hbs h1) h
          exact ⟨e1.trans hw1, e2.trans hw2, e3⟩
        · rw [if_neg h3] at h
          simp only [Result.ok.injEq, Prod.mk.injEq] at h
          obtain ⟨⟨hr, -⟩, hf, hd⟩ := h
          subst hd
          refine ⟨hw1, hw2, ?_⟩
          intro hrs
          exfalso
          rw [← hr] at hrs
          split_ifs at hrs <;> omega

/-- A file just opened on memory that holds zeroes, over a descriptor at
offset 0, has a consistent (empty) cache. -/
theorem io61_fdopen_consistent (fd mode : Int) (mem : io61_file) (d : Fd) (hfd : 0 ≤ fd)
    (hbuff : mem.buff.length = 4096) (h1 : mem.tag = 0) (h2 : mem.end_tag = 0)
    (h3 : mem.pos_tag = 0) (hoff : d.offset = 0) :
    io61_fdopen fd mode mem = some { mem with fd := fd }
      ∧ consistent { mem with fd := fd } d := by
  refine ⟨by simp [io61_fdopen, hfd], ?_⟩
  refine ⟨hbuff, ?_, ?_, ?_, ?_, ?_, ?_⟩
  · show 0 ≤ mem.tag; omega
  · show mem.tag ≤ mem.pos_tag; omega
  · show mem.pos_tag ≤ mem.end_tag; omega
  · show mem.end_tag ≤ mem.tag + BUF_SIZE
    have hB : BUF_SIZE = 4096 := rfl
    omega
  · show mem.buff.take (mem.end_tag - mem.tag).toNat
        = (d.data.drop mem.tag.toNat).take (mem.end_tag - mem.tag).toNat
    have e : (mem.end_tag - mem.tag).toNat = 0 := by omega
    rw [e]; rfl
  · show (d.offset : Int) = mem.end_tag
    omega

/-- What `io61_flush` does with a cache that is not empty: the cached bytes are
handed to write, and the call returns only if write reports them all
written. -/
theorem io61_flush_writes (f : io61_file) (d : Fd) (h1 : f.tag < f.end_tag)
    (h2 : f.end_tag ≤ f.tag + 4096) :
    (sys_write d (f.buff.take (f.end_tag - f.tag).toNat)).2.written
        = d.written ++ [f.buff.take (f.end_tag - f.tag).toNat]
      ∧ io61_flush f d
        = if (sys_write d (f.buff.take (f.end_tag - f.tag).toNat)).1 = f.end_tag - f.tag then
            .ok 0 { f with pos_tag := f.end_tag, tag := f.end_tag }
              (sys_write d (f.buff.take (f.end_tag - f.tag).toNat)).2
          else .abort f (sys_write d (f.buff.take (f.end_tag - f.tag).toNat)).2 := by
  have hB : BUF_SIZE = 4096 := rfl
  constructor
  · unfold sys_write
    split <;> rfl
  · unfold io61_flush
    have hne : f.end_tag ≠ f.tag := by omega
    have hnf : ¬ (f.end_tag - f.tag < 0 ∨ f.end_tag - f.tag > BUF_SIZE) := by rw [hB]; omega
    rw [if_pos hne, if_neg hnf]

/-- C21 (the code's behaviour): a file opened for reading whose cache is
consistent, after an `io61_read` of `sz > 0` bytes that the file still holds.
The read returns `sz` and leaves read data in the cache (`end_tag != tag`).
`io61_flush` then hands the cached bytes to write: the descriptor records a
write of a non-empty buffer, and the call returns only if write reports that
many bytes written.  When write fails with -1, as it does on a descriptor
opened read-only, the assertion on the count fails, in `io61_flush` and in
`io61_close` alike. -/
theorem flush_after_read_writes_cache (fuel : Nat) (f : io61_file) (d : Fd) (buf : List Nat)
    (sz : Nat) (r : Int) (hc : consistent f d)
    (hr : ∀ x ∈ d.reads, ∃ m, x = some m ∧ 0 < m) (hsz0 : 0 < sz) (hsz : sz < 2 ^ 63)
    (hbuf : sz ≤ buf.length) (hleft : f.pos_tag.toNat + sz ≤ d.data.length)
    (hfuel : 2 * sz + 2 ≤ fuel) :
    ∃ (buf1 : List Nat) (f1 : io61_file) (d1 : Fd),
      io61_read fuel f d buf sz = .ok ((sz : Int), buf1) f1 d1
        ∧ f1.end_tag ≠ f1.tag
        ∧ ∃ d2 : Fd,
            d2.written = d.written ++ [f1.buff.take (f1.end_tag - f1.tag).toNat]
            ∧ f1.buff.take (f1.end_tag - f1.tag).toNat ≠ []
            ∧ (io61_flush f1 d1
                  = .ok 0 { f1 with pos_tag := f1.end_tag, tag := f1.end_tag } d2
                ∨ io61_flush f1 d1 = .abort f1 d2)
            ∧ ∀ ws : List (Option Int), d.writes = some (-1) :: ws →
                io61_flush f1 d1 = .abort f1 d2 ∧ io61_close f1 d1 r = .abort f1 d2 := by
  have htag0 : 0 ≤ f.tag := hc.2.1
  have htp : f.tag ≤ f.pos_tag := hc.2.2.1
  have hpe : f.pos_tag ≤ f.end_tag := hc.2.2.2.1
  have hp : f.pos_tag = ((f.pos_tag.toNat + 0 : Nat) : Int) := by omega
  obtain ⟨buf1, f1, d1, hrun, -, -, -, hcons1, -⟩ :=
    io61_read_loop_spec fuel f d buf sz 0 f.pos_tag.toNat hc hr hsz hbuf (Nat.zero_le _) hp rfl
      (by split_ifs <;> omega)
  have hres : min sz (d.data.length - f.pos_tag.toNat) = sz := by omega
  rw [hres] at hrun
  obtain ⟨hw, hwr, hlt⟩ := io61_read_loop_keeps fuel f d buf sz 0 _ buf1 f1 d1 htp hpe
    (fun h => absurd h.symm (by omega)) hrun
  have hlt1 : f1.tag < f1.end_tag := hlt rfl
  have hlen1 : f1.buff.length = 4096 := hcons1.1
  have het1 : f1.end_tag ≤ f1.tag + 4096 := hcons1.2.2.2.2.1
  obtain ⟨hfw1, hfw2⟩ := io61_flush_writes f1 d1 hlt1 het1
  refine ⟨buf1, f1, d1, hrun, by omega,
    (sys_write d1 (f1.buff.take (f1.end_tag - f1.tag).toNat)).2, ?_, ?_, ?_, ?_⟩
  · rw [hfw1, hwr]
  · intro hnil
    have hl := congrArg List.length hnil
    rw [List.length_take, hlen1] at hl
    simp only [List.length_nil] at hl
    omega
  · rw [hfw2]
    split_ifs
    · exact Or.inl rfl
    · exact Or.inr rfl
  · intro ws hws
    have hneg : (sys_write d1 (f1.buff.take (f1.end_tag - f1.tag).toNat)).1 = -1 := by
      simp [sys_write, hw, hws]
    have hne : ¬ (sys_write d1 (f1.buff.take (f1.end_tag - f1.tag).toNat)).1
        = f1.end_tag - f1.tag := by
      rw [hneg]; omega
    have hab : io61_flush f1 d1
        = .abort f1 (sys_write d1 (f1.buff.take (f1.end_tag - f1.tag).toNat)).2 := by
      rw [hfw2, if_neg hne]
    exact ⟨hab, by rw [io61_close, hab]⟩

/-- C21 (witness): a file of five bytes opened read-only on zeroed memory, one
byte read, then flushed or closed. -/
theorem flush_after_read_writes_cache_witness :
    ∃ (buf1 : List Nat) (f1 : io61_file) (d1 : Fd),
      io61_read 4 { zero_memory with fd := 3 } rdonly_fd [0] 1 = .ok (((1 : Nat) : Int), buf1) f1 d1
        ∧ f1.end_tag ≠ f1.tag
        ∧ ∃ d2 : Fd,
            d2.written = rdonly_fd.written ++ [f1.buff.take (f1.end_tag - f1.tag).toNat]
            ∧ f1.buff.take (f1.end_tag - f1.tag).toNat ≠ []
            ∧ (io61_flush f1 d1
                  = .ok 0 { f1 with pos_tag := f1.end_tag, tag := f1.end_tag } d2
                ∨ io61_flush f1 d1 = .abort f1 d2)
            ∧ ∀ ws : List (Option Int), rdonly_fd.writes = some (-1) :: ws →
                io61_flush f1 d1 = .abort f1 d2 ∧ io61_close f1 d1 0 = .abort f1 d2 :=
  flush_after_read_writes_cache 4 { zero_memory with fd := 3 } rdonly_fd [0] 1 0
    (io61_fdopen_consistent 3 0 zero_memory rdonly_fd (by decide)
      (by rw [zero_memory, List.length_replicate]) rfl rfl rfl rfl).2
    (by simp [rdonly_fd]) (by decide) (by decide) (by decide) (by decide) (by decide)

end Io61

namespace M61

/-! ## m61: the overflow test of `m61_calloc` -/

/-- C22 (the code's behaviour): `m61_calloc(2, sz)` for any `sz` above `2 ^ 63`.
The exact product `2 * sz` does not fit in `size_t`; the product the code
computes is `2 * sz - 2 ^ 64`, which is not below `nmemb`, so the test passes.
When `base_malloc` returns a block at `p` for the request, the call asks
`m61_malloc` for `2 * sz - 2 ^ 64` bytes only, memory is requested, the result
is the non-NULL pointer `p + sizeof(stats_meta)`, and no failed allocation is
recorded. -/
theorem m61_calloc_accepts_wrapped_product (sizeof_stats_meta sz p : Nat) (ps : List Nat)
    (h : Heap) (hsz1 : 2 ^ 63 < sz) (hsz2 : sz < 2 ^ 64) (hm : h.mallocs = p :: ps)
    (hp : 0 < p)
    (hfit : p + (2 * sz - 2 ^ 64) + sizeof_stats_meta + sizeof_m61_tail ≤ 2 ^ 64) :
    2 ^ 64 ≤ 2 * sz
      ∧ ∃ h1 : Heap,
          m61_calloc sizeof_stats_meta 2 sz h = some (p + sizeof_stats_meta, h1)
          ∧ m61_malloc sizeof_stats_meta (2 * sz - 2 ^ 64) h = (p + sizeof_stats_meta, h1)
          ∧ p + sizeof_stats_meta ≠ 0
          ∧ h1.requested
              = h.requested ++ [2 * sz - 2 ^ 64 + sizeof_stats_meta + sizeof_m61_tail]
          ∧ h1.stats_global.nfail = h.stats_global.nfail
          ∧ h1.stats_global.ntotal = wrap (h.stats_global.ntotal + 1) := by
  have ht : sizeof_m61_tail = 4 := rfl
  rw [ht] at hfit ⊢
  obtain ⟨x, hx⟩ : ∃ x, x = 2 * sz - 2 ^ 64 := ⟨_, rfl⟩
  rw [← hx] at hfit ⊢
  have e1 : wrap (2 * sz) = x := by unfold wrap; omega
  have e2 : wrap (sizeof_stats_meta + x) = sizeof_stats_meta + x := by unfold wrap; omega
  have e3 : wrap (x + sizeof_stats_meta + 4) = x + sizeof_stats_meta + 4 := by unfold wrap; omega
  have e4 : wrap (p + sizeof_stats_meta) = p + sizeof_stats_meta := by unfold wrap; omega
  have hx2 : x ≥ 2 := by omega
  have hp0 : p ≠ 0 := by omega
  have hmal : ∃ h1 : Heap, m61_malloc sizeof_stats_meta x h = (p + sizeof_stats_meta, h1)
      ∧ h1.requested = h.requested ++ [x + sizeof_stats_meta + 4]
      ∧ h1.stats_global.nfail = h.stats_global.nfail
      ∧ h1.stats_global.ntotal = wrap (h.stats_global.ntotal + 1) := by
    have hge : sizeof_stats_meta + x ≥ x := by omega
    simp only [m61_malloc, e2, hge, if_true, ht, e3, base_malloc, hm, hp0, if_false, e4]
    exact ⟨_, rfl, rfl, rfl, rfl⟩
  obtain ⟨h1, hr, hq, hnf, hnt⟩ := hmal
  refine ⟨by omega, h1, ?_, hr, by omega, hq, hnf, hnt⟩
  have hpm : ¬ (p + sizeof_stats_meta = 0 ∧ x ≠ 0) := by omega
  simp only [m61_calloc, e1, hx2, if_true, hr, hpm, if_false]

/-- C22 (witness): `m61_calloc(2, 2 ^ 63 + 1)` on a fresh heap, with a metadata
record of 64 bytes. -/
theorem m61_calloc_accepts_wrapped_product_witness :
    2 ^ 64 ≤ 2 * (2 ^ 63 + 1)
      ∧ ∃ h1 : Heap,
          m61_calloc 64 2 (2 ^ 63 + 1) fresh_heap = some (4096 + 64, h1)
          ∧ m61_malloc 64 (2 * (2 ^ 63 + 1) - 2 ^ 64) fresh_heap = (4096 + 64, h1)
          ∧ 4096 + 64 ≠ 0
          ∧ h1.requested
              = fresh_heap.requested ++ [2 * (2 ^ 63 + 1) - 2 ^ 64 + 64 + sizeof_m61_tail]
          ∧ h1.stats_global.nfail = fresh_heap.stats_global.nfail
          ∧ h1.stats_global.ntotal = wrap (fresh_heap.stats_global.ntotal + 1) :=
  m61_calloc_accepts_wrapped_product 64 (2 ^ 63 + 1) 4096 [] fresh_heap (by decide) (by decide)
    rfl (by decide) (by decide)

end M61
